import Mathlib

/-!
Verification development for the flymake build tool (C sources under src/).

C strings are embedded as `List Char` (`Str`). Functions keep the names of the
C functions they embed where Lean allows it. External flylibc helpers
(string/file utilities) that are not part of this repository are embedded from
their documented contracts and from how this repository's code uses them; each
such definition says so in its doc comment.
-/

namespace Flymake

/-- C strings are modelled as lists of characters. -/
abbrev Str := List Char

/-- Shorthand turning a Lean string literal into the `List Char` embedding. -/
def cs (s : String) : Str := s.data

/-- strncmp-style prefix test: `isPre pat l` is true iff `pat` is an initial
segment of `l` (character-wise). -/
def isPre : Str → Str → Bool
  | [], _ => true
  | _ :: _, [] => false
  | a :: as, b :: bs => a == b && isPre as bs

/-- strstr: index of the first occurrence of `pat` in `l`, if any. -/
def strstrIdx (pat : Str) : Str → Option Nat
  | [] => if pat.isEmpty then some 0 else none
  | c :: rest =>
    if isPre pat (c :: rest) then some 0
    else (strstrIdx pat rest).map (· + 1)

/-- strstr as a Bool: does `pat` occur anywhere in `l`? -/
def containsSub (l pat : Str) : Bool := (strstrIdx pat l).isSome

/-- Number of positions of `l` at which `pat` occurs (used only to state
claims about how many times a marker appears in a template). -/
def countOccur (l pat : Str) : Nat :=
  match l with
  | [] => if pat.isEmpty then 1 else 0
  | _ :: rest => (if isPre pat l then 1 else 0) + countOccur rest pat

theorem isPre_refl (l : Str) : isPre l l = true := by
  induction l with
  | nil => rfl
  | cons c rest ih => simp [isPre, ih]

theorem isPre_append (pat rest : Str) : isPre pat (pat ++ rest) = true := by
  induction pat with
  | nil => rfl
  | cons c t ih => simp [isPre, ih]

theorem isPre_iff (pat l : Str) : isPre pat l = true ↔ ∃ t, l = pat ++ t := by
  induction pat generalizing l with
  | nil => simp [isPre]
  | cons a as ih =>
    cases l with
    | nil => simp [isPre]
    | cons b bs =>
      simp only [isPre, Bool.and_eq_true, beq_iff_eq, ih]
      constructor
      · rintro ⟨rfl, t, rfl⟩; exact ⟨t, rfl⟩
      · rintro ⟨t, h⟩
        cases h
        exact ⟨rfl, t, rfl⟩

/-! ## Marker validation of compiler templates

From `FmkTomlCheckMarkers` in flymaketoml.c (packed into src/src/flymakeclean.c):
for each marker, `found` is incremented once iff `strstr` locates the marker,
then every `found` must equal 1. -/

/-- The `found` counter `FmkTomlCheckMarkers` computes for one marker: the
marker's `found` field is bumped at most once, by a single `strstr` call. -/
def fmkMarkerFound (sz m : Str) : Nat := if containsSub sz m then 1 else 0

/-- `FmkTomlCheckMarkers` (src/src/flymakeclean.c:834-861): all markers must
have `found = 1`. -/
def fmkTomlCheckMarkers (sz : Str) (markers : List Str) : Bool :=
  markers.all (fun m => fmkMarkerFound sz m == 1)

/-- The compile-template marker set `aMarkersCompile`
(src/src/flymakeclean.c:900). -/
def aMarkersCompile : List Str :=
  [cs "\x7bin\x7d", cs "\x7bincs\x7d", cs "\x7bwarn\x7d", cs "\x7bdebug\x7d", cs "\x7bout\x7d"]

/-- The link-template marker set `aMarkersLink` (src/src/flymakeclean.c:901). -/
def aMarkersLink : List Str :=
  [cs "\x7bin\x7d", cs "\x7blibs\x7d", cs "\x7bdebug\x7d", cs "\x7bout\x7d"]

/-- A cc template in which the marker `\x7bout\x7d` occurs twice. -/
def fmkDupTemplate : Str :=
  cs "cc \x7bin\x7d -c \x7bincs\x7d\x7bwarn\x7d\x7bdebug\x7d-o \x7bout\x7d \x7bout\x7d"

/-- C2: the load-time template check of `FmkTomlCheckMarkers` accepts a cc
template containing the `\x7bout\x7d` placeholder twice (it only tests presence
of each marker via a single strstr), and it does reject a template missing a
placeholder.  The claim says a placeholder appearing more than once is rejected
at load time; the code's own comment ("once and only once") agrees with the
claim, the behaviour does not. -/
theorem fmkTomlCheckMarkers_accepts_duplicate :
    fmkTomlCheckMarkers fmkDupTemplate aMarkersCompile = true ∧
    countOccur fmkDupTemplate (cs "\x7bout\x7d") = 2 ∧
    fmkTomlCheckMarkers (cs "cc \x7bin\x7d -c \x7bincs\x7d\x7bwarn\x7d-o \x7bout\x7d")
      aMarkersCompile = false := by
  refine ⟨by decide, by decide, by decide⟩

/-! ## Source lists (src/src/flymakelist.c)

`FlyMakeSrcListNew` asks flylibc (`FlyFileListNewExts`) for the files under a
folder whose extension matches a compiler rule.  flylibc is not part of this
repository; its result is passed in as `listing`, where `none` embeds the NULL
handle flylibc returns for an invalid folder path and `some files` the (not yet
sorted) enumeration of matching files of a valid folder (possibly empty), per
the contract the function's own doc comment relies on. -/

/-- strcmp-style lexicographic order on characters of two strings. -/
def strLe : Str → Str → Bool
  | [], _ => true
  | _ :: _, [] => false
  | a :: as, b :: bs =>
    if a = b then strLe as bs else decide (a < b)

/-- Insertion of one string into a sorted list (helper for `FlyFileListSort`,
the flylibc sort with default comparator used by `FlyMakeSrcListNew`). -/
def sortInsert (s : Str) : List Str → List Str
  | [] => [s]
  | t :: rest => if strLe s t then s :: t :: rest else t :: sortInsert s rest

/-- `FlyFileListSort` with the default comparator: sort the file names. -/
def flyFileListSort : List Str → List Str
  | [] => []
  | s :: rest => sortInsert s (flyFileListSort rest)

/-- The `fmkSrcList_t` structure of src/src/flymakelist.c: the sorted file
list plus the `pfUsed` markers (all false on creation). -/
structure FmkSrcList where
  files : List Str
  used : List Bool
deriving DecidableEq, Repr

/-- `FlyMakeSrcListNew` (src/src/flymakelist.c:58-116): NULL (`none`) exactly
when flylibc reports the folder path invalid; otherwise a handle holding the
sorted listing, with every file initially unused.  (The C code can also return
NULL on allocation failure; allocation is assumed to succeed.) -/
def flyMakeSrcListNew (listing : Option (List Str)) : Option FmkSrcList :=
  match listing with
  | none => none
  | some files =>
    let sorted := flyFileListSort files
    some ⟨sorted, sorted.map (fun _ => false)⟩

/-- `FlyMakeSrcListLen` (src/src/flymakelist.c:140-149): 0 for an invalid
handle, else the length of the file list. -/
def flyMakeSrcListLen : Option FmkSrcList → Nat
  | none => 0
  | some sl => sl.files.length

theorem flyFileListSort_length (l : List Str) :
    (flyFileListSort l).length = l.length := by
  induction l with
  | nil => rfl
  | cons s rest ih =>
    have hins : ∀ t : List Str, (sortInsert s t).length = t.length + 1 := by
      intro t
      induction t with
      | nil => rfl
      | cons u us ihu =>
        by_cases h : strLe s u = true
        · simp [sortInsert, h]
        · simp [sortInsert, h, ihu]
    simp [flyFileListSort, hins, ih]

/-- C9: `FlyMakeSrcListNew` returns NULL exactly when the folder path is
invalid (flylibc's enumeration returned NULL); for a valid folder with no
matching files it returns a non-NULL list of length zero, so callers can
distinguish a bad path from a valid empty result. -/
theorem flyMakeSrcListNew_none_iff (listing : Option (List Str)) :
    ((flyMakeSrcListNew listing).isNone ↔ listing.isNone) ∧
    (listing = some [] →
      ∃ sl, flyMakeSrcListNew listing = some sl ∧
        flyMakeSrcListLen (flyMakeSrcListNew listing) = 0) ∧
    (∀ files, listing = some files →
      flyMakeSrcListLen (flyMakeSrcListNew listing) = files.length) := by
  refine ⟨?_, ?_, ?_⟩
  · cases listing <;> simp [flyMakeSrcListNew]
  · rintro rfl
    exact ⟨⟨[], []⟩, rfl, rfl⟩
  · rintro files rfl
    simp [flyMakeSrcListNew, flyMakeSrcListLen, flyFileListSort_length]

/-- Witness for C9 at a concrete listing. -/
theorem flyMakeSrcListNew_none_iff_witness :
    ((flyMakeSrcListNew (some [])).isNone ↔ (some ([] : List Str)).isNone) ∧
    (∃ sl, flyMakeSrcListNew (some []) = some sl ∧
      flyMakeSrcListLen (flyMakeSrcListNew (some [])) = 0) := by
  have h := flyMakeSrcListNew_none_iff (some [])
  exact ⟨h.1, h.2.1 rfl⟩

/-! ## Folder rules and the "simple project" decision
(src/src/flymakeclean.c, flymaketoml.c part: `FmkTomlProcessFolders`) -/

/-- `fmkRule_t` (flymake.h). -/
inductive FmkRule where
  | lib
  | src
  | tool
  | proj
deriving DecidableEq, Repr

/-- `flyMakeFolder_t` (flymake.h): a folder path with its build rule. -/
structure FmkFolderRule where
  szFolder : Str
  rule : FmkRule
deriving DecidableEq, Repr

/-- The tail of `FmkTomlProcessFolders` (src/src/flymakeclean.c:1533-1557):
after manifest and default-folder processing produced `folderList`, if the list
is empty a source list of the root is taken (`rootListing` is flylibc's
enumeration of the root folder, as in `flyMakeSrcListNew`); the code then tests
`FlyMakeSrcListLen(hList) >= 0` — an unsigned value compared against 0 — and on
success marks the project simple and makes the root a single library-rule
folder.  Returns (fIsSimple, folder list). -/
def fmkTomlProcessFoldersSimple (szRoot : Str) (folderList : List FmkFolderRule)
    (rootListing : Option (List Str)) : Bool × List FmkFolderRule :=
  if folderList = [] then
    match flyMakeSrcListNew rootListing with
    | some sl =>
      if flyMakeSrcListLen (some sl) ≥ 0 then
        (true, [⟨szRoot, FmkRule.lib⟩])
      else (false, [])
    | none => (false, [])
  else (false, folderList)

/-- `FlyMakeStateDepth` (src/unnamed/part_002:68-71, flymakestate.c): source
scan depth is 1 for a simple project, else `FMK_SRC_DEPTH` = 3. -/
def flyMakeStateDepth (fIsSimple : Bool) : Nat :=
  if fIsSimple then 1 else 3

/-- C3: the source evaluated at the failing input.  For a root whose folder
list is empty and whose folder is valid but contains zero source files with a
recognized extension, `FmkTomlProcessFolders` still marks the project "simple"
and installs the root as a library-rule folder (its guard
`FlyMakeSrcListLen(hList) >= 0` compares an unsigned against 0 and is always
true), and the scan depth becomes 1; the claim requires at least one source
file in the root for this to happen. -/
theorem fmkTomlProcessFoldersSimple_empty_root :
    fmkTomlProcessFoldersSimple (cs "") [] (some []) = (true, [⟨cs "", FmkRule.lib⟩]) ∧
    flyMakeSrcListLen (flyMakeSrcListNew (some [])) = 0 ∧
    flyMakeStateDepth true = 1 ∧ flyMakeStateDepth false = 3 := by
  refine ⟨rfl, rfl, rfl, rfl⟩

/-! ## Dependency processing (src/src/flymakedep.c)

The dependency resolver walks `[dependencies]` of each manifest.  TOML parsing,
the filesystem and git are external effects; a declaration is embedded as the keys
the TOML iteration yields plus the outcomes the environment would produce for
the checks the code performs (folder existence, clone success, the
sub-manifest's version). -/

/-- Modelled from the spec: `FlySemVerCpy`-style parse of up to three numeric
dot-separated components; missing components read as 0 ("Version 1 is assumed
to be 1.0.0").  `FlySemVer` lives in flylibc, outside this repository. -/
def semVerComponents (v : Str) : List Nat :=
  (splitOnDot v).map natOfDigits
where
  splitOnDot (l : Str) : List Str :=
    match l with
    | [] => [[]]
    | c :: rest =>
      let r := splitOnDot rest
      if c = '.' then [] :: r
      else match r with
        | [] => [[c]]
        | h :: t => (c :: h) :: t
  natOfDigits (l : Str) : Nat :=
    l.foldl (fun acc c => if c.isDigit then acc * 10 + (c.toNat - 48) else acc) 0

/-- Major/minor/patch triple of a version string (missing parts are 0). -/
def semVerTriple (v : Str) : Nat × Nat × Nat :=
  let comps := semVerComponents v
  (comps.getD 0 0, comps.getD 1 0, comps.getD 2 0)

/-- Lexicographic comparison of version triples. -/
def semVerTripleLe (a b : Nat × Nat × Nat) : Bool :=
  decide (a.1 < b.1) || (a.1 == b.1 &&
    (decide (a.2.1 < b.2.1) || (a.2.1 == b.2.1 && decide (a.2.2 ≤ b.2.2))))

/-- Modelled from the spec (§4.4.1 of the user manual and the spec's version
table): the exclusive upper bound of a range bumps the leftmost nonzero
component, or the last specified component when all are zero; e.g. "2.1" means
&lt;3.0.0, "0.2.3" means &lt;0.3.0, "0.0.3" means &lt;0.0.4, "0" means &lt;1.0.0. -/
def semVerRangeHigh (range : Str) : Nat × Nat × Nat :=
  let comps := semVerComponents range
  let ma := comps.getD 0 0
  let mi := comps.getD 1 0
  let pa := comps.getD 2 0
  if ma > 0 then (ma + 1, 0, 0)
  else if mi > 0 then (ma, mi + 1, 0)
  else if pa > 0 then (ma, mi, pa + 1)
  else match comps.length with
    | 1 => (ma + 1, 0, 0)
    | 2 => (ma, mi + 1, 0)
    | _ => (ma, mi, pa + 1)

/-- Modelled from the spec: `FlySemVerMatch(range, version)`.  `*` on either
side matches anything; otherwise the version must be ≥ the range and below the
range's upper bound. -/
def flySemVerMatch (range ver : Str) : Bool :=
  if range = cs "*" || ver = cs "*" then true
  else
    let v := semVerTriple ver
    semVerTripleLe (semVerTriple range) v &&
      !(semVerTripleLe (semVerRangeHigh range) v)

/-- `flyMakeDep_t` (flymake.h): one resolved dependency on the root state's
list.  `libs` and the built sub-state are irrelevant to list processing and are
reduced to the library string; `pStateVer` stands for the owned sub-state's
resolved version where one exists. -/
structure FmkDep where
  szName : Str
  szVer : Str
  szRange : Str
  szIncFolder : Str
deriving DecidableEq, Repr

/-- `FmkDepFind` (src/src/flymakedep.c:990-1003): first dependency with the
given name. -/
def fmkDepFind (deps : List FmkDep) (szName : Str) : Option FmkDep :=
  deps.find? (fun d => d.szName == szName)

/-- One `[dependencies]` declaration as `FmkDepProcessToml` sees it: the
recognized inline-table keys, plus the environment outcomes the code would
observe while processing it (whether the prebuilt paths exist, whether a clone
succeeds and is a valid package, the sub-manifest's version). -/
structure FmkDepDecl where
  name : Str
  keyGit : Option Str
  keyPath : Option Str
  keyInc : Option Str
  keyVer : Option Str
  keySha : Option Str
  keyBranch : Option Str
  envIncExists : Bool := true
  envLibExists : Bool := true
  envAlreadyCloned : Bool := false
  envCloneOk : Bool := true
  envGitFoundVer : Option Str := none
  envPkgIsRoot : Bool := true
  envPkgTomlOk : Bool := true
  envPkgHasLibRule : Bool := true
  envPkgProjVer : Option Str := none
  envPkgInc : Str := []
deriving Repr

/-- `FmkDepVersionValidate` (src/src/flymakedep.c:1094-1113): look the name up
on the root list; error iff found and the requested range does not accept the
recorded version.  Returns the found dependency. -/
def fmkDepVersionValidate (deps : List FmkDep) (szDepName szRange : Str) :
    Except Str (Option FmkDep) :=
  match fmkDepFind deps szDepName with
  | some pDep =>
    if ¬ flySemVerMatch szRange pDep.szVer then Except.error (cs "version conflict")
    else Except.ok (some pDep)
  | none => Except.ok none

/-- `FmkDepPackageValidate` + `FmkDepPackageAdd` (src/src/flymakedep.c:1138-1280):
validate the folder as a buildable package, append a new dependency record
whose version is the sub-manifest's `package.version` (else the version found
in git, else `*`), then run `FmkDepVersionValidate` — which now finds the
just-appended record and checks the requested range against it. -/
def fmkDepPackageAdd (deps : List FmkDep) (d : FmkDepDecl) (szRange : Str)
    (szVer : Option Str) : Except Str (List FmkDep) :=
  if ¬ d.envPkgIsRoot then Except.error (cs "folder not a project")
  else if ¬ d.envPkgTomlOk then Except.error (cs "invalid flymake.toml file")
  else if ¬ d.envPkgHasLibRule then Except.error (cs "project cannot be built as library")
  else
    let projVer := match d.envPkgProjVer with
      | some v => v
      | none => match szVer with
        | some v => v
        | none => cs "*"
    let deps' := deps ++ [⟨d.name, projVer, szRange, d.envPkgInc⟩]
    match fmkDepVersionValidate deps' d.name szRange with
    | Except.error e => Except.error e
    | Except.ok _ => Except.ok deps'

/-- `FmkDepProcessPrebuilt` (src/src/flymakedep.c:1578-1656): both `path=` and
`inc=` present; checks the include folder and library file exist, rejects a
previously recorded dependency of the same name whose include folder differs,
and otherwise appends a new record with range `*`. -/
def fmkDepProcessPrebuilt (deps : List FmkDep) (d : FmkDepDecl) :
    Except Str (List FmkDep) :=
  if ¬ d.envIncExists then Except.error (cs "include folder not found")
  else if ¬ d.envLibExists then Except.error (cs "library not found")
  else
    match fmkDepFind deps d.name with
    | some pDep =>
      if pDep.szIncFolder ≠ d.keyInc.getD [] then
        Except.error (cs "duplicate dependency, different includer folder")
      else Except.ok deps
    | none =>
      Except.ok (deps ++ [⟨d.name, cs "*", cs "*", d.keyInc.getD []⟩])

/-- `FmkDepProcessPackage` (src/src/flymakedep.c:1669-1717): `path=` without
`inc=`; version-validate against the root list, then (when the name is new)
validate and append the package. -/
def fmkDepProcessPackage (deps : List FmkDep) (d : FmkDepDecl) :
    Except Str (List FmkDep) :=
  let szRange := d.keyVer.getD (cs "*")
  match fmkDepVersionValidate deps d.name szRange with
  | Except.error e => Except.error e
  | Except.ok (some _) => Except.ok deps
  | Except.ok none => fmkDepPackageAdd deps d szRange none

/-- `FmkDepProcessGit` (src/src/flymakedep.c:1735-1808) together with
`FmkDepPackageClone`: version-validate against the root list; for a new name
clone unless already cloned (rejecting `version=` together with `sha=`), then
validate and append the package. -/
def fmkDepProcessGit (deps : List FmkDep) (d : FmkDepDecl) :
    Except Str (List FmkDep) :=
  let szRange := d.keyVer.getD (cs "*")
  match fmkDepVersionValidate deps d.name szRange with
  | Except.error e => Except.error e
  | Except.ok (some _) => Except.ok deps
  | Except.ok none =>
    if d.envAlreadyCloned then fmkDepPackageAdd deps d szRange d.envGitFoundVer
    else if ¬ d.envCloneOk then Except.error (cs "cannot clone")
    else if d.keyVer.isSome ∧ d.keySha.isSome then
      Except.error (cs "cannot specify both version and sha")
    else fmkDepPackageAdd deps d szRange d.envGitFoundVer

/-- The per-declaration dispatch of `FmkDepProcessToml`
(src/src/flymakedep.c:1904-1923): a declaration must carry `path=` or `git=`;
then, when the name is already on the root state's dependency list, only
`FmkDepAddIncLibs` runs (the recorded include folder is propagated; the
dependency list is unchanged and nothing is checked); only a new name reaches
the three shape handlers. -/
def fmkDepProcessDecl (deps : List FmkDep) (d : FmkDepDecl) :
    Except Str (List FmkDep) :=
  if d.keyGit.isNone ∧ d.keyPath.isNone then
    Except.error (cs "expected \x22path=\x22 or \x22git=\x22 key in inline table")
  else
    match fmkDepFind deps d.name with
    | some _ => Except.ok deps
    | none =>
      if d.keyGit.isSome then fmkDepProcessGit deps d
      else if d.keyInc.isSome ∧ d.keyPath.isSome then fmkDepProcessPrebuilt deps d
      else fmkDepProcessPackage deps d

/-- The dependency list after the root manifest declared
`a = \x7b git="u", version="1" \x7d` (resolved at version 1.0). -/
def fmkDepA : FmkDep := ⟨cs "a", cs "1.0", cs "1", cs "ia/"⟩

/-- A later declaration of the same name `a` requesting version range 2. -/
def fmkDeclA2 : FmkDepDecl :=
  { name := cs "a", keyGit := some (cs "u"), keyPath := none, keyInc := none
    keyVer := some (cs "2"), keySha := none, keyBranch := none }

/-- A later prebuilt declaration of the same name `a` with a different
include path. -/
def fmkDeclAPrebuilt : FmkDepDecl :=
  { name := cs "a", keyGit := none, keyPath := some (cs "../a/lib/a.a")
    keyInc := some (cs "other/"), keyVer := none, keySha := none, keyBranch := none }

/-- C1: the source evaluated at the failing input.  With `a` already resolved
at version 1.0 on the root list, a second declaration of `a` requesting range 2
is accepted without any error (`FmkDepProcessToml` finds the name and only
propagates the recorded include folder), although the range does not accept the
resolved version; likewise a second prebuilt declaration of `a` naming a
different include path is accepted.  The claim (and the checks sitting
unreachable in `FmkDepVersionValidate`/`FmkDepProcessPrebuilt`) demand a
manifest error for both. -/
theorem fmkDepProcessDecl_duplicate_unchecked :
    fmkDepProcessDecl [fmkDepA] fmkDeclA2 = Except.ok [fmkDepA] ∧
    flySemVerMatch (cs "2") (cs "1.0") = false ∧
    fmkDepProcessDecl [fmkDepA] fmkDeclAPrebuilt = Except.ok [fmkDepA] ∧
    fmkDepA.szIncFolder ≠ fmkDeclAPrebuilt.keyInc.getD [] ∧
    fmkDepProcessPackage [fmkDepA]
      { fmkDeclA2 with keyGit := none, keyPath := some (cs "../a/") } =
      Except.error (cs "version conflict") := by
  refine ⟨by rfl, by decide, by rfl, by decide, by rfl⟩

/-! ## Placeholder substitution (src/src/flymakeclean.c, flymaketoml.c part)

`FlyMakeCompilerFmtCompile`/`FlyMakeCompilerFmtLink` copy the template into a
buffer and, for each marker in a fixed order, locate it with `strstr` over the
whole buffer and splice the value in at that position (memmove/memcpy). -/

/-- One `strstr`+splice step: replace the first occurrence of `pat` in the
buffer by `sub`.  When the marker is absent the C code hits `FlyAssert(psz)`;
the buffer is left unchanged here. -/
def substOnce (pat sub : Str) : Str → Str
  | [] => []
  | c :: rest =>
    if isPre pat (c :: rest) then sub ++ (c :: rest).drop pat.length
    else c :: substOnce pat sub rest

/-- The space-separated argument words of a string, as the
`FlyStrArgLen`/`FlyStrArgNext` iteration of `FmkAddIncOpts` walks them
(flylibc helpers; embedded from their use at src/src/flymakeclean.c:638-683). -/
def argWords (l : Str) : List Str :=
  let step := fun (acc : List Str × Str) (c : Char) =>
    if c = ' ' then (if acc.2 = [] then acc else (acc.1 ++ [acc.2.reverse], ([] : Str)))
    else (acc.1, c :: acc.2)
  let r := l.foldl step ([], [])
  if r.2 = [] then r.1 else r.1 ++ [r.2.reverse]

/-- `FmkAddIncOpts` (src/src/flymakeclean.c:638-683): turn a space-separated
include list into include options, e.g. ". inc/" with prefix "-I" becomes
"-I. -Iinc/ " (each argument gets the prefix and a trailing space). -/
def fmkAddIncOpts (szIncs szIncOpt : Str) : Str :=
  ((argWords szIncs).map (fun w => szIncOpt ++ w ++ [' '])).flatten

/-- `flyMakeCompiler_t` (flymake.h). -/
structure FlyMakeCompiler where
  szExts : Str
  szCc : Str
  szCcDbg : Str
  szInc : Str
  szWarn : Str
  szLl : Str
  szLlDbg : Str
deriving DecidableEq, Repr

/-- The built-in C compiler rule (src/src/flymakeclean.c:272-278). -/
def fmkCompilerC : FlyMakeCompiler :=
  { szExts := cs ".c"
    szCc := cs "cc \x7bin\x7d -c \x7bincs\x7d\x7bwarn\x7d\x7bdebug\x7d-o \x7bout\x7d"
    szCcDbg := cs "-g -DDEBUG=1 "
    szInc := cs "-I"
    szWarn := cs "-Wall -Werror "
    szLl := cs "cc \x7bin\x7d \x7blibs\x7d\x7bdebug\x7d-o \x7bout\x7d"
    szLlDbg := cs "-g " }

/-- The built-in C++ compiler rule (src/src/flymakeclean.c:280-282). -/
def fmkCompilerCpp : FlyMakeCompiler :=
  { fmkCompilerC with
    szExts := cs ".c++.cpp.cxx.cc.C"
    szCc := cs "c++ \x7bin\x7d -c \x7bincs\x7d\x7bwarn\x7d\x7bdebug\x7d-o \x7bout\x7d"
    szLl := cs "c++ \x7bin\x7d \x7blibs\x7d\x7bdebug\x7d-o \x7bout\x7d" }

/-- `FlyMakeCompilerListDefault` (src/src/flymakeclean.c:561-593). -/
def flyMakeCompilerListDefault : List FlyMakeCompiler :=
  [fmkCompilerC, fmkCompilerCpp]

/-- `FlyMakeCompilerFmtCompile` (src/src/flymakeclean.c:699-760): start from
the cc template and substitute, in this order, the first occurrence of each of
the five markers; the `\x7bincs\x7d` value is the include list transformed by
`FmkAddIncOpts` with the rule's include prefix. -/
def flyMakeCompilerFmtCompile (pCompiler : FlyMakeCompiler)
    (szIn szIncs szWarn szDebug szOut : Str) : Str :=
  let subs : List (Str × Str) :=
    [(cs "\x7bin\x7d", szIn),
     (cs "\x7bincs\x7d", fmkAddIncOpts szIncs pCompiler.szInc),
     (cs "\x7bwarn\x7d", szWarn),
     (cs "\x7bdebug\x7d", szDebug),
     (cs "\x7bout\x7d", szOut)]
  subs.foldl (fun buf ps => substOnce ps.1 ps.2 buf) pCompiler.szCc

/-- `FlyMakeCompilerFmtLink` (src/src/flymakeclean.c:775-822): the same over
the ll template and its four markers. -/
def flyMakeCompilerFmtLink (pCompiler : FlyMakeCompiler)
    (szIn szLibs szDebug szOut : Str) : Str :=
  let subs : List (Str × Str) :=
    [(cs "\x7bin\x7d", szIn),
     (cs "\x7blibs\x7d", szLibs),
     (cs "\x7bdebug\x7d", szDebug),
     (cs "\x7bout\x7d", szOut)]
  subs.foldl (fun buf ps => substOnce ps.1 ps.2 buf) pCompiler.szLl

/-- Modelled from the spec: the never-rescanned substitution semantics the
claim describes.  The buffer is a list of segments; a substituted value
becomes a protected segment that later marker searches skip, so a
placeholder-like substring inside an already-substituted value is never
matched.  Used only for comparison with the source-derived definition. -/
def protSubstOnce (pat sub : Str) : List (Bool × Str) → List (Bool × Str)
  | [] => []
  | (prot, s) :: rest =>
    if prot then (prot, s) :: protSubstOnce pat sub rest
    else match strstrIdx pat s with
      | some i => (false, s.take i) :: (true, sub) :: (false, s.drop (i + pat.length)) :: rest
      | none => (false, s) :: protSubstOnce pat sub rest

/-- Modelled from the spec: compile-command substitution with values protected
from rescanning (single pass, fixed order, replaced values never rescanned). -/
def specFmtCompile (pCompiler : FlyMakeCompiler)
    (szIn szIncs szWarn szDebug szOut : Str) : Str :=
  let subs : List (Str × Str) :=
    [(cs "\x7bin\x7d", szIn),
     (cs "\x7bincs\x7d", fmkAddIncOpts szIncs pCompiler.szInc),
     (cs "\x7bwarn\x7d", szWarn),
     (cs "\x7bdebug\x7d", szDebug),
     (cs "\x7bout\x7d", szOut)]
  ((subs.foldl (fun segs ps => protSubstOnce ps.1 ps.2 segs)
      [(false, pCompiler.szCc)]).map (fun seg => seg.2)).flatten

/-- C4 counterexample: with input path "x\x7bout\x7dy.c" and output "o.o", the
source substitution replaces the placeholder-like substring inside the
already-substituted input value (the later `\x7bout\x7d` search scans the whole
buffer from the start), leaving the template's own `\x7bout\x7d` literally in
the command; the spec's protected semantics substitutes the template's
placeholder instead.  This refutes "a placeholder-like substring contained in
an already-substituted value is never rescanned or replaced". -/
theorem flyMakeCompilerFmtCompile_rescans_value :
    flyMakeCompilerFmtCompile fmkCompilerC (cs "x\x7bout\x7dy.c") [] [] [] (cs "o.o")
      = cs "cc xo.oy.c -c -o \x7bout\x7d" ∧
    specFmtCompile fmkCompilerC (cs "x\x7bout\x7dy.c") [] [] [] (cs "o.o")
      = cs "cc x\x7bout\x7dy.c -c -o o.o" ∧
    flyMakeCompilerFmtCompile fmkCompilerC (cs "x\x7bout\x7dy.c") [] [] [] (cs "o.o")
      ≠ specFmtCompile fmkCompilerC (cs "x\x7bout\x7dy.c") [] [] [] (cs "o.o") := by
  refine ⟨by decide, by decide, by decide⟩

theorem substOnce_append_of_not_mem {s : Str} (pat sub t : Str) (p : Str)
    (hpat : pat = '{' :: p) (hs : '{' ∉ s) :
    substOnce pat sub (s ++ t) = s ++ substOnce pat sub t := by
  induction s with
  | nil => rfl
  | cons c rest ih =>
    have hc : c ≠ '{' := fun h => hs (h ▸ List.mem_cons_self c rest)
    have hrest : '{' ∉ rest := fun h => hs (List.mem_cons_of_mem c h)
    have hpre : isPre pat (c :: (rest ++ t)) = false := by
      subst hpat
      simp only [isPre, Bool.and_eq_false_iff]
      left
      simpa [beq_iff_eq] using fun h => hc h.symm
    simp only [List.cons_append, substOnce, List.append_eq, hpre, Bool.false_eq_true,
      if_false, ih hrest]

theorem substOnce_at_marker (pat sub t : Str) (hne : pat ≠ []) :
    substOnce pat sub (pat ++ t) = sub ++ t := by
  match pat, hne with
  | c :: r, _ =>
    have h1 : isPre (c :: r) (c :: (r ++ t)) = true := by
      have := isPre_append (c :: r) t
      rwa [List.cons_append] at this
    have h2 : (c :: (r ++ t)).drop (r.length + 1) = t := by
      simp [List.drop_left r t]
    simp [substOnce, List.append_eq, h1, h2]

/-- C4 amended: substitution is single-pass in the fixed order ( \x7bin\x7d,
\x7bincs\x7d, \x7bwarn\x7d, \x7bdebug\x7d, \x7bout\x7d for compile; \x7bin\x7d,
\x7blibs\x7d, \x7bdebug\x7d, \x7bout\x7d for link), each placeholder being
replaced exactly once at the first occurrence of its marker in the current
buffer; whenever none of the substituted values contains a brace-opened
placeholder-like substring, the result of the built-in templates is exactly the
template with each placeholder replaced by its value — but a value containing
one (see the counterexample) can be matched by a later placeholder's search,
since each search rescans the whole buffer. -/
theorem flyMakeCompilerFmt_fixed_order (szIn szIncs szWarn szDebug szOut szLibs : Str)
    (hIn : '{' ∉ szIn) (hIncs : '{' ∉ fmkAddIncOpts szIncs (cs "-I"))
    (hWarn : '{' ∉ szWarn) (hDebug : '{' ∉ szDebug) (hLibs : '{' ∉ szLibs) :
    flyMakeCompilerFmtCompile fmkCompilerC szIn szIncs szWarn szDebug szOut =
      cs "cc " ++ szIn ++ cs " -c " ++ fmkAddIncOpts szIncs (cs "-I") ++
        szWarn ++ szDebug ++ cs "-o " ++ szOut ∧
    flyMakeCompilerFmtLink fmkCompilerC szIn szLibs szDebug szOut =
      cs "cc " ++ szIn ++ cs " " ++ szLibs ++ szDebug ++ cs "-o " ++ szOut := by
  have hcc : '{' ∉ cs "cc " := by decide
  have hsp : '{' ∉ cs " -c " := by decide
  have hsp1 : '{' ∉ cs " " := by decide
  have hdash : '{' ∉ cs "-o " := by decide
  have hnm : ∀ {a b : Str}, '{' ∉ a → '{' ∉ b → '{' ∉ a ++ b := by
    intro a b ha hb h
    rcases List.mem_append.mp h with h1 | h1
    · exact ha h1
    · exact hb h1
  constructor
  · show substOnce (cs "\x7bout\x7d") szOut (substOnce (cs "\x7bdebug\x7d") szDebug
      (substOnce (cs "\x7bwarn\x7d") szWarn (substOnce (cs "\x7bincs\x7d")
        (fmkAddIncOpts szIncs (cs "-I")) (substOnce (cs "\x7bin\x7d") szIn
          fmkCompilerC.szCc)))) = _
    have e1 : substOnce (cs "\x7bin\x7d") szIn fmkCompilerC.szCc =
        cs "cc " ++ (szIn ++ cs " -c \x7bincs\x7d\x7bwarn\x7d\x7bdebug\x7d-o \x7bout\x7d") := by
      have := substOnce_append_of_not_mem (s := cs "cc ") (cs "\x7bin\x7d") szIn
        (cs "\x7bin\x7d" ++ cs " -c \x7bincs\x7d\x7bwarn\x7d\x7bdebug\x7d-o \x7bout\x7d")
        (cs "in\x7d") rfl hcc
      rw [show fmkCompilerC.szCc = cs "cc " ++ (cs "\x7bin\x7d" ++
        cs " -c \x7bincs\x7d\x7bwarn\x7d\x7bdebug\x7d-o \x7bout\x7d") from rfl, this,
        substOnce_at_marker _ _ _ (by decide)]
    rw [e1]
    have e2 : substOnce (cs "\x7bincs\x7d") (fmkAddIncOpts szIncs (cs "-I"))
        (cs "cc " ++ (szIn ++ cs " -c \x7bincs\x7d\x7bwarn\x7d\x7bdebug\x7d-o \x7bout\x7d")) =
        (cs "cc " ++ szIn ++ cs " -c ") ++ (fmkAddIncOpts szIncs (cs "-I") ++
          cs "\x7bwarn\x7d\x7bdebug\x7d-o \x7bout\x7d") := by
      have hfree : '{' ∉ (cs "cc " ++ szIn ++ cs " -c ") := hnm (hnm hcc hIn) hsp
      have := substOnce_append_of_not_mem (s := cs "cc " ++ szIn ++ cs " -c ")
        (cs "\x7bincs\x7d") (fmkAddIncOpts szIncs (cs "-I"))
        (cs "\x7bincs\x7d" ++ cs "\x7bwarn\x7d\x7bdebug\x7d-o \x7bout\x7d")
        (cs "incs\x7d") rfl hfree
      rw [show cs "cc " ++ (szIn ++ cs " -c \x7bincs\x7d\x7bwarn\x7d\x7bdebug\x7d-o \x7bout\x7d") =
        (cs "cc " ++ szIn ++ cs " -c ") ++ (cs "\x7bincs\x7d" ++
          cs "\x7bwarn\x7d\x7bdebug\x7d-o \x7bout\x7d") by simp [cs], this, substOnce_at_marker _ _ _ (by decide)]
    rw [e2]
    have e3 : substOnce (cs "\x7bwarn\x7d") szWarn
        ((cs "cc " ++ szIn ++ cs " -c ") ++ (fmkAddIncOpts szIncs (cs "-I") ++
          cs "\x7bwarn\x7d\x7bdebug\x7d-o \x7bout\x7d")) =
        (cs "cc " ++ szIn ++ cs " -c " ++ fmkAddIncOpts szIncs (cs "-I")) ++
          (szWarn ++ cs "\x7bdebug\x7d-o \x7bout\x7d") := by
      have hfree : '{' ∉ (cs "cc " ++ szIn ++ cs " -c " ++ fmkAddIncOpts szIncs (cs "-I")) :=
        hnm (hnm (hnm hcc hIn) hsp) hIncs
      have := substOnce_append_of_not_mem
        (s := cs "cc " ++ szIn ++ cs " -c " ++ fmkAddIncOpts szIncs (cs "-I"))
        (cs "\x7bwarn\x7d") szWarn (cs "\x7bwarn\x7d" ++ cs "\x7bdebug\x7d-o \x7bout\x7d")
        (cs "warn\x7d") rfl hfree
      rw [show (cs "cc " ++ szIn ++ cs " -c ") ++ (fmkAddIncOpts szIncs (cs "-I") ++
          cs "\x7bwarn\x7d\x7bdebug\x7d-o \x7bout\x7d") =
        (cs "cc " ++ szIn ++ cs " -c " ++ fmkAddIncOpts szIncs (cs "-I")) ++
          (cs "\x7bwarn\x7d" ++ cs "\x7bdebug\x7d-o \x7bout\x7d") by simp [cs], this,
        substOnce_at_marker _ _ _ (by decide)]
    rw [e3]
    have e4 : substOnce (cs "\x7bdebug\x7d") szDebug
        ((cs "cc " ++ szIn ++ cs " -c " ++ fmkAddIncOpts szIncs (cs "-I")) ++
          (szWarn ++ cs "\x7bdebug\x7d-o \x7bout\x7d")) =
        (cs "cc " ++ szIn ++ cs " -c " ++ fmkAddIncOpts szIncs (cs "-I") ++ szWarn) ++
          (szDebug ++ cs "-o \x7bout\x7d") := by
      have hfree : '{' ∉ (cs "cc " ++ szIn ++ cs " -c " ++
          fmkAddIncOpts szIncs (cs "-I") ++ szWarn) :=
        hnm (hnm (hnm (hnm hcc hIn) hsp) hIncs) hWarn
      have := substOnce_append_of_not_mem
        (s := cs "cc " ++ szIn ++ cs " -c " ++ fmkAddIncOpts szIncs (cs "-I") ++ szWarn)
        (cs "\x7bdebug\x7d") szDebug (cs "\x7bdebug\x7d" ++ cs "-o \x7bout\x7d")
        (cs "debug\x7d") rfl hfree
      rw [show (cs "cc " ++ szIn ++ cs " -c " ++ fmkAddIncOpts szIncs (cs "-I")) ++
          (szWarn ++ cs "\x7bdebug\x7d-o \x7bout\x7d") =
        (cs "cc " ++ szIn ++ cs " -c " ++ fmkAddIncOpts szIncs (cs "-I") ++ szWarn) ++
          (cs "\x7bdebug\x7d" ++ cs "-o \x7bout\x7d") by simp [cs], this, substOnce_at_marker _ _ _ (by decide)]
    rw [e4]
    have e5 : substOnce (cs "\x7bout\x7d") szOut
        ((cs "cc " ++ szIn ++ cs " -c " ++ fmkAddIncOpts szIncs (cs "-I") ++ szWarn) ++
          (szDebug ++ cs "-o \x7bout\x7d")) =
        (cs "cc " ++ szIn ++ cs " -c " ++ fmkAddIncOpts szIncs (cs "-I") ++ szWarn ++
          szDebug ++ cs "-o ") ++ (szOut ++ []) := by
      have hfree : '{' ∉ (cs "cc " ++ szIn ++ cs " -c " ++ fmkAddIncOpts szIncs (cs "-I") ++
          szWarn ++ szDebug ++ cs "-o ") :=
        hnm (hnm (hnm (hnm (hnm (hnm hcc hIn) hsp) hIncs) hWarn) hDebug) hdash
      have := substOnce_append_of_not_mem
        (s := cs "cc " ++ szIn ++ cs " -c " ++ fmkAddIncOpts szIncs (cs "-I") ++ szWarn ++
          szDebug ++ cs "-o ") (cs "\x7bout\x7d") szOut (cs "\x7bout\x7d" ++ [])
        (cs "out\x7d") rfl hfree
      rw [show (cs "cc " ++ szIn ++ cs " -c " ++ fmkAddIncOpts szIncs (cs "-I") ++ szWarn) ++
          (szDebug ++ cs "-o \x7bout\x7d") =
        (cs "cc " ++ szIn ++ cs " -c " ++ fmkAddIncOpts szIncs (cs "-I") ++ szWarn ++
          szDebug ++ cs "-o ") ++ (cs "\x7bout\x7d" ++ []) by simp [cs], this,
        substOnce_at_marker _ _ _ (by decide)]
    rw [e5]
    simp [cs]
  · show substOnce (cs "\x7bout\x7d") szOut (substOnce (cs "\x7bdebug\x7d") szDebug
      (substOnce (cs "\x7blibs\x7d") szLibs (substOnce (cs "\x7bin\x7d") szIn
        fmkCompilerC.szLl))) = _
    have hcc : '{' ∉ cs "cc " := by decide
    have f1 : substOnce (cs "\x7bin\x7d") szIn fmkCompilerC.szLl =
        cs "cc " ++ (szIn ++ cs " \x7blibs\x7d\x7bdebug\x7d-o \x7bout\x7d") := by
      have := substOnce_append_of_not_mem (s := cs "cc ") (cs "\x7bin\x7d") szIn
        (cs "\x7bin\x7d" ++ cs " \x7blibs\x7d\x7bdebug\x7d-o \x7bout\x7d") (cs "in\x7d") rfl hcc
      rw [show fmkCompilerC.szLl = cs "cc " ++ (cs "\x7bin\x7d" ++
        cs " \x7blibs\x7d\x7bdebug\x7d-o \x7bout\x7d") from rfl, this, substOnce_at_marker _ _ _ (by decide)]
    rw [f1]
    have f2 : substOnce (cs "\x7blibs\x7d") szLibs
        (cs "cc " ++ (szIn ++ cs " \x7blibs\x7d\x7bdebug\x7d-o \x7bout\x7d")) =
        (cs "cc " ++ szIn ++ cs " ") ++ (szLibs ++ cs "\x7bdebug\x7d-o \x7bout\x7d") := by
      have hfree : '{' ∉ (cs "cc " ++ szIn ++ cs " ") := hnm (hnm hcc hIn) hsp1
      have := substOnce_append_of_not_mem (s := cs "cc " ++ szIn ++ cs " ")
        (cs "\x7blibs\x7d") szLibs (cs "\x7blibs\x7d" ++ cs "\x7bdebug\x7d-o \x7bout\x7d")
        (cs "libs\x7d") rfl hfree
      rw [show cs "cc " ++ (szIn ++ cs " \x7blibs\x7d\x7bdebug\x7d-o \x7bout\x7d") =
        (cs "cc " ++ szIn ++ cs " ") ++ (cs "\x7blibs\x7d" ++
          cs "\x7bdebug\x7d-o \x7bout\x7d") by simp [cs], this, substOnce_at_marker _ _ _ (by decide)]
    rw [f2]
    have f3 : substOnce (cs "\x7bdebug\x7d") szDebug
        ((cs "cc " ++ szIn ++ cs " ") ++ (szLibs ++ cs "\x7bdebug\x7d-o \x7bout\x7d")) =
        (cs "cc " ++ szIn ++ cs " " ++ szLibs) ++ (szDebug ++ cs "-o \x7bout\x7d") := by
      have hfree : '{' ∉ (cs "cc " ++ szIn ++ cs " " ++ szLibs) :=
        hnm (hnm (hnm hcc hIn) hsp1) hLibs
      have := substOnce_append_of_not_mem (s := cs "cc " ++ szIn ++ cs " " ++ szLibs)
        (cs "\x7bdebug\x7d") szDebug (cs "\x7bdebug\x7d" ++ cs "-o \x7bout\x7d")
        (cs "debug\x7d") rfl hfree
      rw [show (cs "cc " ++ szIn ++ cs " ") ++ (szLibs ++ cs "\x7bdebug\x7d-o \x7bout\x7d") =
        (cs "cc " ++ szIn ++ cs " " ++ szLibs) ++ (cs "\x7bdebug\x7d" ++
          cs "-o \x7bout\x7d") by simp [cs], this, substOnce_at_marker _ _ _ (by decide)]
    rw [f3]
    have f4 : substOnce (cs "\x7bout\x7d") szOut
        ((cs "cc " ++ szIn ++ cs " " ++ szLibs) ++ (szDebug ++ cs "-o \x7bout\x7d")) =
        (cs "cc " ++ szIn ++ cs " " ++ szLibs ++ szDebug ++ cs "-o ") ++ (szOut ++ []) := by
      have hfree : '{' ∉ (cs "cc " ++ szIn ++ cs " " ++ szLibs ++ szDebug ++ cs "-o ") :=
        hnm (hnm (hnm (hnm (hnm hcc hIn) hsp1) hLibs) hDebug) hdash
      have := substOnce_append_of_not_mem
        (s := cs "cc " ++ szIn ++ cs " " ++ szLibs ++ szDebug ++ cs "-o ")
        (cs "\x7bout\x7d") szOut (cs "\x7bout\x7d" ++ []) (cs "out\x7d") rfl hfree
      rw [show (cs "cc " ++ szIn ++ cs " " ++ szLibs) ++ (szDebug ++ cs "-o \x7bout\x7d") =
        (cs "cc " ++ szIn ++ cs " " ++ szLibs ++ szDebug ++ cs "-o ") ++
          (cs "\x7bout\x7d" ++ []) by simp [cs], this, substOnce_at_marker _ _ _ (by decide)]
    rw [f4]
    simp [cs]

/-- Witness for the amended C4 theorem at concrete brace-free values. -/
theorem flyMakeCompilerFmt_fixed_order_witness :
    flyMakeCompilerFmtCompile fmkCompilerC (cs "src/a.c") (cs ". inc/") (cs "-Wall ")
        (cs "") (cs "src/out/a.o") =
      cs "cc " ++ cs "src/a.c" ++ cs " -c " ++ fmkAddIncOpts (cs ". inc/") (cs "-I") ++
        cs "-Wall " ++ cs "" ++ cs "-o " ++ cs "src/out/a.o" :=
  (flyMakeCompilerFmt_fixed_order (cs "src/a.c") (cs ". inc/") (cs "-Wall ") (cs "")
    (cs "src/out/a.o") (cs "lib/p.a ") (by decide) (by decide) (by decide) (by decide)
    (by decide)).1

/-! ## Tool grouping (src/src/flymakelist.c)

`FlyMakeToolListNew` groups a sorted source list into tools: repeatedly find
the first file not yet marked used, and let `FmkToolAlloc` claim (mark used)
every not-yet-used file whose first `len` characters agree with it, where
`len` is the length of its path plus its basename portion before the first
extension (`FlyStrPathNameBase`).  The `pfUsed` array is embedded by pairing
each file with its used flag. -/

/-- The basename of a path: the part after the last '/'. -/
def baseNamePart (l : Str) : Str :=
  (l.reverse.takeWhile (fun c => c ≠ '/')).reverse

/-- Modelled from the spec: `FlyStrPathNameBase` (flylibc) yields the basename
and its length up to the first extension; `FmkToolAlloc` adds the path length,
giving the length of "path plus basename portion before the first recognized
extension" (spec §4.2). -/
def fmkStemLen (l : Str) : Nat :=
  (l.length - (baseNamePart l).length) +
    ((baseNamePart l).takeWhile (fun c => c ≠ '.')).length

/-- The bare tool name: the basename portion before the first extension. -/
def fmkToolName (l : Str) : Str :=
  (baseNamePart l).takeWhile (fun c => c ≠ '.')

theorem fmkStemLen_le (l : Str) : fmkStemLen l ≤ l.length := by
  have h1 : (baseNamePart l).length ≤ l.length := by
    have h : ((l.reverse.takeWhile (fun c => c ≠ '/'))).length ≤ l.reverse.length :=
      (List.takeWhile_prefix _).length_le
    simpa [baseNamePart] using h
  have h2 : ((baseNamePart l).takeWhile (fun c => c ≠ '.')).length ≤
      (baseNamePart l).length :=
    (List.takeWhile_prefix _).length_le
  unfold fmkStemLen
  omega

/-- `fmkTool_t` (flymake.h): tool name, the matching stem (first `len`
characters of the founding file, kept for stating properties), and the claimed
source files. -/
structure FmkTool where
  szName : Str
  stem : Str
  aszSrcFiles : List Str
deriving DecidableEq, Repr

/-- The claiming loop of `FmkToolAlloc` (src/src/flymakelist.c:229-263): walk
the whole list; every not-yet-used file whose first `k` characters equal
`stem` is collected and marked used.  Returns (claimed files, updated list). -/
def fmkToolClaim (stem : Str) (k : Nat) : List (Str × Bool) → List Str × List (Str × Bool)
  | [] => ([], [])
  | (s, b) :: rest =>
    let r := fmkToolClaim stem k rest
    if !b && (s.take k == stem) then (s :: r.1, (s, true) :: r.2)
    else (r.1, (s, b) :: r.2)

/-- The not-yet-used file names of a marked list, in order. -/
def unusedOf (l : List (Str × Bool)) : List Str :=
  l.filterMap (fun p => if p.2 then none else some p.1)

theorem unusedOf_cons_true (s : Str) (t : List (Str × Bool)) :
    unusedOf ((s, true) :: t) = unusedOf t := by
  simp [unusedOf, List.filterMap_cons]

theorem unusedOf_cons_false (s : Str) (t : List (Str × Bool)) :
    unusedOf ((s, false) :: t) = s :: unusedOf t := by
  simp [unusedOf, List.filterMap_cons]

theorem fmkToolClaim_claimed (stem : Str) (k : Nat) (l : List (Str × Bool)) :
    (fmkToolClaim stem k l).1 = (unusedOf l).filter (fun s => s.take k == stem) := by
  induction l with
  | nil => rfl
  | cons p rest ih =>
    obtain ⟨s, b⟩ := p
    cases b with
    | false =>
      by_cases hm : (s.take k == stem) = true
      · simp [fmkToolClaim, unusedOf_cons_false, hm, ih, List.filter_cons]
      · simp [fmkToolClaim, unusedOf_cons_false, hm, ih, List.filter_cons]
    | true => simp [fmkToolClaim, unusedOf_cons_true, ih]

theorem fmkToolClaim_rest (stem : Str) (k : Nat) (l : List (Str × Bool)) :
    unusedOf (fmkToolClaim stem k l).2 =
      (unusedOf l).filter (fun s => !(s.take k == stem)) := by
  induction l with
  | nil => rfl
  | cons p rest ih =>
    obtain ⟨s, b⟩ := p
    cases b with
    | false =>
      by_cases hm : (s.take k == stem) = true
      · simp [fmkToolClaim, hm, unusedOf_cons_true, unusedOf_cons_false, ih,
          List.filter_cons]
      · simp [fmkToolClaim, hm, unusedOf_cons_true, unusedOf_cons_false, ih,
          List.filter_cons]
    | true => simp [fmkToolClaim, unusedOf_cons_true, ih]

theorem fmkToolClaim_shrinks (l : List (Str × Bool)) (p : Str × Bool)
    (hmem : p ∈ l) (hp : p.2 = false) :
    (unusedOf (fmkToolClaim (p.1.take (fmkStemLen p.1)) (fmkStemLen p.1) l).2).length <
      (unusedOf l).length := by
  rw [fmkToolClaim_rest]
  apply List.length_filter_lt_length_iff_exists.mpr
  refine ⟨p.1, ?_, ?_⟩
  · exact List.mem_filterMap.mpr ⟨p, hmem, by simp [hp]⟩
  · simp

/-- `FlyMakeToolListNew` (src/src/flymakelist.c:309-402): repeatedly take the
first unused file and allocate a tool from it via the claiming loop, until all
files are used. -/
def flyMakeToolListNew (l : List (Str × Bool)) : List FmkTool :=
  match h : List.find? (fun p => !p.2) l with
  | none => []
  | some p =>
    let k := fmkStemLen p.1
    let r := fmkToolClaim (p.1.take k) k l
    ⟨fmkToolName p.1, p.1.take k, r.1⟩ :: flyMakeToolListNew r.2
termination_by (unusedOf l).length
decreasing_by
  exact fmkToolClaim_shrinks l p (List.mem_of_find?_eq_some h)
    (by simpa using List.find?_some h)

theorem flyMakeToolListNew_of_find_none {l : List (Str × Bool)}
    (h : List.find? (fun p => !p.2) l = none) : flyMakeToolListNew l = [] := by
  rw [flyMakeToolListNew]
  split
  · rfl
  · rename_i p hfind
    rw [h] at hfind
    exact Option.noConfusion hfind

theorem flyMakeToolListNew_of_find_some {l : List (Str × Bool)} {p : Str × Bool}
    (h : List.find? (fun p => !p.2) l = some p) :
    flyMakeToolListNew l =
      ⟨fmkToolName p.1, p.1.take (fmkStemLen p.1),
        (fmkToolClaim (p.1.take (fmkStemLen p.1)) (fmkStemLen p.1) l).1⟩ ::
      flyMakeToolListNew
        (fmkToolClaim (p.1.take (fmkStemLen p.1)) (fmkStemLen p.1) l).2 := by
  rw [flyMakeToolListNew]
  split
  · rename_i hfind
    rw [h] at hfind
    exact Option.noConfusion hfind
  · rename_i q hfind
    rw [h] at hfind
    cases hfind
    rfl

theorem unusedOf_nil_of_find_none {l : List (Str × Bool)}
    (h : List.find? (fun p => !p.2) l = none) : unusedOf l = [] := by
  apply List.eq_nil_iff_forall_not_mem.mpr
  intro s hs
  obtain ⟨p, hpl, hps⟩ := List.mem_filterMap.mp hs
  have hfind := List.find?_eq_none.mp h p hpl
  cases hpb : p.2 with
  | true => rw [hpb] at hps; simp at hps
  | false => rw [hpb] at hfind; simp at hfind

theorem flyMakeToolListNew_perm_aux (n : Nat) : ∀ l : List (Str × Bool),
    (unusedOf l).length ≤ n →
    List.Perm ((flyMakeToolListNew l).map FmkTool.aszSrcFiles).flatten (unusedOf l) := by
  induction n with
  | zero =>
    intro l hl
    have hempty : unusedOf l = [] := List.eq_nil_of_length_eq_zero (Nat.le_zero.mp hl)
    have hnone : List.find? (fun p => !p.2) l = none := by
      apply List.find?_eq_none.mpr
      intro p hp
      have := List.filterMap_eq_nil_iff.mp hempty p hp
      cases hpb : p.2 with
      | true => simp [hpb]
      | false => rw [hpb] at this; simp at this
    rw [flyMakeToolListNew_of_find_none hnone, hempty]
    simp
  | succ n ih =>
    intro l hl
    cases hfind : List.find? (fun p => !p.2) l with
    | none =>
      rw [flyMakeToolListNew_of_find_none hfind, unusedOf_nil_of_find_none hfind]
      simp
    | some p =>
      rw [flyMakeToolListNew_of_find_some hfind]
      have hlt := fmkToolClaim_shrinks l p (List.mem_of_find?_eq_some hfind)
        (by simpa using List.find?_some hfind)
      have ihperm := ih (fmkToolClaim (p.1.take (fmkStemLen p.1)) (fmkStemLen p.1) l).2
        (by omega)
      simp only [List.map_cons, List.flatten_cons]
      have key : List.Perm
          ((fmkToolClaim (p.1.take (fmkStemLen p.1)) (fmkStemLen p.1) l).1 ++
            unusedOf (fmkToolClaim (p.1.take (fmkStemLen p.1)) (fmkStemLen p.1) l).2)
          (unusedOf l) := by
        rw [fmkToolClaim_claimed, fmkToolClaim_rest]
        exact List.filter_append_perm _ (unusedOf l)
      exact (List.Perm.append_left _ ihperm).trans key

theorem flyMakeToolListNew_flatten_perm (l : List (Str × Bool)) :
    List.Perm ((flyMakeToolListNew l).map FmkTool.aszSrcFiles).flatten (unusedOf l) :=
  flyMakeToolListNew_perm_aux (unusedOf l).length l (Nat.le_refl _)

theorem flyMakeToolListNew_stems_aux (n : Nat) : ∀ l : List (Str × Bool),
    (unusedOf l).length ≤ n →
    ∀ t ∈ flyMakeToolListNew l, (∃ f, t.stem = f.take (fmkStemLen f) ∧
      t.szName = fmkToolName f ∧ t.stem.length = fmkStemLen f) ∧
      ∀ s ∈ t.aszSrcFiles, s.take t.stem.length = t.stem := by
  induction n with
  | zero =>
    intro l hl t ht
    have hempty : unusedOf l = [] := List.eq_nil_of_length_eq_zero (Nat.le_zero.mp hl)
    have hnone : List.find? (fun p => !p.2) l = none := by
      apply List.find?_eq_none.mpr
      intro p hp
      have := List.filterMap_eq_nil_iff.mp hempty p hp
      cases hpb : p.2 with
      | true => simp [hpb]
      | false => rw [hpb] at this; simp at this
    rw [flyMakeToolListNew_of_find_none hnone] at ht
    cases ht
  | succ n ih =>
    intro l hl t ht
    cases hfind : List.find? (fun p => !p.2) l with
    | none =>
      rw [flyMakeToolListNew_of_find_none hfind] at ht
      cases ht
    | some p =>
      rw [flyMakeToolListNew_of_find_some hfind] at ht
      have hklen : (p.1.take (fmkStemLen p.1)).length = fmkStemLen p.1 := by
        simp [List.length_take, Nat.min_eq_left (fmkStemLen_le p.1)]
      rcases List.mem_cons.mp ht with rfl | htail
      · refine ⟨⟨p.1, rfl, rfl, hklen⟩, ?_⟩
        intro s hs
        rw [fmkToolClaim_claimed] at hs
        have := List.of_mem_filter hs
        simp only [beq_iff_eq] at this
        rw [hklen]
        exact this
      · have hlt := fmkToolClaim_shrinks l p (List.mem_of_find?_eq_some hfind)
          (by simpa using List.find?_some hfind)
        exact ih (fmkToolClaim (p.1.take (fmkStemLen p.1)) (fmkStemLen p.1) l).2
          (by omega) t htail

theorem flyMakeToolListNew_stems (l : List (Str × Bool)) :
    ∀ t ∈ flyMakeToolListNew l, (∃ f, t.stem = f.take (fmkStemLen f) ∧
      t.szName = fmkToolName f ∧ t.stem.length = fmkStemLen f) ∧
      ∀ s ∈ t.aszSrcFiles, s.take t.stem.length = t.stem :=
  flyMakeToolListNew_stems_aux (unusedOf l).length l (Nat.le_refl _)

theorem unusedOf_fresh (files : List Str) :
    unusedOf (files.map (fun s => (s, false))) = files := by
  induction files with
  | nil => rfl
  | cons s rest ih => simp [unusedOf, List.filterMap_cons] at *; exact ih

/-- C6: grouping a folder's sorted source list into tools.  Every claimed
file's path+name begins with the tool's stem (the founding file's path plus
basename portion before the first extension) as a prefix; the multiset of all
claimed files is exactly the input file list (so with distinct file names no
two tools share a source file and every source file is claimed by exactly one
tool): the claimed lists are pairwise disjoint and jointly cover the input. -/
theorem flyMakeToolListNew_partition (files : List Str) :
    (∀ t ∈ flyMakeToolListNew (files.map (fun s => (s, false))),
      ∀ s ∈ t.aszSrcFiles, s.take t.stem.length = t.stem) ∧
    List.Perm ((flyMakeToolListNew (files.map (fun s => (s, false)))).map
      FmkTool.aszSrcFiles).flatten files ∧
    (files.Nodup →
      List.Pairwise (fun t1 t2 : FmkTool =>
        ∀ s, s ∈ t1.aszSrcFiles → s ∉ t2.aszSrcFiles)
        (flyMakeToolListNew (files.map (fun s => (s, false)))) ∧
      ∀ s ∈ files, ∃ t, t ∈ flyMakeToolListNew (files.map (fun s => (s, false))) ∧
        s ∈ t.aszSrcFiles) := by
  have hperm := flyMakeToolListNew_flatten_perm (files.map (fun s => (s, false)))
  rw [unusedOf_fresh] at hperm
  refine ⟨?_, hperm, ?_⟩
  · intro t ht s hs
    exact ((flyMakeToolListNew_stems _ t ht).2) s hs
  · intro hnd
    constructor
    · have hflat : (((flyMakeToolListNew (files.map (fun s => (s, false)))).map
          FmkTool.aszSrcFiles).flatten).Nodup := hperm.nodup_iff.mpr hnd
      have := List.nodup_flatten.mp hflat
      have hpw := this.2
      rw [List.pairwise_map] at hpw
      exact hpw.imp (fun hd s hs1 hs2 => List.disjoint_left.mp hd hs1 hs2)
    · intro s hs
      have : s ∈ (((flyMakeToolListNew (files.map (fun s => (s, false)))).map
          FmkTool.aszSrcFiles).flatten) := hperm.mem_iff.mpr hs
      obtain ⟨fl, hfl, hsf⟩ := List.mem_flatten.mp this
      obtain ⟨t, htl, rfl⟩ := List.mem_map.mp hfl
      exact ⟨t, htl, hsf⟩

/-- Witness for C6 at the spec's example list (`bar.c barney.c bar_x.c`
sorted): one tool `bar` claiming all three. -/
theorem flyMakeToolListNew_partition_witness :
    ((flyMakeToolListNew ([cs "bar.c", cs "bar_x.c", cs "barney.c"].map
        (fun s => (s, false)))).map FmkTool.aszSrcFiles).flatten.length = 3 ∧
    ([cs "bar.c", cs "bar_x.c", cs "barney.c"] : List Str).Nodup ∧
    (∀ s ∈ ([cs "bar.c", cs "bar_x.c", cs "barney.c"] : List Str),
      ∃ t, t ∈ flyMakeToolListNew ([cs "bar.c", cs "bar_x.c", cs "barney.c"].map
        (fun s => (s, false))) ∧ s ∈ t.aszSrcFiles) := by
  have h := flyMakeToolListNew_partition [cs "bar.c", cs "bar_x.c", cs "barney.c"]
  have hnd : ([cs "bar.c", cs "bar_x.c", cs "barney.c"] : List Str).Nodup := by decide
  exact ⟨by rw [h.2.1.length_eq]; rfl, hnd, (h.2.2 hnd).2⟩

/-! ## The build pipeline (src/src/flymakedep.c, flymakeclean.c, flymake.c)

The filesystem is embedded as an association list from paths to modification
times; `fsSet` prepends, `fsGet` reads the most recent entry.  External
process invocations (`system`) go through `FlyMakeSystem`; the exit status of
each child is supplied by the oracle `exec`, and a child that exits 0 writes
the command's output file with the current clock value (the clock starts above
every existing modification time and advances on each write, standing for wall
time).  Directory enumeration (the classifier) is embedded by each folder
carrying its sorted source list. -/

/-- The filesystem: path ↦ modification time. -/
abbrev Fs := List (Str × Nat)

/-- Read the most recent entry for a path. -/
def fsGet : Fs → Str → Option Nat
  | [], _ => none
  | (p, t) :: rest, q => if p = q then some t else fsGet rest q

/-- Write (update or insert) a path's modification time. -/
def fsSet (fs : Fs) (p : Str) (t : Nat) : Fs := (p, t) :: fs

/-- Largest modification time present. -/
def fsMax : Fs → Nat
  | [] => 0
  | (_, t) :: rest => max t (fsMax rest)

/-- `flyMakeOpts_t` (flymake.h), the options the build pipeline reads. -/
structure FlyMakeOpts where
  fAll : Bool := false
  fRebuild : Bool := false
  dbg : Nat := 0
  fNoBuild : Bool := false
  fWarning : Bool := true
  verbose : Nat := 1
deriving DecidableEq, Repr

/-- The kind of an external command the build pipeline issues. -/
inductive CmdKind where
  | compile
  | archive
  | link
deriving DecidableEq, Repr

/-- One issued external command: its kind, the folder being built when it was
issued (bookkeeping for ordering statements; the C code passes this folder
around as `szFolder`), the output file the child writes, and the formatted
command line. -/
structure Cmd where
  kind : CmdKind
  folder : Str
  outPath : Str
  text : Str
deriving DecidableEq, Repr

/-- The mutable build state: the filesystem, the clock, the set of existing
directories, and the `flyMakeState_t` counters `nCompiled`, `nSrcFiles` and
the `fLibCompiled` flag. -/
structure BSt where
  fs : Fs
  clk : Nat
  dirs : List Str
  nCompiled : Nat
  nSrcFiles : Nat
  fLibCompiled : Bool
deriving DecidableEq, Repr

/-- Result of `FlyMakeSystem`: the return value, the state, the commands
actually handed to `system()` (empty under `-n`), and the printed commands. -/
structure SysR where
  ret : Int
  st : BSt
  issued : List Cmd
  printed : List Cmd
deriving Repr

/-- `FlyMakeSystem` (src/src/flymakeclean.c:2187-2201): print the command when
verbose enough; under `-n` (`fNoBuild`) return 0 without invoking the child;
otherwise run it, normalizing any nonzero exit to -1.  A child that exits 0
writes the command's output file at the current clock. -/
def flyMakeSystem (verbose : Nat) (opts : FlyMakeOpts) (exec : Cmd → Int)
    (c : Cmd) (st : BSt) : SysR :=
  let printed := if opts.verbose ≥ verbose then [c] else []
  if opts.fNoBuild then ⟨0, st, [], printed⟩
  else if exec c ≠ 0 then ⟨-1, st, [c], printed⟩
  else ⟨0, { st with fs := fsSet st.fs c.outPath st.clk, clk := st.clk + 1 },
    [c], printed⟩

/-- `FlyMakeFolderCreate` (src/src/flymakeclean.c:2210-2246): under `-n` print
the shell line and change nothing; otherwise create the folder unless it
already exists (the mkdir itself is assumed to succeed). -/
def flyMakeFolderCreate (opts : FlyMakeOpts) (szFolder : Str) (st : BSt) :
    Bool × BSt :=
  if opts.fNoBuild then (true, st)
  else if szFolder ∈ st.dirs then (true, st)
  else (true, { st with dirs := szFolder :: st.dirs })

/-- Modelled from flylibc usage: `FlyStrPathExt` — the file name's extension
including its dot (from the last dot of the basename), empty if none. -/
def flyStrPathExt (l : Str) : Str :=
  let base := baseNamePart l
  if base.contains '.' then
    '.' :: (base.reverse.takeWhile (fun c => c ≠ '.')).reverse
  else []

/-- `FlyMakeCompilerFind` (src/src/flymakeclean.c:392-409): for each rule, a
single strstr of the extension in the rule's extension string, accepted only
when followed by '.' or the end; a rule whose first occurrence fails the
boundary test is skipped.  With an empty extension the loop does not run and
the first rule is returned. -/
def flyMakeCompilerFind (pCompilerList : List FlyMakeCompiler) (szExt : Str) :
    Option FlyMakeCompiler :=
  if szExt = [] then pCompilerList.head?
  else go pCompilerList
where
  go : List FlyMakeCompiler → Option FlyMakeCompiler
    | [] => none
    | c :: rest =>
      match strstrIdx szExt c.szExts with
      | some i =>
        let after := c.szExts.drop (i + szExt.length)
        if after = [] ∨ after.head? = some '.' then some c else go rest
      | none => go rest

/-- `FmkGetOutName` (src/src/flymakedep.c:167-186): `out-folder` +
basename-without-extension + ".o". -/
def fmkGetOutName (szOutFolder szInFileName : Str) : Str :=
  szOutFolder ++ fmkToolName szInFileName ++ cs ".o"

/-- The path part of a file name, up to and including the last '/'
(`FlyStrPathOnly`, flylibc, from its use for tool output names). -/
def flyStrPathOnly (l : Str) : Str := l.take (l.length - (baseNamePart l).length)

/-- Strip one trailing '/' (helper embedding `FlyStrPathNameLast` on
slash-terminated folder paths). -/
def lastComp (l : Str) : Str :=
  baseNamePart (if l.getLast? = some '/' then l.dropLast else l)

/-- `FlyMakeFolderAllocLibName` (src/src/flymakeclean.c:1340-1371): folders
literally named lib/ or library/ use the project name for the archive;
otherwise the folder's basename. -/
def flyMakeFolderAllocLibName (szProjName szFolder : Str) : Str :=
  let last := lastComp szFolder
  let nm := if last = cs "lib" ∨ last = cs "library" then szProjName else last
  szFolder ++ nm ++ cs ".a"

/-- `FlyMakeFolderAllocSrcName` (src/src/flymakeclean.c:1385-1415): folders
literally named src/ or source/ use the project name for the executable. -/
def flyMakeFolderAllocSrcName (szProjName szFolder : Str) : Str :=
  let last := lastComp szFolder
  let nm := if last = cs "src" ∨ last = cs "source" then szProjName else last
  szFolder ++ nm

/-- The output executable of a tool: the first source file's path plus the
tool name (`FmkToolCompile`, src/src/flymakedep.c:463-482). -/
def fmkToolOutName (t : FmkTool) : Str :=
  match t.aszSrcFiles with
  | [] => t.szName
  | f :: _ => flyStrPathOnly f ++ t.szName

/-- Result of `FmkCompileFile`/`FmkToolCompile`: -1 failed, 0 compiled,
1 up to date. -/
structure CompR where
  ret : Int
  st : BSt
  cmds : List Cmd
deriving Repr

/-- `FmkCompileFile` (src/src/flymakedep.c:199-296): count the source file;
the compiler rule must match the extension and the source must exist; skip
when not rebuilding and the output object is at least as new as the source;
otherwise format the compile command, run it, fail on nonzero exit, and count
a successful compile. -/
def fmkCompileFile (opts : FlyMakeOpts) (exec : Cmd → Int)
    (compilers : List FlyMakeCompiler) (incs provFolder szOutFolder szFileName : Str)
    (st : BSt) : CompR :=
  let st := { st with nSrcFiles := st.nSrcFiles + 1 }
  match flyMakeCompilerFind compilers (flyStrPathExt szFileName) with
  | none => ⟨-1, st, []⟩
  | some pCompiler =>
    match fsGet st.fs szFileName with
    | none => ⟨-1, st, []⟩
    | some srcTime =>
      let szOutFile := fmkGetOutName szOutFolder szFileName
      let fBuild := if opts.fRebuild then true
        else match fsGet st.fs szOutFile with
          | some outTime => decide (outTime < srcTime)
          | none => true
      if fBuild then
        let szWarn := if opts.fWarning then pCompiler.szWarn else []
        let szDebug := if opts.dbg = 0 then [] else pCompiler.szCcDbg
        let c : Cmd := ⟨CmdKind.compile, provFolder, szOutFile,
          flyMakeCompilerFmtCompile pCompiler szFileName incs szWarn szDebug szOutFile⟩
        let r := flyMakeSystem 1 opts exec c st
        if r.ret ≠ 0 then ⟨-1, r.st, r.issued⟩
        else ⟨0, { r.st with nCompiled := r.st.nCompiled + 1 }, r.issued⟩
      else ⟨1, st, []⟩

/-- C5: the incremental compiler driver.  For a handled source file (matching
compiler rule, existing source), outside dry runs: when force-rebuild is not
set, the output object exists and its modification time is at least the
source's, no command is issued, nothing changes but the source counter, and
the driver reports success-without-compiling (1); otherwise the formatted
compile command is executed — a nonzero child exit yields failure (-1), and a
zero exit writes the object, bumps the compiled-files counter and returns 0. -/
theorem fmkCompileFile_spec (opts : FlyMakeOpts) (exec : Cmd → Int)
    (compilers : List FlyMakeCompiler) (incs provFolder szOutFolder szFileName : Str)
    (st : BSt) (pCompiler : FlyMakeCompiler) (srcTime : Nat)
    (hfind : flyMakeCompilerFind compilers (flyStrPathExt szFileName) = some pCompiler)
    (hsrc : fsGet st.fs szFileName = some srcTime)
    (hnb : opts.fNoBuild = false) :
    (∀ outTime, opts.fRebuild = false →
      fsGet st.fs (fmkGetOutName szOutFolder szFileName) = some outTime →
      srcTime ≤ outTime →
      fmkCompileFile opts exec compilers incs provFolder szOutFolder szFileName st =
        ⟨1, { st with nSrcFiles := st.nSrcFiles + 1 }, []⟩) ∧
    (∀ fmtCmd : Cmd,
      fmtCmd = ⟨CmdKind.compile, provFolder, fmkGetOutName szOutFolder szFileName,
        flyMakeCompilerFmtCompile pCompiler szFileName incs
          (if opts.fWarning then pCompiler.szWarn else [])
          (if opts.dbg = 0 then [] else pCompiler.szCcDbg)
          (fmkGetOutName szOutFolder szFileName)⟩ →
      (opts.fRebuild = true ∨
        (∀ outTime, fsGet st.fs (fmkGetOutName szOutFolder szFileName) = some outTime →
          outTime < srcTime)) →
      (exec fmtCmd ≠ 0 →
        fmkCompileFile opts exec compilers incs provFolder szOutFolder szFileName st =
          ⟨-1, { st with nSrcFiles := st.nSrcFiles + 1 }, [fmtCmd]⟩) ∧
      (exec fmtCmd = 0 →
        fmkCompileFile opts exec compilers incs provFolder szOutFolder szFileName st =
          ⟨0, { st with
                nSrcFiles := st.nSrcFiles + 1
                fs := fsSet st.fs (fmkGetOutName szOutFolder szFileName) st.clk
                clk := st.clk + 1
                nCompiled := st.nCompiled + 1 }, [fmtCmd]⟩)) := by
  constructor
  · intro outTime hrb hout hle
    have hb : ¬ (outTime < srcTime) := Nat.not_lt.mpr hle
    simp [fmkCompileFile, hfind, hsrc, hrb, hout, hb]
  · rintro fmtCmd rfl hbuild
    have hfb : (if opts.fRebuild then true
        else match fsGet st.fs (fmkGetOutName szOutFolder szFileName) with
          | some outTime => decide (outTime < srcTime)
          | none => true) = true := by
      rcases hbuild with hrb | hout
      · simp [hrb]
      · cases hre : opts.fRebuild with
        | true => simp [hre]
        | false =>
          cases hfs : fsGet st.fs (fmkGetOutName szOutFolder szFileName) with
          | none => simp [hre, hfs]
          | some t => simp [hre, hfs, hout t hfs]
    constructor
    · intro hexec
      simp [fmkCompileFile, hfind, hsrc, hfb, flyMakeSystem, hnb, hexec]
    · intro hexec
      simp [fmkCompileFile, hfind, hsrc, hfb, flyMakeSystem, hnb, hexec]

/-- Witness for C5 at a concrete state: a one-file filesystem where the
object is missing, with a child that exits 0. -/
theorem fmkCompileFile_spec_witness :
    fmkCompileFile { fNoBuild := false } (fun _ => 0) flyMakeCompilerListDefault
      (cs ". ") (cs "src/") (cs "src/out/") (cs "src/a.c")
      ⟨[(cs "src/a.c", 5)], 6, [], 0, 0, false⟩ =
      ⟨0, ⟨fsSet [(cs "src/a.c", 5)] (fmkGetOutName (cs "src/out/") (cs "src/a.c")) 6,
            7, [], 1, 1, false⟩, [⟨CmdKind.compile, cs "src/",
              fmkGetOutName (cs "src/out/") (cs "src/a.c"),
              flyMakeCompilerFmtCompile fmkCompilerC (cs "src/a.c") (cs ". ")
                fmkCompilerC.szWarn [] (fmkGetOutName (cs "src/out/") (cs "src/a.c"))⟩]⟩ := by
  have h := fmkCompileFile_spec { fNoBuild := false } (fun _ => 0)
    flyMakeCompilerListDefault (cs ". ") (cs "src/") (cs "src/out/") (cs "src/a.c")
    ⟨[(cs "src/a.c", 5)], 6, [], 0, 0, false⟩ fmkCompilerC 5 (by rfl) (by rfl) rfl
  have hnone : fsGet [(cs "src/a.c", 5)] (fmkGetOutName (cs "src/out/") (cs "src/a.c")) =
      none := by decide
  have h2 := (h.2 _ rfl (Or.inr (by
    intro t ht
    rw [hnone] at ht
    exact Option.noConfusion ht))).2 (by rfl)
  simpa using h2

/-- A build-contributing folder: its slash-terminated root-relative path, its
rule, and the classifier's sorted source list for it (the directory
enumeration is the environment). -/
structure FmkFolder where
  path : Str
  rule : FmkRule
  files : List Str
deriving DecidableEq, Repr

/-- The project-level configuration the builders read from `flyMakeState_t`:
project name, folder rules, and the accumulated include and library lists. -/
structure FmkProject where
  szProjName : Str
  folders : List FmkFolder
  incs : Str
  libs : Str
deriving DecidableEq, Repr

/-- A resolved dependency as `FlyMakeDepListBuild` sees it: its name and, for
package/git dependencies, the owned sub-state's project (absent for prebuilt
dependencies, which are never built). -/
structure FmkDepProj where
  name : Str
  sub : Option FmkProject
deriving DecidableEq, Repr

/-- Result of one folder-builder: success, state, issued commands. -/
structure BuildR where
  ok : Bool
  st : BSt
  cmds : List Cmd
deriving Repr

/-- The per-file loop of `FmkCompileFolder` (src/src/flymakedep.c:366-375):
compile every file, remembering failure but continuing; returns
(fWorked, state, issued commands, files compiled). -/
def fmkCompileFilesLoop (opts : FlyMakeOpts) (exec : Cmd → Int)
    (compilers : List FlyMakeCompiler) (incs provFolder szOutFolder : Str) :
    List Str → BSt → Bool × BSt × List Cmd × Nat
  | [], st => (true, st, [], 0)
  | f :: rest, st =>
    let r := fmkCompileFile opts exec compilers incs provFolder szOutFolder f st
    let rr := fmkCompileFilesLoop opts exec compilers incs provFolder szOutFolder rest r.st
    (decide (0 ≤ r.ret) && rr.1, rr.2.1, r.cmds ++ rr.2.2.1,
      (if r.ret = 0 then 1 else 0) + rr.2.2.2)

/-- Result of `FmkCompileFolder`: success, state, commands, first file's
extension (empty when the folder has no sources), files compiled. -/
structure FoldR where
  ok : Bool
  st : BSt
  cmds : List Cmd
  ext : Str
  n : Nat
deriving Repr

/-- `FmkCompileFolder` (src/src/flymakedep.c:321-387): nothing to do for an
empty source list; otherwise make the out/ folder and compile every file,
returning the first file's extension for the linker. -/
def fmkCompileFolder (opts : FlyMakeOpts) (exec : Cmd → Int)
    (compilers : List FlyMakeCompiler) (incs : Str) (folder : FmkFolder)
    (st : BSt) : FoldR :=
  match folder.files with
  | [] => ⟨true, st, [], [], 0⟩
  | f :: rest =>
    let szOutFolder := folder.path ++ cs "out/"
    let r0 := flyMakeFolderCreate opts szOutFolder st
    let r := fmkCompileFilesLoop opts exec compilers incs folder.path szOutFolder
      (f :: rest) r0.2
    ⟨r.1, r.2.1, r.2.2.1, flyStrPathExt f, r.2.2.2⟩

/-- `FlyMakeBuildLib` (src/src/flymakedep.c:549-617): compile the folder; if
anything was compiled, or the archive is missing, mark the library recompiled
and archive `folder/out/*.o` into the library file. -/
def flyMakeBuildLib (opts : FlyMakeOpts) (exec : Cmd → Int)
    (compilers : List FlyMakeCompiler) (szProjName incs : Str)
    (folder : FmkFolder) (st : BSt) : BuildR :=
  let r := fmkCompileFolder opts exec compilers incs folder st
  if ¬ r.ok then ⟨false, r.st, r.cmds⟩
  else
    let pszLibName := flyMakeFolderAllocLibName szProjName folder.path
    let n := if (fsGet r.st.fs pszLibName).isNone then r.n + 1 else r.n
    if n ≠ 0 then
      let st1 := { r.st with fLibCompiled := true }
      let c : Cmd := ⟨CmdKind.archive, folder.path, pszLibName,
        cs "ar -crs " ++ pszLibName ++ cs " " ++ folder.path ++ cs "out/*.o"⟩
      let rs := flyMakeSystem 1 opts exec c st1
      ⟨rs.ret == 0, rs.st, r.cmds ++ rs.issued⟩
    else ⟨true, r.st, r.cmds⟩

/-- `FlyMakeBuildSrc` (src/src/flymakedep.c:630-718): compile the folder; a
recompiled library or missing executable forces the link; link
`folder/out/*.o` plus the accumulated libraries with the linker of the first
file's extension. -/
def flyMakeBuildSrc (opts : FlyMakeOpts) (exec : Cmd → Int)
    (compilers : List FlyMakeCompiler) (szProjName incs libs : Str)
    (folder : FmkFolder) (st : BSt) : BuildR :=
  let r := fmkCompileFolder opts exec compilers incs folder st
  let n := if r.st.fLibCompiled then r.n + 1 else r.n
  if ¬ r.ok then ⟨false, r.st, r.cmds⟩
  else if r.ext = [] then ⟨true, r.st, r.cmds⟩
  else
    let szTarget := flyMakeFolderAllocSrcName szProjName folder.path
    let n1 := if (fsGet r.st.fs szTarget).isNone then n + 1 else n
    let st1 := if (fsGet r.st.fs szTarget).isNone then
      { r.st with nCompiled := r.st.nCompiled + 1 } else r.st
    if n1 ≠ 0 ∨ opts.fRebuild = true then
      match flyMakeCompilerFind compilers r.ext with
      | none => ⟨false, st1, r.cmds⟩
      | some pCompiler =>
        let szDebug := if opts.dbg = 0 then [] else pCompiler.szLlDbg
        let c : Cmd := ⟨CmdKind.link, folder.path, szTarget,
          flyMakeCompilerFmtLink pCompiler (folder.path ++ cs "out/*.o") libs
            szDebug szTarget⟩
        let rs := flyMakeSystem 1 opts exec c st1
        ⟨rs.ret == 0, rs.st, r.cmds ++ rs.issued⟩
    else ⟨true, st1, r.cmds⟩

/-- The per-file loop of `FmkToolCompile` (src/src/flymakedep.c:410-425):
compile the tool's files, stopping at the first failure. -/
def fmkToolFilesLoop (opts : FlyMakeOpts) (exec : Cmd → Int)
    (compilers : List FlyMakeCompiler) (incs provFolder szOutFolder : Str) :
    List Str → BSt → Bool × BSt × List Cmd × Nat
  | [], st => (true, st, [], 0)
  | f :: rest, st =>
    let r := fmkCompileFile opts exec compilers incs provFolder szOutFolder f st
    if r.ret < 0 then (false, r.st, r.cmds, 0)
    else
      let rr := fmkToolFilesLoop opts exec compilers incs provFolder szOutFolder rest r.st
      (rr.1, rr.2.1, r.cmds ++ rr.2.2.1, (if r.ret = 0 then 1 else 0) + rr.2.2.2)

/-- `FmkToolCompile` (src/src/flymakedep.c:396-537): compile every source of
the tool; a missing tool executable forces the link; link all the tool's
objects plus the accumulated libraries, using the linker of the first source
file's extension. -/
def fmkToolCompile (opts : FlyMakeOpts) (exec : Cmd → Int)
    (compilers : List FlyMakeCompiler) (incs libs provFolder szOutFolder : Str)
    (pTool : FmkTool) (st : BSt) : CompR :=
  let r := fmkToolFilesLoop opts exec compilers incs provFolder szOutFolder
    pTool.aszSrcFiles st
  if ¬ r.1 then ⟨-1, r.2.1, r.2.2.1⟩
  else
    match pTool.aszSrcFiles.head? with
    | none => ⟨-1, r.2.1, r.2.2.1⟩
    | some f0 =>
      match flyMakeCompilerFind compilers (flyStrPathExt f0) with
      | none => ⟨-1, r.2.1, r.2.2.1⟩
      | some pCompiler =>
        let szToolOut := fmkToolOutName pTool
        let nC := if (fsGet r.2.1.fs szToolOut).isNone then r.2.2.2 + 1 else r.2.2.2
        let st1 := if (fsGet r.2.1.fs szToolOut).isNone then
          { r.2.1 with nCompiled := r.2.1.nCompiled + 1 } else r.2.1
        if nC ≠ 0 ∨ opts.fRebuild = true then
          let pInObjs := (pTool.aszSrcFiles.map
            (fun f => fmkGetOutName szOutFolder f ++ cs " ")).flatten
          let szDebug := if opts.dbg = 0 then [] else pCompiler.szLlDbg
          let c : Cmd := ⟨CmdKind.link, provFolder, szToolOut,
            flyMakeCompilerFmtLink pCompiler pInObjs libs szDebug szToolOut⟩
          let rs := flyMakeSystem 1 opts exec c st1
          if rs.ret ≠ 0 then ⟨-1, rs.st, r.2.2.1 ++ rs.issued⟩
          else ⟨0, rs.st, r.2.2.1 ++ rs.issued⟩
        else ⟨1, st1, r.2.2.1⟩

/-- The per-tool loop of `FlyMakeBuildTools` (src/src/flymakedep.c:808-825),
whole-folder case: build every tool, stopping at the first failure. -/
def fmkToolsLoop (opts : FlyMakeOpts) (exec : Cmd → Int)
    (compilers : List FlyMakeCompiler) (incs libs provFolder szOutFolder : Str) :
    List FmkTool → BSt → BuildR
  | [], st => ⟨true, st, []⟩
  | t :: rest, st =>
    let r := fmkToolCompile opts exec compilers incs libs provFolder szOutFolder t st
    if r.ret < 0 then ⟨false, r.st, r.cmds⟩
    else
      let rr := fmkToolsLoop opts exec compilers incs libs provFolder szOutFolder
        rest r.st
      ⟨rr.ok, rr.st, r.cmds ++ rr.cmds⟩

/-- `FlyMakeBuildTools` (src/src/flymakedep.c:734-834) with no specific
target: group the folder into tools, make the out/ folder when there are any,
and build each tool. -/
def flyMakeBuildTools (opts : FlyMakeOpts) (exec : Cmd → Int)
    (compilers : List FlyMakeCompiler) (incs libs : Str) (folder : FmkFolder)
    (st : BSt) : BuildR :=
  let pToolList := flyMakeToolListNew (folder.files.map (fun s => (s, false)))
  match pToolList with
  | [] => ⟨true, st, []⟩
  | t :: ts =>
    let szOutFolder := folder.path ++ cs "out/"
    let r0 := flyMakeFolderCreate opts szOutFolder st
    fmkToolsLoop opts exec compilers incs libs folder.path szOutFolder (t :: ts) r0.2

/-- `FlyMakeBuildLibs` (src/src/flymakedep.c:2307-2327): build every
library-rule folder in list order, stopping at the first failure. -/
def flyMakeBuildLibs (opts : FlyMakeOpts) (exec : Cmd → Int)
    (compilers : List FlyMakeCompiler) (szProjName incs : Str) :
    List FmkFolder → BSt → BuildR
  | [], st => ⟨true, st, []⟩
  | f :: rest, st =>
    if f.rule = FmkRule.lib then
      let r := flyMakeBuildLib opts exec compilers szProjName incs f st
      if ¬ r.ok then ⟨false, r.st, r.cmds⟩
      else
        let rr := flyMakeBuildLibs opts exec compilers szProjName incs rest r.st
        ⟨rr.ok, rr.st, r.cmds ++ rr.cmds⟩
    else flyMakeBuildLibs opts exec compilers szProjName incs rest st

/-- The source-program/tool loop of `FmkDepBuildProject`
(src/src/flymakedep.c:1966-1976): after the libraries, build every
source-program and tool folder in list order, stopping at the first failure. -/
def fmkDepProgsLoop (opts : FlyMakeOpts) (exec : Cmd → Int)
    (compilers : List FlyMakeCompiler) (szProjName incs libs : Str) :
    List FmkFolder → BSt → BuildR
  | [], st => ⟨true, st, []⟩
  | f :: rest, st =>
    match f.rule with
    | FmkRule.src =>
      let r := flyMakeBuildSrc opts exec compilers szProjName incs libs f st
      if ¬ r.ok then ⟨false, r.st, r.cmds⟩
      else
        let rr := fmkDepProgsLoop opts exec compilers szProjName incs libs rest r.st
        ⟨rr.ok, rr.st, r.cmds ++ rr.cmds⟩
    | FmkRule.tool =>
      let r := flyMakeBuildTools opts exec compilers incs libs f st
      if ¬ r.ok then ⟨false, r.st, r.cmds⟩
      else
        let rr := fmkDepProgsLoop opts exec compilers szProjName incs libs rest r.st
        ⟨rr.ok, rr.st, r.cmds ++ rr.cmds⟩
    | _ => fmkDepProgsLoop opts exec compilers szProjName incs libs rest st

/-- `FmkDepBuildProject` (src/src/flymakedep.c:1950-1979): all library-rule
folders first, then the source-program and tool folders. -/
def fmkDepBuildProject (opts : FlyMakeOpts) (exec : Cmd → Int)
    (compilers : List FlyMakeCompiler) (p : FmkProject) (st : BSt) : BuildR :=
  let r := flyMakeBuildLibs opts exec compilers p.szProjName p.incs p.folders st
  if ¬ r.ok then ⟨false, r.st, r.cmds⟩
  else
    let rr := fmkDepProgsLoop opts exec compilers p.szProjName p.incs p.libs
      p.folders r.st
    ⟨rr.ok, rr.st, r.cmds ++ rr.cmds⟩

/-- The dependency loop of `FlyMakeDepListBuild` (src/src/flymakedep.c:2064-2077)
for an already-resolved dependency list: each dependency with an owned
sub-state gets its library folders built under its own state (library rules
only; `fRebuild` comes from `--all` alone, per `FmkDepPackageValidate`
src/src/flymakedep.c:1162-1166), and a recompiled dependency library marks and
counts on the root state.  Dependency discovery (manifest iteration and git
materialization) issues no compile, archive or link command and is omitted. -/
def flyMakeDepListBuildRun (opts : FlyMakeOpts) (exec : Cmd → Int)
    (compilers : List FlyMakeCompiler) : List FmkDepProj → BSt → BuildR
  | [], st => ⟨true, st, []⟩
  | d :: rest, st =>
    match d.sub with
    | none => flyMakeDepListBuildRun opts exec compilers rest st
    | some p =>
      let depOpts := { opts with fRebuild := opts.fAll }
      let depSt : BSt := ⟨st.fs, st.clk, st.dirs, 0, 0, false⟩
      let r := flyMakeBuildLibs depOpts exec compilers p.szProjName p.incs
        p.folders depSt
      let st1 : BSt := ⟨r.st.fs, r.st.clk, r.st.dirs,
        st.nCompiled + (if r.st.fLibCompiled then 1 else 0), st.nSrcFiles,
        st.fLibCompiled || r.st.fLibCompiled⟩
      if ¬ r.ok then ⟨false, st1, r.cmds⟩
      else
        let rr := flyMakeDepListBuildRun opts exec compilers rest st1
        ⟨rr.ok, rr.st, r.cmds ++ rr.cmds⟩

/-- The closing report of `FlyMakeCmdBuild` (src/unnamed/part_001:410-415). -/
inductive BuildMsg where
  | errorOut
  | emptyProject
  | upToDate
  | builtOk
deriving DecidableEq, Repr

/-- Result of a whole `build` run. -/
structure RunR where
  err : Bool
  st : BSt
  cmds : List Cmd
  msg : BuildMsg
deriving Repr

/-- `FlyMakeCmdBuild` (src/unnamed/part_001:371-418) with no explicit target:
counters reset, `--all` implies force-rebuild (main, src/unnamed/part_001:680),
dependencies are built first, then the whole project (the root target always
resolves to rule `FMK_RULE_PROJ`, handled by `FmkDepBuildProject`); afterwards
"empty project" is reported when no source file was encountered and
"up to date" when nothing was compiled.  The clock starts above every existing
modification time, standing for wall time. -/
def flyMakeCmdBuild (opts0 : FlyMakeOpts) (exec : Cmd → Int)
    (compilers : List FlyMakeCompiler) (root : FmkProject)
    (deps : List FmkDepProj) (fs : Fs) (dirs : List Str) : RunR :=
  let opts := if opts0.fAll then { opts0 with fRebuild := true } else opts0
  let st0 : BSt := ⟨fs, fsMax fs + 1, dirs, 0, 0, false⟩
  let rd := flyMakeDepListBuildRun opts exec compilers deps st0
  if ¬ rd.ok then ⟨true, rd.st, rd.cmds, BuildMsg.errorOut⟩
  else
    let rp := fmkDepBuildProject opts exec compilers root rd.st
    let msg := if ¬ rp.ok then BuildMsg.errorOut
      else if rp.st.nSrcFiles = 0 then BuildMsg.emptyProject
      else if rp.st.nCompiled = 0 then BuildMsg.upToDate
      else BuildMsg.builtOk
    ⟨¬ rp.ok, rp.st, rd.cmds ++ rp.cmds, msg⟩

/-- Every command `FlyMakeSystem` hands to `system()` is the one it was given. -/
theorem flyMakeSystem_issued (v : Nat) (opts : FlyMakeOpts) (exec : Cmd → Int)
    (c : Cmd) (st : BSt) : ∀ d ∈ (flyMakeSystem v opts exec c st).issued, d = c := by
  intro d hd
  simp only [flyMakeSystem] at hd
  split at hd
  · simp at hd
  · split at hd <;> simpa using hd

/-- Every command `FmkCompileFile` issues carries the folder being built. -/
theorem fmkCompileFile_prov (opts : FlyMakeOpts) (exec : Cmd → Int)
    (compilers : List FlyMakeCompiler) (incs provFolder szOutFolder f : Str)
    (st : BSt) :
    ∀ c ∈ (fmkCompileFile opts exec compilers incs provFolder szOutFolder f st).cmds,
      c.folder = provFolder := by
  intro c hc
  simp only [fmkCompileFile] at hc
  repeat' split at hc
  all_goals
    first
      | (have h := flyMakeSystem_issued 1 opts exec _ _ c (by simpa using hc)
         rw [h])
      | simp at hc

/-- Every command the folder-compile loop issues carries the folder being
built. -/
theorem fmkCompileFilesLoop_prov (opts : FlyMakeOpts) (exec : Cmd → Int)
    (compilers : List FlyMakeCompiler) (incs provFolder szOutFolder : Str)
    (files : List Str) (st : BSt) :
    ∀ c ∈ (fmkCompileFilesLoop opts exec compilers incs provFolder szOutFolder
      files st).2.2.1, c.folder = provFolder := by
  induction files generalizing st with
  | nil => intro c hc; simp [fmkCompileFilesLoop] at hc
  | cons f rest ih =>
    intro c hc
    simp only [fmkCompileFilesLoop, List.mem_append] at hc
    rcases hc with hc | hc
    · exact fmkCompileFile_prov opts exec compilers incs provFolder szOutFolder f st c hc
    · exact ih _ c hc

/-- Every command `FmkCompileFolder` issues carries the folder being built. -/
theorem fmkCompileFolder_prov (opts : FlyMakeOpts) (exec : Cmd → Int)
    (compilers : List FlyMakeCompiler) (incs : Str) (folder : FmkFolder)
    (st : BSt) :
    ∀ c ∈ (fmkCompileFolder opts exec compilers incs folder st).cmds,
      c.folder = folder.path := by
  intro c hc
  simp only [fmkCompileFolder] at hc
  split at hc
  · simp at hc
  · exact fmkCompileFilesLoop_prov opts exec compilers incs folder.path _ _ _ c hc

/-- Every command `FlyMakeBuildLib` issues carries the library folder. -/
theorem flyMakeBuildLib_prov (opts : FlyMakeOpts) (exec : Cmd → Int)
    (compilers : List FlyMakeCompiler) (szProjName incs : Str)
    (folder : FmkFolder) (st : BSt) :
    ∀ c ∈ (flyMakeBuildLib opts exec compilers szProjName incs folder st).cmds,
      c.folder = folder.path := by
  intro c hc
  simp only [flyMakeBuildLib] at hc
  repeat' split at hc
  all_goals try simp only [List.mem_append] at hc
  all_goals
    first
      | exact fmkCompileFolder_prov opts exec compilers incs folder st c hc
      | (rcases hc with hc | hc
         · exact fmkCompileFolder_prov opts exec compilers incs folder st c hc
         · rw [flyMakeSystem_issued 1 opts exec _ _ c hc])

/-- Every command `FlyMakeBuildSrc` issues carries the program folder. -/
theorem flyMakeBuildSrc_prov (opts : FlyMakeOpts) (exec : Cmd → Int)
    (compilers : List FlyMakeCompiler) (szProjName incs libs : Str)
    (folder : FmkFolder) (st : BSt) :
    ∀ c ∈ (flyMakeBuildSrc opts exec compilers szProjName incs libs folder st).cmds,
      c.folder = folder.path := by
  intro c hc
  simp only [flyMakeBuildSrc] at hc
  repeat' split at hc
  all_goals try simp only [List.mem_append] at hc
  all_goals
    first
      | exact fmkCompileFolder_prov opts exec compilers incs folder st c hc
      | (rcases hc with hc | hc
         · exact fmkCompileFolder_prov opts exec compilers incs folder st c hc
         · rw [flyMakeSystem_issued 1 opts exec _ _ c hc])

/-- Every command the tool-file loop issues carries the tool folder. -/
theorem fmkToolFilesLoop_prov (opts : FlyMakeOpts) (exec : Cmd → Int)
    (compilers : List FlyMakeCompiler) (incs provFolder szOutFolder : Str)
    (files : List Str) (st : BSt) :
    ∀ c ∈ (fmkToolFilesLoop opts exec compilers incs provFolder szOutFolder
      files st).2.2.1, c.folder = provFolder := by
  induction files generalizing st with
  | nil => intro c hc; simp [fmkToolFilesLoop] at hc
  | cons f rest ih =>
    intro c hc
    simp only [fmkToolFilesLoop] at hc
    split at hc
    · exact fmkCompileFile_prov opts exec compilers incs provFolder szOutFolder f st c hc
    · simp only [List.mem_append] at hc
      rcases hc with hc | hc
      · exact fmkCompileFile_prov opts exec compilers incs provFolder szOutFolder f st c hc
      · exact ih _ c hc

/-- Every command `FmkToolCompile` issues carries the tool folder. -/
theorem fmkToolCompile_prov (opts : FlyMakeOpts) (exec : Cmd → Int)
    (compilers : List FlyMakeCompiler) (incs libs provFolder szOutFolder : Str)
    (pTool : FmkTool) (st : BSt) :
    ∀ c ∈ (fmkToolCompile opts exec compilers incs libs provFolder szOutFolder
      pTool st).cmds, c.folder = provFolder := by
  intro c hc
  simp only [fmkToolCompile] at hc
  repeat' split at hc
  all_goals try simp only [List.mem_append] at hc
  all_goals
    first
      | exact fmkToolFilesLoop_prov opts exec compilers incs provFolder szOutFolder _ st c hc
      | (rcases hc with hc | hc
         · exact fmkToolFilesLoop_prov opts exec compilers incs provFolder szOutFolder _ st c hc
         · rw [flyMakeSystem_issued 1 opts exec _ _ c hc])

/-- Every command the tool loop issues carries the tool folder. -/
theorem fmkToolsLoop_prov (opts : FlyMakeOpts) (exec : Cmd → Int)
    (compilers : List FlyMakeCompiler) (incs libs provFolder szOutFolder : Str)
    (tools : List FmkTool) (st : BSt) :
    ∀ c ∈ (fmkToolsLoop opts exec compilers incs libs provFolder szOutFolder
      tools st).cmds, c.folder = provFolder := by
  induction tools generalizing st with
  | nil => intro c hc; simp [fmkToolsLoop] at hc
  | cons t rest ih =>
    intro c hc
    simp only [fmkToolsLoop] at hc
    split at hc
    · exact fmkToolCompile_prov opts exec compilers incs libs provFolder szOutFolder t st c hc
    · simp only [List.mem_append] at hc
      rcases hc with hc | hc
      · exact fmkToolCompile_prov opts exec compilers incs libs provFolder szOutFolder t st c hc
      · exact ih _ c hc

/-- Every command `FlyMakeBuildTools` issues carries the tool folder. -/
theorem flyMakeBuildTools_prov (opts : FlyMakeOpts) (exec : Cmd → Int)
    (compilers : List FlyMakeCompiler) (incs libs : Str) (folder : FmkFolder)
    (st : BSt) :
    ∀ c ∈ (flyMakeBuildTools opts exec compilers incs libs folder st).cmds,
      c.folder = folder.path := by
  intro c hc
  simp only [flyMakeBuildTools] at hc
  split at hc
  · simp at hc
  · exact fmkToolsLoop_prov opts exec compilers incs libs folder.path _ _ _ c hc

/-- Every command `FlyMakeBuildLibs` issues comes from a library-rule folder
of the processed list. -/
theorem flyMakeBuildLibs_prov (opts : FlyMakeOpts) (exec : Cmd → Int)
    (compilers : List FlyMakeCompiler) (szProjName incs : Str)
    (folders : List FmkFolder) (st : BSt) :
    ∀ c ∈ (flyMakeBuildLibs opts exec compilers szProjName incs folders st).cmds,
      ∃ f ∈ folders, f.rule = FmkRule.lib ∧ c.folder = f.path := by
  induction folders generalizing st with
  | nil => intro c hc; simp [flyMakeBuildLibs] at hc
  | cons f rest ih =>
    intro c hc
    simp only [flyMakeBuildLibs] at hc
    split at hc
    · rename_i hrule
      split at hc
      · exact ⟨f, List.mem_cons_self f rest, hrule,
          flyMakeBuildLib_prov opts exec compilers szProjName incs f st c hc⟩
      · simp only [List.mem_append] at hc
        rcases hc with hc | hc
        · exact ⟨f, List.mem_cons_self f rest, hrule,
            flyMakeBuildLib_prov opts exec compilers szProjName incs f st c hc⟩
        · obtain ⟨g, hg, hgr, hgp⟩ := ih _ c hc
          exact ⟨g, List.mem_cons_of_mem f hg, hgr, hgp⟩
    · obtain ⟨g, hg, hgr, hgp⟩ := ih _ c hc
      exact ⟨g, List.mem_cons_of_mem f hg, hgr, hgp⟩

/-- Every command the program/tool loop issues comes from a source-program or
tool-rule folder of the processed list. -/
theorem fmkDepProgsLoop_prov (opts : FlyMakeOpts) (exec : Cmd → Int)
    (compilers : List FlyMakeCompiler) (szProjName incs libs : Str)
    (folders : List FmkFolder) (st : BSt) :
    ∀ c ∈ (fmkDepProgsLoop opts exec compilers szProjName incs libs folders st).cmds,
      ∃ f ∈ folders, (f.rule = FmkRule.src ∨ f.rule = FmkRule.tool) ∧
        c.folder = f.path := by
  induction folders generalizing st with
  | nil => intro c hc; simp [fmkDepProgsLoop] at hc
  | cons f rest ih =>
    intro c hc
    simp only [fmkDepProgsLoop] at hc
    split at hc
    · split at hc
      · exact ⟨f, List.mem_cons_self f rest, Or.inl (by assumption),
          flyMakeBuildSrc_prov opts exec compilers szProjName incs libs f st c hc⟩
      · simp only [List.mem_append] at hc
        rcases hc with hc | hc
        · exact ⟨f, List.mem_cons_self f rest, Or.inl (by assumption),
            flyMakeBuildSrc_prov opts exec compilers szProjName incs libs f st c hc⟩
        · obtain ⟨g, hg, hgr, hgp⟩ := ih _ c hc
          exact ⟨g, List.mem_cons_of_mem f hg, hgr, hgp⟩
    · split at hc
      · exact ⟨f, List.mem_cons_self f rest, Or.inr (by assumption),
          flyMakeBuildTools_prov opts exec compilers incs libs f st c hc⟩
      · simp only [List.mem_append] at hc
        rcases hc with hc | hc
        · exact ⟨f, List.mem_cons_self f rest, Or.inr (by assumption),
            flyMakeBuildTools_prov opts exec compilers incs libs f st c hc⟩
        · obtain ⟨g, hg, hgr, hgp⟩ := ih _ c hc
          exact ⟨g, List.mem_cons_of_mem f hg, hgr, hgp⟩
    · obtain ⟨g, hg, hgr, hgp⟩ := ih _ c hc
      exact ⟨g, List.mem_cons_of_mem f hg, hgr, hgp⟩

/-- Every command the dependency loop issues comes from a library-rule folder
of a dependency's own project. -/
theorem flyMakeDepListBuildRun_prov (opts : FlyMakeOpts) (exec : Cmd → Int)
    (compilers : List FlyMakeCompiler) (deps : List FmkDepProj) (st : BSt) :
    ∀ c ∈ (flyMakeDepListBuildRun opts exec compilers deps st).cmds,
      ∃ d ∈ deps, ∃ p, d.sub = some p ∧
        ∃ f ∈ p.folders, f.rule = FmkRule.lib ∧ c.folder = f.path := by
  induction deps generalizing st with
  | nil => intro c hc; simp [flyMakeDepListBuildRun] at hc
  | cons d rest ih =>
    intro c hc
    simp only [flyMakeDepListBuildRun] at hc
    split at hc
    · obtain ⟨e, he, p, hp, hrest⟩ := ih _ c hc
      exact ⟨e, List.mem_cons_of_mem d he, p, hp, hrest⟩
    · rename_i p hp
      split at hc
      · obtain ⟨g, hg, hgr, hgp⟩ :=
          flyMakeBuildLibs_prov _ exec compilers p.szProjName p.incs p.folders _ c hc
        exact ⟨d, List.mem_cons_self d rest, p, hp, g, hg, hgr, hgp⟩
      · simp only [List.mem_append] at hc
        rcases hc with hc | hc
        · obtain ⟨g, hg, hgr, hgp⟩ :=
            flyMakeBuildLibs_prov _ exec compilers p.szProjName p.incs p.folders _ c hc
          exact ⟨d, List.mem_cons_self d rest, p, hp, g, hg, hgr, hgp⟩
        · obtain ⟨e, he, q, hq, hrest⟩ := ih _ c hc
          exact ⟨e, List.mem_cons_of_mem d he, q, hq, hrest⟩

/-- Any project build's trace is a libraries segment followed by a
programs-and-tools segment. -/
theorem fmkDepBuildProject_phase (opts : FlyMakeOpts) (exec : Cmd → Int)
    (compilers : List FlyMakeCompiler) (p : FmkProject) (st : BSt) :
    ∃ B C, (fmkDepBuildProject opts exec compilers p st).cmds = B ++ C ∧
      (∀ c ∈ B, ∃ f ∈ p.folders, f.rule = FmkRule.lib ∧ c.folder = f.path) ∧
      (∀ c ∈ C, ∃ f ∈ p.folders,
        (f.rule = FmkRule.src ∨ f.rule = FmkRule.tool) ∧ c.folder = f.path) := by
  by_cases hok : (flyMakeBuildLibs opts exec compilers p.szProjName p.incs
      p.folders st).ok = true
  · refine ⟨(flyMakeBuildLibs opts exec compilers p.szProjName p.incs
        p.folders st).cmds,
      (fmkDepProgsLoop opts exec compilers p.szProjName p.incs p.libs p.folders
        (flyMakeBuildLibs opts exec compilers p.szProjName p.incs p.folders st).st).cmds,
      ?_,
      flyMakeBuildLibs_prov opts exec compilers p.szProjName p.incs p.folders st,
      fmkDepProgsLoop_prov opts exec compilers p.szProjName p.incs p.libs p.folders
        (flyMakeBuildLibs opts exec compilers p.szProjName p.incs p.folders st).st⟩
    simp [fmkDepBuildProject, hok]
  · refine ⟨(flyMakeBuildLibs opts exec compilers p.szProjName p.incs
        p.folders st).cmds, [], ?_,
      flyMakeBuildLibs_prov opts exec compilers p.szProjName p.incs p.folders st,
      by simp⟩
    simp [fmkDepBuildProject, hok]

/-- The dependency phase's commands followed by the project phase's commands
split into the three claimed segments, for any options and start state. -/
theorem flyMakeBuildPhases_prov (opts : FlyMakeOpts) (exec : Cmd → Int)
    (compilers : List FlyMakeCompiler) (root : FmkProject)
    (deps : List FmkDepProj) (st0 : BSt) :
    ∃ A B C,
      (if ¬ (flyMakeDepListBuildRun opts exec compilers deps st0).ok = true
         then (flyMakeDepListBuildRun opts exec compilers deps st0).cmds
         else (flyMakeDepListBuildRun opts exec compilers deps st0).cmds ++
           (fmkDepBuildProject opts exec compilers root
             (flyMakeDepListBuildRun opts exec compilers deps st0).st).cmds)
        = A ++ B ++ C ∧
      (∀ c ∈ A, ∃ d ∈ deps, ∃ p, d.sub = some p ∧
        ∃ f ∈ p.folders, f.rule = FmkRule.lib ∧ c.folder = f.path) ∧
      (∀ c ∈ B, ∃ f ∈ root.folders, f.rule = FmkRule.lib ∧ c.folder = f.path) ∧
      (∀ c ∈ C, ∃ f ∈ root.folders,
        (f.rule = FmkRule.src ∨ f.rule = FmkRule.tool) ∧ c.folder = f.path) := by
  obtain ⟨B, C, hbc, hB, hC⟩ := fmkDepBuildProject_phase opts exec compilers root
    (flyMakeDepListBuildRun opts exec compilers deps st0).st
  by_cases hok : (flyMakeDepListBuildRun opts exec compilers deps st0).ok = true
  · refine ⟨(flyMakeDepListBuildRun opts exec compilers deps st0).cmds, B, C, ?_,
      flyMakeDepListBuildRun_prov opts exec compilers deps st0, hB, hC⟩
    rw [if_neg (by simp [hok]), hbc, List.append_assoc]
  · refine ⟨(flyMakeDepListBuildRun opts exec compilers deps st0).cmds, [], [], ?_,
      flyMakeDepListBuildRun_prov opts exec compilers deps st0, by simp, by simp⟩
    rw [if_pos (by simp [hok])]
    simp

/-- C8: the complete command trace of a build splits into three consecutive
segments: first every command issued for a dependency — always from a
library-rule folder of that dependency's project — then the root project's
library-rule folders, and last the root project's source-program and
tool-rule folders.  So each project's libraries are built before any of its
programs or tools, and dependency libraries are built before anything of the
root project. -/
theorem flyMakeCmdBuild_build_order (opts0 : FlyMakeOpts) (exec : Cmd → Int)
    (compilers : List FlyMakeCompiler) (root : FmkProject)
    (deps : List FmkDepProj) (fs : Fs) (dirs : List Str) :
    ∃ A B C,
      (flyMakeCmdBuild opts0 exec compilers root deps fs dirs).cmds =
        A ++ B ++ C ∧
      (∀ c ∈ A, ∃ d ∈ deps, ∃ p, d.sub = some p ∧
        ∃ f ∈ p.folders, f.rule = FmkRule.lib ∧ c.folder = f.path) ∧
      (∀ c ∈ B, ∃ f ∈ root.folders, f.rule = FmkRule.lib ∧ c.folder = f.path) ∧
      (∀ c ∈ C, ∃ f ∈ root.folders,
        (f.rule = FmkRule.src ∨ f.rule = FmkRule.tool) ∧ c.folder = f.path) := by
  obtain ⟨A, B, C, h, hA, hB, hC⟩ := flyMakeBuildPhases_prov
    (if opts0.fAll = true then { opts0 with fRebuild := true } else opts0)
    exec compilers root deps ⟨fs, fsMax fs + 1, dirs, 0, 0, false⟩
  refine ⟨A, B, C, ?_, hA, hB, hC⟩
  rw [← h]
  simp only [flyMakeCmdBuild]
  rw [apply_ite RunR.cmds]

/-- A run leaves the filesystem, the clock and the directory set untouched. -/
abbrev DryFrame (st st' : BSt) : Prop :=
  st'.fs = st.fs ∧ st'.clk = st.clk ∧ st'.dirs = st.dirs

/-- Chaining two untouched runs. -/
theorem dryFrame_trans {a b c : BSt} (h1 : DryFrame a b) (h2 : DryFrame b c) :
    DryFrame a c :=
  ⟨h2.1.trans h1.1, h2.2.1.trans h1.2.1, h2.2.2.trans h1.2.2⟩

/-- Under `-n`, `FlyMakeSystem` prints (subject to verbosity) and reports
success without invoking the child or touching the state. -/
theorem flyMakeSystem_dry (v : Nat) (opts : FlyMakeOpts) (exec : Cmd → Int)
    (c : Cmd) (st : BSt) (hnb : opts.fNoBuild = true) :
    flyMakeSystem v opts exec c st =
      ⟨0, st, [], if opts.verbose ≥ v then [c] else []⟩ := by
  simp [flyMakeSystem, hnb]

/-- Under `-n`, `FlyMakeFolderCreate` reports success and creates nothing. -/
theorem flyMakeFolderCreate_dry (opts : FlyMakeOpts) (szFolder : Str) (st : BSt)
    (hnb : opts.fNoBuild = true) :
    flyMakeFolderCreate opts szFolder st = (true, st) := by
  simp [flyMakeFolderCreate, hnb]

/-- Under `-n`, `FmkCompileFile` issues nothing and leaves fs/clock/dirs. -/
theorem fmkCompileFile_dry (opts : FlyMakeOpts) (exec : Cmd → Int)
    (compilers : List FlyMakeCompiler) (incs provFolder szOutFolder f : Str)
    (st : BSt) (hnb : opts.fNoBuild = true) :
    (fmkCompileFile opts exec compilers incs provFolder szOutFolder f st).cmds = [] ∧
    DryFrame st (fmkCompileFile opts exec compilers incs provFolder szOutFolder f st).st := by
  simp only [fmkCompileFile]
  repeat' split
  all_goals
    first
      | exact ⟨rfl, rfl, rfl, rfl⟩
      | simp [flyMakeSystem, hnb, DryFrame]

/-- Dry-run frame for the folder compile loop. -/
theorem fmkCompileFilesLoop_dry (opts : FlyMakeOpts) (exec : Cmd → Int)
    (compilers : List FlyMakeCompiler) (incs provFolder szOutFolder : Str)
    (files : List Str) (st : BSt) (hnb : opts.fNoBuild = true) :
    (fmkCompileFilesLoop opts exec compilers incs provFolder szOutFolder files st).2.2.1 = [] ∧
    DryFrame st (fmkCompileFilesLoop opts exec compilers incs provFolder szOutFolder files st).2.1 := by
  induction files generalizing st with
  | nil => exact ⟨rfl, rfl, rfl, rfl⟩
  | cons f rest ih =>
    obtain ⟨hc, h1, h2, h3⟩ :=
      fmkCompileFile_dry opts exec compilers incs provFolder szOutFolder f st hnb
    obtain ⟨gc, g1, g2, g3⟩ :=
      ih ((fmkCompileFile opts exec compilers incs provFolder szOutFolder f st).st)
    exact ⟨by simp [fmkCompileFilesLoop, hc, gc], g1.trans h1, g2.trans h2, g3.trans h3⟩

/-- Dry-run frame for `FmkCompileFolder`. -/
theorem fmkCompileFolder_dry (opts : FlyMakeOpts) (exec : Cmd → Int)
    (compilers : List FlyMakeCompiler) (incs : Str) (folder : FmkFolder)
    (st : BSt) (hnb : opts.fNoBuild = true) :
    (fmkCompileFolder opts exec compilers incs folder st).cmds = [] ∧
    DryFrame st (fmkCompileFolder opts exec compilers incs folder st).st := by
  simp only [fmkCompileFolder]
  split
  · exact ⟨rfl, rfl, rfl, rfl⟩
  · rw [flyMakeFolderCreate_dry opts (folder.path ++ cs "out/") st hnb]
    exact fmkCompileFilesLoop_dry opts exec compilers incs folder.path
      (folder.path ++ cs "out/") _ st hnb

/-- Dry-run frame for `FlyMakeBuildLib`. -/
theorem flyMakeBuildLib_dry (opts : FlyMakeOpts) (exec : Cmd → Int)
    (compilers : List FlyMakeCompiler) (szProjName incs : Str)
    (folder : FmkFolder) (st : BSt) (hnb : opts.fNoBuild = true) :
    (flyMakeBuildLib opts exec compilers szProjName incs folder st).cmds = [] ∧
    DryFrame st (flyMakeBuildLib opts exec compilers szProjName incs folder st).st := by
  obtain ⟨hc, h1, h2, h3⟩ := fmkCompileFolder_dry opts exec compilers incs folder st hnb
  simp only [flyMakeBuildLib]
  repeat' split
  all_goals
    first
      | exact ⟨hc, h1, h2, h3⟩
      | simp_all [flyMakeSystem, hnb, DryFrame]

/-- Dry-run frame for `FlyMakeBuildSrc`. -/
theorem flyMakeBuildSrc_dry (opts : FlyMakeOpts) (exec : Cmd → Int)
    (compilers : List FlyMakeCompiler) (szProjName incs libs : Str)
    (folder : FmkFolder) (st : BSt) (hnb : opts.fNoBuild = true) :
    (flyMakeBuildSrc opts exec compilers szProjName incs libs folder st).cmds = [] ∧
    DryFrame st (flyMakeBuildSrc opts exec compilers szProjName incs libs folder st).st := by
  obtain ⟨hc, h1, h2, h3⟩ := fmkCompileFolder_dry opts exec compilers incs folder st hnb
  simp only [flyMakeBuildSrc]
  repeat' split
  all_goals
    first
      | exact ⟨hc, h1, h2, h3⟩
      | simp_all [flyMakeSystem, hnb, DryFrame]

/-- Dry-run frame for the tool compile loop. -/
theorem fmkToolFilesLoop_dry (opts : FlyMakeOpts) (exec : Cmd → Int)
    (compilers : List FlyMakeCompiler) (incs provFolder szOutFolder : Str)
    (files : List Str) (st : BSt) (hnb : opts.fNoBuild = true) :
    (fmkToolFilesLoop opts exec compilers incs provFolder szOutFolder files st).2.2.1 = [] ∧
    DryFrame st (fmkToolFilesLoop opts exec compilers incs provFolder szOutFolder files st).2.1 := by
  induction files generalizing st with
  | nil => exact ⟨rfl, rfl, rfl, rfl⟩
  | cons f rest ih =>
    obtain ⟨hc, h1, h2, h3⟩ :=
      fmkCompileFile_dry opts exec compilers incs provFolder szOutFolder f st hnb
    obtain ⟨gc, g1, g2, g3⟩ :=
      ih ((fmkCompileFile opts exec compilers incs provFolder szOutFolder f st).st)
    simp only [fmkToolFilesLoop]
    split
    · exact ⟨hc, h1, h2, h3⟩
    · exact ⟨by simp [hc, gc], g1.trans h1, g2.trans h2, g3.trans h3⟩

/-- Dry-run frame for `FmkToolCompile`. -/
theorem fmkToolCompile_dry (opts : FlyMakeOpts) (exec : Cmd → Int)
    (compilers : List FlyMakeCompiler) (incs libs provFolder szOutFolder : Str)
    (pTool : FmkTool) (st : BSt) (hnb : opts.fNoBuild = true) :
    (fmkToolCompile opts exec compilers incs libs provFolder szOutFolder pTool st).cmds = [] ∧
    DryFrame st (fmkToolCompile opts exec compilers incs libs provFolder szOutFolder pTool st).st := by
  obtain ⟨hc, h1, h2, h3⟩ := fmkToolFilesLoop_dry opts exec compilers incs
    provFolder szOutFolder pTool.aszSrcFiles st hnb
  simp only [fmkToolCompile]
  repeat' split
  all_goals
    first
      | exact ⟨hc, h1, h2, h3⟩
      | simp_all [flyMakeSystem, hnb, DryFrame]

/-- Dry-run frame for the tool loop. -/
theorem fmkToolsLoop_dry (opts : FlyMakeOpts) (exec : Cmd → Int)
    (compilers : List FlyMakeCompiler) (incs libs provFolder szOutFolder : Str)
    (tools : List FmkTool) (st : BSt) (hnb : opts.fNoBuild = true) :
    (fmkToolsLoop opts exec compilers incs libs provFolder szOutFolder tools st).cmds = [] ∧
    DryFrame st (fmkToolsLoop opts exec compilers incs libs provFolder szOutFolder tools st).st := by
  induction tools generalizing st with
  | nil => exact ⟨rfl, rfl, rfl, rfl⟩
  | cons t rest ih =>
    obtain ⟨hc, h1, h2, h3⟩ := fmkToolCompile_dry opts exec compilers incs libs
      provFolder szOutFolder t st hnb
    obtain ⟨gc, g1, g2, g3⟩ :=
      ih ((fmkToolCompile opts exec compilers incs libs provFolder szOutFolder t st).st)
    simp only [fmkToolsLoop]
    split
    · exact ⟨hc, h1, h2, h3⟩
    · exact ⟨by simp [hc, gc], g1.trans h1, g2.trans h2, g3.trans h3⟩

/-- Dry-run frame for `FlyMakeBuildTools`. -/
theorem flyMakeBuildTools_dry (opts : FlyMakeOpts) (exec : Cmd → Int)
    (compilers : List FlyMakeCompiler) (incs libs : Str) (folder : FmkFolder)
    (st : BSt) (hnb : opts.fNoBuild = true) :
    (flyMakeBuildTools opts exec compilers incs libs folder st).cmds = [] ∧
    DryFrame st (flyMakeBuildTools opts exec compilers incs libs folder st).st := by
  simp only [flyMakeBuildTools]
  split
  · exact ⟨rfl, rfl, rfl, rfl⟩
  · rw [flyMakeFolderCreate_dry opts (folder.path ++ cs "out/") st hnb]
    exact fmkToolsLoop_dry opts exec compilers incs libs folder.path
      (folder.path ++ cs "out/") _ st hnb

/-- Dry-run frame for `FlyMakeBuildLibs`. -/
theorem flyMakeBuildLibs_dry (opts : FlyMakeOpts) (exec : Cmd → Int)
    (compilers : List FlyMakeCompiler) (szProjName incs : Str)
    (folders : List FmkFolder) (st : BSt) (hnb : opts.fNoBuild = true) :
    (flyMakeBuildLibs opts exec compilers szProjName incs folders st).cmds = [] ∧
    DryFrame st (flyMakeBuildLibs opts exec compilers szProjName incs folders st).st := by
  induction folders generalizing st with
  | nil => exact ⟨rfl, rfl, rfl, rfl⟩
  | cons f rest ih =>
    obtain ⟨hc, h1, h2, h3⟩ :=
      flyMakeBuildLib_dry opts exec compilers szProjName incs f st hnb
    obtain ⟨gc, g1, g2, g3⟩ :=
      ih ((flyMakeBuildLib opts exec compilers szProjName incs f st).st)
    simp only [flyMakeBuildLibs]
    split
    · split
      · exact ⟨hc, h1, h2, h3⟩
      · exact ⟨by simp [hc, gc], g1.trans h1, g2.trans h2, g3.trans h3⟩
    · exact ih st

/-- Dry-run frame for the program/tool loop. -/
theorem fmkDepProgsLoop_dry (opts : FlyMakeOpts) (exec : Cmd → Int)
    (compilers : List FlyMakeCompiler) (szProjName incs libs : Str)
    (folders : List FmkFolder) (st : BSt) (hnb : opts.fNoBuild = true) :
    (fmkDepProgsLoop opts exec compilers szProjName incs libs folders st).cmds = [] ∧
    DryFrame st (fmkDepProgsLoop opts exec compilers szProjName incs libs folders st).st := by
  induction folders generalizing st with
  | nil => exact ⟨rfl, rfl, rfl, rfl⟩
  | cons f rest ih =>
    simp only [fmkDepProgsLoop]
    split
    · obtain ⟨hc, h1, h2, h3⟩ :=
        flyMakeBuildSrc_dry opts exec compilers szProjName incs libs f st hnb
      obtain ⟨gc, g1, g2, g3⟩ :=
        ih ((flyMakeBuildSrc opts exec compilers szProjName incs libs f st).st)
      split
      · exact ⟨hc, h1, h2, h3⟩
      · exact ⟨by simp [hc, gc], g1.trans h1, g2.trans h2, g3.trans h3⟩
    · obtain ⟨hc, h1, h2, h3⟩ :=
        flyMakeBuildTools_dry opts exec compilers incs libs f st hnb
      obtain ⟨gc, g1, g2, g3⟩ :=
        ih ((flyMakeBuildTools opts exec compilers incs libs f st).st)
      split
      · exact ⟨hc, h1, h2, h3⟩
      · exact ⟨by simp [hc, gc], g1.trans h1, g2.trans h2, g3.trans h3⟩
    · exact ih st

/-- Dry-run frame for `FmkDepBuildProject`. -/
theorem fmkDepBuildProject_dry (opts : FlyMakeOpts) (exec : Cmd → Int)
    (compilers : List FlyMakeCompiler) (p : FmkProject) (st : BSt)
    (hnb : opts.fNoBuild = true) :
    (fmkDepBuildProject opts exec compilers p st).cmds = [] ∧
    DryFrame st (fmkDepBuildProject opts exec compilers p st).st := by
  obtain ⟨hc, h1, h2, h3⟩ :=
    flyMakeBuildLibs_dry opts exec compilers p.szProjName p.incs p.folders st hnb
  obtain ⟨gc, g1, g2, g3⟩ := fmkDepProgsLoop_dry opts exec compilers p.szProjName
    p.incs p.libs p.folders
    ((flyMakeBuildLibs opts exec compilers p.szProjName p.incs p.folders st).st) hnb
  simp only [fmkDepBuildProject]
  split
  · exact ⟨hc, h1, h2, h3⟩
  · exact ⟨by simp [hc, gc], g1.trans h1, g2.trans h2, g3.trans h3⟩

/-- Dry-run frame for the dependency loop. -/
theorem flyMakeDepListBuildRun_dry (opts : FlyMakeOpts) (exec : Cmd → Int)
    (compilers : List FlyMakeCompiler) (deps : List FmkDepProj) (st : BSt)
    (hnb : opts.fNoBuild = true) :
    (flyMakeDepListBuildRun opts exec compilers deps st).cmds = [] ∧
    DryFrame st (flyMakeDepListBuildRun opts exec compilers deps st).st := by
  induction deps generalizing st with
  | nil => exact ⟨rfl, rfl, rfl, rfl⟩
  | cons d rest ih =>
    simp only [flyMakeDepListBuildRun]
    split
    · exact ih st
    · rename_i p hp
      obtain ⟨hc, h1, h2, h3⟩ := flyMakeBuildLibs_dry { opts with fRebuild := opts.fAll }
        exec compilers p.szProjName p.incs p.folders ⟨st.fs, st.clk, st.dirs, 0, 0, false⟩ hnb
      split
      · exact ⟨hc, h1, h2, h3⟩
      · obtain ⟨gc, g1, g2, g3⟩ := ih _
        exact ⟨by simp [hc, gc], g1.trans h1, g2.trans h2, g3.trans h3⟩

/-- Dry-run frame for the two build phases composed, any options and start
state. -/
theorem flyMakeBuildPhases_dry (opts : FlyMakeOpts) (exec : Cmd → Int)
    (compilers : List FlyMakeCompiler) (root : FmkProject)
    (deps : List FmkDepProj) (st0 : BSt) (hnb : opts.fNoBuild = true) :
    (if ¬ (flyMakeDepListBuildRun opts exec compilers deps st0).ok = true
       then (flyMakeDepListBuildRun opts exec compilers deps st0).cmds
       else (flyMakeDepListBuildRun opts exec compilers deps st0).cmds ++
         (fmkDepBuildProject opts exec compilers root
           (flyMakeDepListBuildRun opts exec compilers deps st0).st).cmds) = [] ∧
    DryFrame st0
      (if ¬ (flyMakeDepListBuildRun opts exec compilers deps st0).ok = true
        then (flyMakeDepListBuildRun opts exec compilers deps st0).st
        else (fmkDepBuildProject opts exec compilers root
          (flyMakeDepListBuildRun opts exec compilers deps st0).st).st) := by
  obtain ⟨hd, hdf⟩ := flyMakeDepListBuildRun_dry opts exec compilers deps st0 hnb
  obtain ⟨hp, hpf⟩ := fmkDepBuildProject_dry opts exec compilers root
    (flyMakeDepListBuildRun opts exec compilers deps st0).st hnb
  by_cases hok : (flyMakeDepListBuildRun opts exec compilers deps st0).ok = true
  · have hcond : ¬ ¬ (flyMakeDepListBuildRun opts exec compilers deps st0).ok = true := by
      simp [hok]
    rw [if_neg hcond, if_neg hcond]
    exact ⟨by simp [hd, hp], dryFrame_trans hdf hpf⟩
  · rw [if_pos hok, if_pos hok]
    exact ⟨hd, hdf⟩

/-- Dry-run frame for a whole `build` command: no command is handed to
`system()`, the filesystem and directory set are untouched. -/
theorem flyMakeCmdBuild_dry (opts : FlyMakeOpts) (exec : Cmd → Int)
    (compilers : List FlyMakeCompiler) (root : FmkProject)
    (deps : List FmkDepProj) (fs : Fs) (dirs : List Str)
    (hnb : opts.fNoBuild = true) :
    (flyMakeCmdBuild opts exec compilers root deps fs dirs).cmds = [] ∧
    (flyMakeCmdBuild opts exec compilers root deps fs dirs).st.fs = fs ∧
    (flyMakeCmdBuild opts exec compilers root deps fs dirs).st.dirs = dirs := by
  have hnb2 : (if opts.fAll = true then { opts with fRebuild := true } else opts).fNoBuild
      = true := by
    split <;> exact hnb
  obtain ⟨hc, hf⟩ := flyMakeBuildPhases_dry
    (if opts.fAll = true then { opts with fRebuild := true } else opts)
    exec compilers root deps ⟨fs, fsMax fs + 1, dirs, 0, 0, false⟩ hnb2
  refine ⟨?_, ?_, ?_⟩
  · simp only [flyMakeCmdBuild, apply_ite RunR.cmds]
    exact hc
  · have h := hf.1
    simp only [apply_ite BSt.fs] at h
    simp only [flyMakeCmdBuild, apply_ite RunR.st, apply_ite BSt.fs]
    exact h
  · have h := hf.2.2
    simp only [apply_ite BSt.dirs] at h
    simp only [flyMakeCmdBuild, apply_ite RunR.st, apply_ite BSt.dirs]
    exact h

/-- C10: under the dry-run option `-n` (`fNoBuild`), `FlyMakeSystem` prints
the command when verbose enough and returns 0 without invoking the child, and
`FlyMakeFolderCreate` reports success creating no directory; consequently a
whole `build` dry run — whatever the child would have returned — hands no
compile, archive or link command to `system()` and modifies neither the
filesystem nor the directory set. -/
theorem flyMake_dry_run_frame (v : Nat) (opts : FlyMakeOpts) (exec : Cmd → Int)
    (c : Cmd) (szFolder : Str) (st : BSt) (compilers : List FlyMakeCompiler)
    (root : FmkProject) (deps : List FmkDepProj) (fs : Fs) (dirs : List Str)
    (hnb : opts.fNoBuild = true) :
    flyMakeSystem v opts exec c st =
      ⟨0, st, [], if opts.verbose ≥ v then [c] else []⟩ ∧
    flyMakeFolderCreate opts szFolder st = (true, st) ∧
    (flyMakeCmdBuild opts exec compilers root deps fs dirs).cmds = [] ∧
    (flyMakeCmdBuild opts exec compilers root deps fs dirs).st.fs = fs ∧
    (flyMakeCmdBuild opts exec compilers root deps fs dirs).st.dirs = dirs :=
  ⟨flyMakeSystem_dry v opts exec c st hnb,
   flyMakeFolderCreate_dry opts szFolder st hnb,
   flyMakeCmdBuild_dry opts exec compilers root deps fs dirs hnb⟩

/-- Witness for C10: a concrete dry run over a one-library project whose
child process would fail (exit 1); no command is issued and the filesystem
and directory set come back unchanged. -/
theorem flyMake_dry_run_frame_witness :
    ({ fNoBuild := true } : FlyMakeOpts).fNoBuild = true ∧
    ((flyMakeCmdBuild { fNoBuild := true } (fun _ => 1) flyMakeCompilerListDefault
        ⟨cs "hello", [⟨cs "lib/", FmkRule.lib, [cs "lib/a.c"]⟩], cs ". ", cs " "⟩
        [] [(cs "lib/a.c", 5)] []).cmds = [] ∧
     (flyMakeCmdBuild { fNoBuild := true } (fun _ => 1) flyMakeCompilerListDefault
        ⟨cs "hello", [⟨cs "lib/", FmkRule.lib, [cs "lib/a.c"]⟩], cs ". ", cs " "⟩
        [] [(cs "lib/a.c", 5)] []).st.fs = [(cs "lib/a.c", 5)] ∧
     (flyMakeCmdBuild { fNoBuild := true } (fun _ => 1) flyMakeCompilerListDefault
        ⟨cs "hello", [⟨cs "lib/", FmkRule.lib, [cs "lib/a.c"]⟩], cs ". ", cs " "⟩
        [] [(cs "lib/a.c", 5)] []).st.dirs = []) := by
  have h := flyMake_dry_run_frame 1 { fNoBuild := true } (fun _ => 1)
    ⟨CmdKind.compile, cs "s", cs "o", cs "t"⟩ (cs "out/")
    ⟨[], 0, [], 0, 0, false⟩ flyMakeCompilerListDefault
    ⟨cs "hello", [⟨cs "lib/", FmkRule.lib, [cs "lib/a.c"]⟩], cs ". ", cs " "⟩
    [] [(cs "lib/a.c", 5)] [] rfl
  exact ⟨rfl, h.2.2⟩

/-- All source files the build can touch: every folder's list, in the root
project and in every dependency's project. -/
def allSrcPaths (root : FmkProject) (deps : List FmkDepProj) : List Str :=
  root.folders.flatMap (fun f => f.files) ++
  deps.flatMap (fun d => match d.sub with
    | none => []
    | some p => p.folders.flatMap (fun f => f.files))

/-- Every path a folder's build can write: the object of each source file,
plus the archive, the program or the tool executables, by rule. -/
def folderWritePaths (pn : Str) (f : FmkFolder) : List Str :=
  f.files.map (fmkGetOutName (f.path ++ cs "out/")) ++
  (match f.rule with
   | FmkRule.lib => [flyMakeFolderAllocLibName pn f.path]
   | FmkRule.src => [flyMakeFolderAllocSrcName pn f.path]
   | FmkRule.tool =>
     (flyMakeToolListNew (f.files.map (fun s => (s, false)))).map fmkToolOutName
   | FmkRule.proj => [])

/-- Every path a project's build can write. -/
def projWritePaths (p : FmkProject) : List Str :=
  p.folders.flatMap (folderWritePaths p.szProjName)

/-- Every path a whole build (dependencies plus root project) can write. -/
def allWritePaths (root : FmkProject) (deps : List FmkDepProj) : List Str :=
  projWritePaths root ++ deps.flatMap (fun d => match d.sub with
    | none => []
    | some p => projWritePaths p)

/-- No build output path collides with a source file path (the realistic
layout: objects under out/, archives and executables without source
extensions). -/
def SrcOutDisjoint (root : FmkProject) (deps : List FmkDepProj) : Prop :=
  ∀ w ∈ allWritePaths root deps, ∀ s ∈ allSrcPaths root deps, w ≠ s

instance (root : FmkProject) (deps : List FmkDepProj) :
    Decidable (SrcOutDisjoint root deps) := by
  unfold SrcOutDisjoint
  infer_instance

/-- Every recorded modification time lies below the clock. -/
def ClkInv (st : BSt) : Prop := ∀ p t, fsGet st.fs p = some t → t < st.clk

/-- How a build step evolves the state: the clock is monotone, paths outside
the write set `W` are untouched, and (when every time is below the clock)
existing entries persist with nondecreasing times and the clock invariant is
kept. -/
def EvW (W : List Str) (st st' : BSt) : Prop :=
  st.clk ≤ st'.clk ∧
  (∀ p, p ∉ W → fsGet st'.fs p = fsGet st.fs p) ∧
  (ClkInv st → ClkInv st' ∧
    ∀ p t, fsGet st.fs p = some t → ∃ t', fsGet st'.fs p = some t' ∧ t ≤ t')

theorem evW_refl (W : List Str) (st : BSt) : EvW W st st :=
  ⟨Nat.le_refl _, fun _ _ => rfl, fun h => ⟨h, fun p t ht => ⟨t, ht, Nat.le_refl _⟩⟩⟩

theorem evW_of_eq {W : List Str} {st st' : BSt} (hfs : st'.fs = st.fs)
    (hclk : st'.clk = st.clk) : EvW W st st' := by
  refine ⟨hclk.ge, fun p _ => by rw [hfs], fun h => ⟨?_, fun p t ht => ⟨t, by rw [hfs]; exact ht, Nat.le_refl _⟩⟩⟩
  intro p t ht
  rw [hfs] at ht
  rw [hclk]
  exact h p t ht

theorem evW_trans {W : List Str} {a b c : BSt} (h1 : EvW W a b) (h2 : EvW W b c) :
    EvW W a c := by
  refine ⟨h1.1.trans h2.1, fun p hp => (h2.2.1 p hp).trans (h1.2.1 p hp), ?_⟩
  intro hclk
  obtain ⟨hclkb, hkeep1⟩ := h1.2.2 hclk
  obtain ⟨hclkc, hkeep2⟩ := h2.2.2 hclkb
  refine ⟨hclkc, fun p t ht => ?_⟩
  obtain ⟨t1, ht1, hle1⟩ := hkeep1 p t ht
  obtain ⟨t2, ht2, hle2⟩ := hkeep2 p t1 ht1
  exact ⟨t2, ht2, hle1.trans hle2⟩

theorem evW_mono {W W' : List Str} {a b : BSt} (hsub : ∀ p ∈ W, p ∈ W')
    (h : EvW W a b) : EvW W' a b :=
  ⟨h.1, fun p hp => h.2.1 p (fun hmem => hp (hsub p hmem)), h.2.2⟩

theorem evW_pre {W : List Str} {a b c : BSt} (h : EvW W b c)
    (hfs : b.fs = a.fs) (hclk : b.clk = a.clk) : EvW W a c :=
  evW_trans (evW_of_eq hfs hclk) h

theorem evW_congr {W : List Str} {a b c : BSt} (h : EvW W a b)
    (hfs : c.fs = b.fs) (hclk : c.clk = b.clk) : EvW W a c :=
  evW_trans h (evW_of_eq hfs hclk)

theorem fsGet_set_self (fs : Fs) (p : Str) (t : Nat) :
    fsGet (fsSet fs p t) p = some t := by
  simp [fsSet, fsGet]

theorem fsGet_set_ne (fs : Fs) (p q : Str) (t : Nat) (h : p ≠ q) :
    fsGet (fsSet fs p t) q = fsGet fs q := by
  simp [fsSet, fsGet, h]

theorem fsGet_le_fsMax (fs : Fs) (p : Str) (t : Nat)
    (h : fsGet fs p = some t) : t ≤ fsMax fs := by
  induction fs with
  | nil => simp [fsGet] at h
  | cons e rest ih =>
    obtain ⟨q, u⟩ := e
    simp only [fsGet] at h
    by_cases hpq : q = p
    · simp only [hpq, if_pos rfl] at h
      cases h
      simp [fsMax, Nat.le_max_left]
    · rw [if_neg hpq] at h
      exact (ih h).trans (by simp [fsMax, Nat.le_max_right])

theorem clkInv_init (fs : Fs) (dirs : List Str) (a b : Nat) (c : Bool) :
    ClkInv ⟨fs, fsMax fs + 1, dirs, a, b, c⟩ := by
  intro p t ht
  exact Nat.lt_succ_of_le (fsGet_le_fsMax fs p t ht)

/-- `FlyMakeFolderCreate` touches only the directory set. -/
theorem flyMakeFolderCreate_frame (opts : FlyMakeOpts) (szFolder : Str) (st : BSt) :
    (flyMakeFolderCreate opts szFolder st).2.fs = st.fs ∧
    (flyMakeFolderCreate opts szFolder st).2.clk = st.clk ∧
    (flyMakeFolderCreate opts szFolder st).2.nCompiled = st.nCompiled ∧
    (flyMakeFolderCreate opts szFolder st).2.nSrcFiles = st.nSrcFiles ∧
    (flyMakeFolderCreate opts szFolder st).2.fLibCompiled = st.fLibCompiled := by
  simp only [flyMakeFolderCreate]
  repeat' split
  all_goals exact ⟨rfl, rfl, rfl, rfl, rfl⟩

/-- A source file is ready when its compiler rule resolves and its object
exists at least as new as the source. -/
def FileReady (compilers : List FlyMakeCompiler) (fs1 : Fs) (szOutFolder f : Str) : Prop :=
  (flyMakeCompilerFind compilers (flyStrPathExt f)).isSome ∧
  ∃ ts tob, fsGet fs1 f = some ts ∧
    fsGet fs1 (fmkGetOutName szOutFolder f) = some tob ∧ ts ≤ tob

/-- A folder is ready when all its files are ready and its rule's link
artifact exists (for src folders: when there are sources with a recognized
extension; proj folders carry no artifact). -/
def FolderReady (compilers : List FlyMakeCompiler) (pn : Str) (fs1 : Fs)
    (f : FmkFolder) : Prop :=
  (∀ s ∈ f.files, FileReady compilers fs1 (f.path ++ cs "out/") s) ∧
  (match f.rule with
   | FmkRule.lib => (fsGet fs1 (flyMakeFolderAllocLibName pn f.path)).isSome = true
   | FmkRule.src => ∀ g ∈ f.files.head?.toList, flyStrPathExt g ≠ [] →
       (fsGet fs1 (flyMakeFolderAllocSrcName pn f.path)).isSome = true
   | FmkRule.tool => ∀ t ∈ flyMakeToolListNew (f.files.map (fun s => (s, false))),
       (fsGet fs1 (fmkToolOutName t)).isSome = true
   | FmkRule.proj => True)

/-- Readiness survives a step that avoids the folder's sources: sources are
frozen, outputs persist with nondecreasing times. -/
theorem fileReady_mono {compilers : List FlyMakeCompiler} {W : List Str}
    {st st' : BSt} {out f : Str} (hEv : EvW W st st') (hclk : ClkInv st)
    (h : FileReady compilers st.fs out f) (hf : f ∉ W) :
    FileReady compilers st'.fs out f := by
  obtain ⟨hfind, ts, tob, hs, ho, hle⟩ := h
  obtain ⟨hclk', hkeep⟩ := hEv.2.2 hclk
  obtain ⟨tob', ho', hle'⟩ := hkeep _ _ ho
  exact ⟨hfind, ts, tob', by rw [hEv.2.1 f hf]; exact hs, ho', hle.trans hle'⟩

theorem isSome_keep {st st' : BSt} {W : List Str} (hEv : EvW W st st')
    (hclk : ClkInv st) {p : Str} (h : (fsGet st.fs p).isSome = true) :
    (fsGet st'.fs p).isSome = true := by
  obtain ⟨t, ht⟩ := Option.isSome_iff_exists.mp h
  obtain ⟨t', ht', _⟩ := (hEv.2.2 hclk).2 p t ht
  exact Option.isSome_iff_exists.mpr ⟨t', ht'⟩

theorem folderReady_mono {compilers : List FlyMakeCompiler} {W : List Str}
    {pn : Str} {st st' : BSt} {f : FmkFolder} (hEv : EvW W st st')
    (hclk : ClkInv st) (h : FolderReady compilers pn st.fs f)
    (hf : ∀ s ∈ f.files, s ∉ W) :
    FolderReady compilers pn st'.fs f := by
  refine ⟨fun s hs => fileReady_mono hEv hclk (h.1 s hs) (hf s hs), ?_⟩
  have h2 := h.2
  cases hr : f.rule
  · rw [hr] at h2; exact isSome_keep hEv hclk h2
  · rw [hr] at h2; exact fun g hg he => isSome_keep hEv hclk (h2 g hg he)
  · rw [hr] at h2; exact fun t ht => isSome_keep hEv hclk (h2 t ht)
  · trivial

/-- `FlyMakeSystem` writes at most the command's output path. -/
theorem flyMakeSystem_evW (v : Nat) (opts : FlyMakeOpts) (exec : Cmd → Int)
    (c : Cmd) (st : BSt) : EvW [c.outPath] st (flyMakeSystem v opts exec c st).st := by
  simp only [flyMakeSystem]
  split
  · exact evW_refl _ _
  · split
    · exact evW_refl _ _
    · refine ⟨Nat.le_succ _, ?_, ?_⟩
      · intro p hp
        exact fsGet_set_ne st.fs c.outPath p st.clk (Ne.symm (by simpa using hp))
      · intro hclk
        constructor
        · intro p t ht
          by_cases hpc : c.outPath = p
          · subst hpc
            rw [fsGet_set_self] at ht
            cases ht
            exact Nat.lt_succ_self _
          · rw [fsGet_set_ne _ _ _ _ hpc] at ht
            exact (hclk p t ht).trans (Nat.lt_succ_self _)
        · intro p t ht
          by_cases hpc : c.outPath = p
          · subst hpc
            exact ⟨st.clk, fsGet_set_self _ _ _, Nat.le_of_lt (hclk _ _ ht)⟩
          · exact ⟨t, by rw [fsGet_set_ne _ _ _ _ hpc]; exact ht, Nat.le_refl _⟩

/-- `FmkCompileFile` writes at most the object file. -/
theorem fmkCompileFile_evW (opts : FlyMakeOpts) (exec : Cmd → Int)
    (compilers : List FlyMakeCompiler) (incs provFolder szOutFolder f : Str)
    (st : BSt) :
    EvW [fmkGetOutName szOutFolder f] st
      (fmkCompileFile opts exec compilers incs provFolder szOutFolder f st).st := by
  simp only [fmkCompileFile]
  repeat' split
  all_goals
    first
      | exact evW_of_eq rfl rfl
      | exact evW_pre (flyMakeSystem_evW 1 opts exec _ _) rfl rfl
      | exact evW_congr (evW_pre (flyMakeSystem_evW 1 opts exec _ _) rfl rfl) rfl rfl

/-- The folder compile loop writes at most the objects of its files. -/
theorem fmkCompileFilesLoop_evW (opts : FlyMakeOpts) (exec : Cmd → Int)
    (compilers : List FlyMakeCompiler) (incs provFolder szOutFolder : Str)
    (files : List Str) (st : BSt) :
    EvW (files.map (fmkGetOutName szOutFolder)) st
      (fmkCompileFilesLoop opts exec compilers incs provFolder szOutFolder files st).2.1 := by
  induction files generalizing st with
  | nil => exact evW_refl _ _
  | cons f rest ih =>
    simp only [fmkCompileFilesLoop]
    refine evW_trans (evW_mono ?_
        (fmkCompileFile_evW opts exec compilers incs provFolder szOutFolder f st))
      (evW_mono ?_ (ih _))
    · intro p hp
      simp only [List.mem_singleton] at hp
      simp [hp]
    · intro p hp
      simp only [List.map_cons, List.mem_cons]
      exact Or.inr hp

/-- `FmkCompileFolder` writes at most the objects of its files. -/
theorem fmkCompileFolder_evW (opts : FlyMakeOpts) (exec : Cmd → Int)
    (compilers : List FlyMakeCompiler) (incs : Str) (folder : FmkFolder)
    (st : BSt) :
    EvW (folder.files.map (fmkGetOutName (folder.path ++ cs "out/"))) st
      (fmkCompileFolder opts exec compilers incs folder st).st := by
  simp only [fmkCompileFolder]
  split
  · exact evW_refl _ _
  · rename_i f rest heq
    rw [heq]
    have hcr := flyMakeFolderCreate_frame opts (folder.path ++ cs "out/") st
    exact evW_trans (evW_of_eq hcr.1 hcr.2.1)
      (fmkCompileFilesLoop_evW opts exec compilers incs folder.path _ _ _)

/-- `FlyMakeBuildLib` writes at most the folder's objects and archive. -/
theorem flyMakeBuildLib_evW (opts : FlyMakeOpts) (exec : Cmd → Int)
    (compilers : List FlyMakeCompiler) (szProjName incs : Str)
    (folder : FmkFolder) (st : BSt) (hr : folder.rule = FmkRule.lib) :
    EvW (folderWritePaths szProjName folder) st
      (flyMakeBuildLib opts exec compilers szProjName incs folder st).st := by
  have hobjs : ∀ p ∈ folder.files.map (fmkGetOutName (folder.path ++ cs "out/")),
      p ∈ folderWritePaths szProjName folder := by
    intro p hp
    exact List.mem_append_left _ hp
  have hlib : flyMakeFolderAllocLibName szProjName folder.path ∈
      folderWritePaths szProjName folder := by
    apply List.mem_append_right
    rw [hr]
    simp
  have hsub : ∀ p ∈ ([flyMakeFolderAllocLibName szProjName folder.path] : List Str),
      p ∈ folderWritePaths szProjName folder := by
    intro p hp
    simp only [List.mem_singleton] at hp
    rw [hp]
    exact hlib
  simp only [flyMakeBuildLib]
  repeat' split
  all_goals
    first
      | exact evW_mono hobjs (fmkCompileFolder_evW opts exec compilers incs folder st)
      | exact evW_trans
          (evW_mono hobjs (fmkCompileFolder_evW opts exec compilers incs folder st))
          (evW_pre (evW_mono hsub (flyMakeSystem_evW 1 opts exec _ _)) rfl rfl)
      | exact evW_trans
          (evW_mono hobjs (fmkCompileFolder_evW opts exec compilers incs folder st))
          (evW_congr (evW_pre (evW_mono hsub (flyMakeSystem_evW 1 opts exec _ _))
            rfl rfl) rfl rfl)

/-- `FlyMakeBuildSrc` writes at most the folder's objects and program. -/
theorem flyMakeBuildSrc_evW (opts : FlyMakeOpts) (exec : Cmd → Int)
    (compilers : List FlyMakeCompiler) (szProjName incs libs : Str)
    (folder : FmkFolder) (st : BSt) (hr : folder.rule = FmkRule.src) :
    EvW (folderWritePaths szProjName folder) st
      (flyMakeBuildSrc opts exec compilers szProjName incs libs folder st).st := by
  have hobjs : ∀ p ∈ folder.files.map (fmkGetOutName (folder.path ++ cs "out/")),
      p ∈ folderWritePaths szProjName folder := by
    intro p hp
    exact List.mem_append_left _ hp
  have htgt : flyMakeFolderAllocSrcName szProjName folder.path ∈
      folderWritePaths szProjName folder := by
    apply List.mem_append_right
    rw [hr]
    simp
  have hsub : ∀ p ∈ ([flyMakeFolderAllocSrcName szProjName folder.path] : List Str),
      p ∈ folderWritePaths szProjName folder := by
    intro p hp
    simp only [List.mem_singleton] at hp
    rw [hp]
    exact htgt
  simp only [flyMakeBuildSrc]
  repeat' split
  all_goals
    first
      | exact evW_mono hobjs (fmkCompileFolder_evW opts exec compilers incs folder st)
      | exact evW_congr
          (evW_mono hobjs (fmkCompileFolder_evW opts exec compilers incs folder st))
          rfl rfl
      | exact evW_trans
          (evW_mono hobjs (fmkCompileFolder_evW opts exec compilers incs folder st))
          (evW_pre (evW_mono hsub (flyMakeSystem_evW 1 opts exec _ _)) rfl rfl)
      | exact evW_trans
          (evW_mono hobjs (fmkCompileFolder_evW opts exec compilers incs folder st))
          (evW_congr (evW_pre (evW_mono hsub (flyMakeSystem_evW 1 opts exec _ _))
            rfl rfl) rfl rfl)

/-- The tool compile loop writes at most the objects of the tool's files. -/
theorem fmkToolFilesLoop_evW (opts : FlyMakeOpts) (exec : Cmd → Int)
    (compilers : List FlyMakeCompiler) (incs provFolder szOutFolder : Str)
    (files : List Str) (st : BSt) :
    EvW (files.map (fmkGetOutName szOutFolder)) st
      (fmkToolFilesLoop opts exec compilers incs provFolder szOutFolder files st).2.1 := by
  induction files generalizing st with
  | nil => exact evW_refl _ _
  | cons f rest ih =>
    simp only [fmkToolFilesLoop]
    split
    · refine evW_mono ?_
        (fmkCompileFile_evW opts exec compilers incs provFolder szOutFolder f st)
      intro p hp
      simp only [List.mem_singleton] at hp
      simp [hp]
    · refine evW_trans (evW_mono ?_
          (fmkCompileFile_evW opts exec compilers incs provFolder szOutFolder f st))
        (evW_mono ?_ (ih _))
      · intro p hp
        simp only [List.mem_singleton] at hp
        simp [hp]
      · intro p hp
        simp only [List.map_cons, List.mem_cons]
        exact Or.inr hp

/-- `FmkToolCompile` writes at most the tool's objects and executable. -/
theorem fmkToolCompile_evW (opts : FlyMakeOpts) (exec : Cmd → Int)
    (compilers : List FlyMakeCompiler) (incs libs provFolder szOutFolder : Str)
    (pTool : FmkTool) (st : BSt) :
    EvW (pTool.aszSrcFiles.map (fmkGetOutName szOutFolder) ++ [fmkToolOutName pTool]) st
      (fmkToolCompile opts exec compilers incs libs provFolder szOutFolder pTool st).st := by
  have hobjs : ∀ p ∈ pTool.aszSrcFiles.map (fmkGetOutName szOutFolder),
      p ∈ pTool.aszSrcFiles.map (fmkGetOutName szOutFolder) ++ [fmkToolOutName pTool] :=
    fun p hp => List.mem_append_left _ hp
  have hsub : ∀ p ∈ ([fmkToolOutName pTool] : List Str),
      p ∈ pTool.aszSrcFiles.map (fmkGetOutName szOutFolder) ++ [fmkToolOutName pTool] := by
    intro p hp
    simp only [List.mem_singleton] at hp
    rw [hp]
    exact List.mem_append_right _ (by simp)
  simp only [fmkToolCompile]
  repeat' split
  all_goals
    first
      | exact evW_mono hobjs
          (fmkToolFilesLoop_evW opts exec compilers incs provFolder szOutFolder _ st)
      | exact evW_congr (evW_mono hobjs
          (fmkToolFilesLoop_evW opts exec compilers incs provFolder szOutFolder _ st))
          rfl rfl
      | exact evW_trans (evW_mono hobjs
            (fmkToolFilesLoop_evW opts exec compilers incs provFolder szOutFolder _ st))
          (evW_pre (evW_mono hsub (flyMakeSystem_evW 1 opts exec _ _)) rfl rfl)
      | exact evW_trans (evW_mono hobjs
            (fmkToolFilesLoop_evW opts exec compilers incs provFolder szOutFolder _ st))
          (evW_congr (evW_pre (evW_mono hsub (flyMakeSystem_evW 1 opts exec _ _))
            rfl rfl) rfl rfl)

/-- Each tool's claimed files come from the folder's file list. -/
theorem toolFiles_sub (files : List Str) :
    ∀ t ∈ flyMakeToolListNew (files.map (fun s => (s, false))),
      ∀ s ∈ t.aszSrcFiles, s ∈ files := by
  intro t ht s hs
  have hperm := flyMakeToolListNew_flatten_perm (files.map (fun s => (s, false)))
  rw [unusedOf_fresh] at hperm
  exact hperm.mem_iff.mp
    (List.mem_flatten.mpr ⟨t.aszSrcFiles, List.mem_map.mpr ⟨t, ht, rfl⟩, hs⟩)

/-- The tool loop writes within `W` when every tool's objects and executable
lie in `W`. -/
theorem fmkToolsLoop_evW (opts : FlyMakeOpts) (exec : Cmd → Int)
    (compilers : List FlyMakeCompiler) (incs libs provFolder szOutFolder : Str)
    (tools : List FmkTool) (st : BSt) (W : List Str)
    (hW : ∀ t ∈ tools, ∀ p ∈ t.aszSrcFiles.map (fmkGetOutName szOutFolder) ++
      [fmkToolOutName t], p ∈ W) :
    EvW W st (fmkToolsLoop opts exec compilers incs libs provFolder szOutFolder tools st).st := by
  induction tools generalizing st with
  | nil => exact evW_refl _ _
  | cons t rest ih =>
    have h1 := evW_mono (hW t (List.mem_cons_self t rest))
      (fmkToolCompile_evW opts exec compilers incs libs provFolder szOutFolder t st)
    simp only [fmkToolsLoop]
    split
    · exact h1
    · exact evW_trans h1 (ih _ (fun u hu => hW u (List.mem_cons_of_mem t hu)))

/-- `FlyMakeBuildTools` writes at most the folder's write paths. -/
theorem flyMakeBuildTools_evW (opts : FlyMakeOpts) (exec : Cmd → Int)
    (compilers : List FlyMakeCompiler) (szProjName incs libs : Str)
    (folder : FmkFolder) (st : BSt) (hr : folder.rule = FmkRule.tool) :
    EvW (folderWritePaths szProjName folder) st
      (flyMakeBuildTools opts exec compilers incs libs folder st).st := by
  simp only [flyMakeBuildTools]
  split
  · exact evW_refl _ _
  · rename_i t ts heq
    have hcr := flyMakeFolderCreate_frame opts (folder.path ++ cs "out/") st
    refine evW_pre (fmkToolsLoop_evW opts exec compilers incs libs folder.path
      (folder.path ++ cs "out/") (t :: ts) _ _ ?_) hcr.1 hcr.2.1
    rw [← heq]
    intro u hu p hp
    rcases List.mem_append.mp hp with hobj | hout
    · obtain ⟨s, hs, rfl⟩ := List.mem_map.mp hobj
      exact List.mem_append_left _
        (List.mem_map.mpr ⟨s, toolFiles_sub folder.files u hu s hs, rfl⟩)
    · apply List.mem_append_right
      rw [hr]
      simp only [List.mem_singleton] at hout
      rw [hout]
      exact List.mem_map.mpr ⟨u, hu, rfl⟩

/-- `FlyMakeBuildLibs` writes within `W` when every library folder's write
paths lie in `W`. -/
theorem flyMakeBuildLibs_evW (opts : FlyMakeOpts) (exec : Cmd → Int)
    (compilers : List FlyMakeCompiler) (szProjName incs : Str)
    (folders : List FmkFolder) (st : BSt) (W : List Str)
    (hW : ∀ f ∈ folders, f.rule = FmkRule.lib →
      ∀ p ∈ folderWritePaths szProjName f, p ∈ W) :
    EvW W st (flyMakeBuildLibs opts exec compilers szProjName incs folders st).st := by
  induction folders generalizing st with
  | nil => exact evW_refl _ _
  | cons f rest ih =>
    simp only [flyMakeBuildLibs]
    split
    · rename_i hrule
      have h1 := evW_mono (hW f (List.mem_cons_self f rest) hrule)
        (flyMakeBuildLib_evW opts exec compilers szProjName incs f st hrule)
      split
      · exact h1
      · exact evW_trans h1 (ih _ (fun g hg hgr => hW g (List.mem_cons_of_mem f hg) hgr))
    · exact ih _ (fun g hg hgr => hW g (List.mem_cons_of_mem f hg) hgr)

/-- The program/tool loop writes within `W` when every src/tool folder's
write paths lie in `W`. -/
theorem fmkDepProgsLoop_evW (opts : FlyMakeOpts) (exec : Cmd → Int)
    (compilers : List FlyMakeCompiler) (szProjName incs libs : Str)
    (folders : List FmkFolder) (st : BSt) (W : List Str)
    (hW : ∀ f ∈ folders, (f.rule = FmkRule.src ∨ f.rule = FmkRule.tool) →
      ∀ p ∈ folderWritePaths szProjName f, p ∈ W) :
    EvW W st (fmkDepProgsLoop opts exec compilers szProjName incs libs folders st).st := by
  induction folders generalizing st with
  | nil => exact evW_refl _ _
  | cons f rest ih =>
    simp only [fmkDepProgsLoop]
    split
    · rename_i hrule
      have h1 := evW_mono (hW f (List.mem_cons_self f rest) (Or.inl hrule))
        (flyMakeBuildSrc_evW opts exec compilers szProjName incs libs f st hrule)
      split
      · exact h1
      · exact evW_trans h1 (ih _ (fun g hg hgr => hW g (List.mem_cons_of_mem f hg) hgr))
    · rename_i hrule
      have h1 := evW_mono (hW f (List.mem_cons_self f rest) (Or.inr hrule))
        (flyMakeBuildTools_evW opts exec compilers szProjName incs libs f st hrule)
      split
      · exact h1
      · exact evW_trans h1 (ih _ (fun g hg hgr => hW g (List.mem_cons_of_mem f hg) hgr))
    · exact ih _ (fun g hg hgr => hW g (List.mem_cons_of_mem f hg) hgr)

/-- `FmkDepBuildProject` writes at most the project's write paths. -/
theorem fmkDepBuildProject_evW (opts : FlyMakeOpts) (exec : Cmd → Int)
    (compilers : List FlyMakeCompiler) (p : FmkProject) (st : BSt) :
    EvW (projWritePaths p) st (fmkDepBuildProject opts exec compilers p st).st := by
  have hsubf : ∀ f ∈ p.folders, ∀ q ∈ folderWritePaths p.szProjName f,
      q ∈ projWritePaths p := by
    intro f hf q hq
    exact List.mem_flatMap.mpr ⟨f, hf, hq⟩
  have hlib := flyMakeBuildLibs_evW opts exec compilers p.szProjName p.incs
    p.folders st (projWritePaths p) (fun f hf _ => hsubf f hf)
  simp only [fmkDepBuildProject]
  split
  · exact hlib
  · exact evW_trans hlib (fmkDepProgsLoop_evW opts exec compilers p.szProjName
      p.incs p.libs p.folders _ (projWritePaths p) (fun f hf _ => hsubf f hf))

/-- The dependency loop writes within `W` when every dependency project's
library write paths lie in `W`. -/
theorem flyMakeDepListBuildRun_evW (opts : FlyMakeOpts) (exec : Cmd → Int)
    (compilers : List FlyMakeCompiler) (deps : List FmkDepProj) (st : BSt)
    (W : List Str)
    (hW : ∀ d ∈ deps, ∀ p, d.sub = some p → ∀ f ∈ p.folders,
      f.rule = FmkRule.lib → ∀ q ∈ folderWritePaths p.szProjName f, q ∈ W) :
    EvW W st (flyMakeDepListBuildRun opts exec compilers deps st).st := by
  induction deps generalizing st with
  | nil => exact evW_refl _ _
  | cons d rest ih =>
    simp only [flyMakeDepListBuildRun]
    split
    · exact ih _ (fun e he => hW e (List.mem_cons_of_mem d he))
    · rename_i p hp
      have h1 : EvW W st (flyMakeBuildLibs { opts with fRebuild := opts.fAll }
          exec compilers p.szProjName p.incs p.folders
          ⟨st.fs, st.clk, st.dirs, 0, 0, false⟩).st :=
        evW_pre (flyMakeBuildLibs_evW { opts with fRebuild := opts.fAll } exec
          compilers p.szProjName p.incs p.folders
          ⟨st.fs, st.clk, st.dirs, 0, 0, false⟩ W
          (hW d (List.mem_cons_self d rest) p hp)) rfl rfl
      split
      · exact evW_congr h1 rfl rfl
      · refine evW_trans ?_ (ih _ (fun e he => hW e (List.mem_cons_of_mem d he)))
        exact evW_congr h1 rfl rfl

theorem clkInv_of_eq {a b : BSt} (hfs : b.fs = a.fs) (hclk : b.clk = a.clk)
    (h : ClkInv a) : ClkInv b := by
  intro p t ht
  rw [hfs] at ht
  rw [hclk]
  exact h p t ht

/-- After a successful compile the object carries the current clock, above
the source's time. -/
theorem fileReady_after_write (compilers : List FlyMakeCompiler)
    (pc : FlyMakeCompiler) (szOutFolder f : Str) (st : BSt) (ts : Nat)
    (hfind : flyMakeCompilerFind compilers (flyStrPathExt f) = some pc)
    (hsrc : fsGet st.fs f = some ts) (hclk : ClkInv st)
    (hne : fmkGetOutName szOutFolder f ≠ f) :
    FileReady compilers (fsSet st.fs (fmkGetOutName szOutFolder f) st.clk)
      szOutFolder f := by
  refine ⟨by rw [hfind]; rfl, ts, st.clk, ?_, fsGet_set_self _ _ _,
    Nat.le_of_lt (hclk f ts hsrc)⟩
  rw [fsGet_set_ne _ _ _ _ hne]
  exact hsrc

/-- A handled file that `FmkCompileFile` reports success on (compiled or up
to date) is ready afterwards. -/
theorem fmkCompileFile_post (opts : FlyMakeOpts) (exec : Cmd → Int)
    (compilers : List FlyMakeCompiler) (incs provFolder szOutFolder f : Str)
    (st : BSt) (hnb : opts.fNoBuild = false) (hclk : ClkInv st)
    (hne : fmkGetOutName szOutFolder f ≠ f)
    (hret : 0 ≤ (fmkCompileFile opts exec compilers incs provFolder szOutFolder f st).ret) :
    FileReady compilers
      (fmkCompileFile opts exec compilers incs provFolder szOutFolder f st).st.fs
      szOutFolder f := by
  rcases hfind : flyMakeCompilerFind compilers (flyStrPathExt f) with _ | pc
  · simp [fmkCompileFile, hfind] at hret
  rcases hsrc : fsGet st.fs f with _ | ts
  · simp [fmkCompileFile, hfind, hsrc] at hret
  have hwrite : ∀ C : Cmd, C.outPath = fmkGetOutName szOutFolder f → exec C = 0 →
      FileReady compilers
        (fsSet st.fs (fmkGetOutName szOutFolder f) st.clk) szOutFolder f :=
    fun _ _ _ => fileReady_after_write compilers pc szOutFolder f st ts hfind hsrc hclk hne
  cases hrb : opts.fRebuild with
  | true =>
    by_cases hex : exec ⟨CmdKind.compile, provFolder, fmkGetOutName szOutFolder f,
        flyMakeCompilerFmtCompile pc f incs (if opts.fWarning = true then pc.szWarn else [])
          (if opts.dbg = 0 then [] else pc.szCcDbg) (fmkGetOutName szOutFolder f)⟩ = 0
    · simp only [fmkCompileFile, hfind, hsrc, hrb, if_true, flyMakeSystem, hnb]
      simp [hex]
      exact hwrite _ rfl hex
    · simp [fmkCompileFile, hfind, hsrc, hrb, flyMakeSystem, hnb, hex] at hret
  | false =>
    rcases hout : fsGet st.fs (fmkGetOutName szOutFolder f) with _ | ot
    · by_cases hex : exec ⟨CmdKind.compile, provFolder, fmkGetOutName szOutFolder f,
          flyMakeCompilerFmtCompile pc f incs (if opts.fWarning = true then pc.szWarn else [])
            (if opts.dbg = 0 then [] else pc.szCcDbg) (fmkGetOutName szOutFolder f)⟩ = 0
      · simp only [fmkCompileFile, hfind, hsrc, hrb, hout, flyMakeSystem, hnb]
        simp [hex]
        exact hwrite _ rfl hex
      · simp [fmkCompileFile, hfind, hsrc, hrb, hout, flyMakeSystem, hnb, hex] at hret
    · by_cases hlt : ot < ts
      · by_cases hex : exec ⟨CmdKind.compile, provFolder, fmkGetOutName szOutFolder f,
            flyMakeCompilerFmtCompile pc f incs (if opts.fWarning = true then pc.szWarn else [])
              (if opts.dbg = 0 then [] else pc.szCcDbg) (fmkGetOutName szOutFolder f)⟩ = 0
        · simp only [fmkCompileFile, hfind, hsrc, hrb, hout, flyMakeSystem, hnb]
          simp [hlt, hex]
          exact hwrite _ rfl hex
        · simp [fmkCompileFile, hfind, hsrc, hrb, hout, hlt, flyMakeSystem, hnb, hex] at hret
      · simp only [fmkCompileFile, hfind, hsrc, hrb, hout]
        simp [hlt]
        exact ⟨by rw [hfind]; rfl, ts, ot, hsrc, hout, Nat.le_of_not_lt hlt⟩

/-- Every file of a successful folder-compile loop is ready afterwards. -/
theorem fmkCompileFilesLoop_post (opts : FlyMakeOpts) (exec : Cmd → Int)
    (compilers : List FlyMakeCompiler) (incs provFolder szOutFolder : Str)
    (files : List Str) (st : BSt)
    (hnb : opts.fNoBuild = false) (hclk : ClkInv st)
    (hd : ∀ a ∈ files, ∀ b ∈ files, fmkGetOutName szOutFolder b ≠ a)
    (hok : (fmkCompileFilesLoop opts exec compilers incs provFolder szOutFolder files st).1 = true) :
    ∀ a ∈ files, FileReady compilers
      (fmkCompileFilesLoop opts exec compilers incs provFolder szOutFolder files st).2.1.fs
      szOutFolder a := by
  induction files generalizing st with
  | nil => intro a ha; cases ha
  | cons f rest ih =>
    have hok' : 0 ≤ (fmkCompileFile opts exec compilers incs provFolder szOutFolder f st).ret ∧
        (fmkCompileFilesLoop opts exec compilers incs provFolder szOutFolder rest
          (fmkCompileFile opts exec compilers incs provFolder szOutFolder f st).st).1 = true := by
      simpa [fmkCompileFilesLoop, Bool.and_eq_true, decide_eq_true_iff] using hok
    have hclk1 : ClkInv (fmkCompileFile opts exec compilers incs provFolder szOutFolder f st).st :=
      ((fmkCompileFile_evW opts exec compilers incs provFolder szOutFolder f st).2.2 hclk).1
    intro a ha
    simp only [fmkCompileFilesLoop]
    rcases List.mem_cons.mp ha with rfl | hmem
    · have hready := fmkCompileFile_post opts exec compilers incs provFolder szOutFolder a st
        hnb hclk (hd a (List.mem_cons_self a rest) a (List.mem_cons_self a rest)) hok'.1
      refine fileReady_mono
        (fmkCompileFilesLoop_evW opts exec compilers incs provFolder szOutFolder rest _)
        hclk1 hready ?_
      intro hmem'
      obtain ⟨b, hb, hbeq⟩ := List.mem_map.mp hmem'
      exact absurd hbeq (hd a (List.mem_cons_self a rest) b (List.mem_cons_of_mem a hb))
    · exact ih _ hclk1
        (fun x hx y hy => hd x (List.mem_cons_of_mem f hx) y (List.mem_cons_of_mem f hy))
        hok'.2 a hmem

/-- Every file of a successfully compiled folder is ready afterwards. -/
theorem fmkCompileFolder_post (opts : FlyMakeOpts) (exec : Cmd → Int)
    (compilers : List FlyMakeCompiler) (incs : Str) (folder : FmkFolder)
    (st : BSt) (hnb : opts.fNoBuild = false) (hclk : ClkInv st)
    (hd : ∀ a ∈ folder.files, ∀ b ∈ folder.files,
      fmkGetOutName (folder.path ++ cs "out/") b ≠ a)
    (hok : (fmkCompileFolder opts exec compilers incs folder st).ok = true) :
    ∀ a ∈ folder.files, FileReady compilers
      (fmkCompileFolder opts exec compilers incs folder st).st.fs
      (folder.path ++ cs "out/") a := by
  simp only [fmkCompileFolder] at hok ⊢
  revert hd hok
  rcases hfl : folder.files with _ | ⟨f, rest⟩
  · intro hd hok a ha
    cases ha
  · intro hd hok a ha
    have hcr := flyMakeFolderCreate_frame opts (folder.path ++ cs "out/") st
    have hclk0 : ClkInv (flyMakeFolderCreate opts (folder.path ++ cs "out/") st).2 :=
      clkInv_of_eq hcr.1 hcr.2.1 hclk
    exact fmkCompileFilesLoop_post opts exec compilers incs folder.path
      (folder.path ++ cs "out/") (f :: rest) _ hnb hclk0 hd hok a ha

theorem isSome_after_set (fs : Fs) (L p : Str) (clk : Nat)
    (h : (fsGet fs p).isSome = true) : (fsGet (fsSet fs L clk) p).isSome = true := by
  by_cases he : L = p
  · subst he
    rw [fsGet_set_self]
    rfl
  · rw [fsGet_set_ne _ _ _ _ he]
    exact h

/-- Files stay ready across a single artifact write outside the sources. -/
theorem filesReady_after_write (compilers : List FlyMakeCompiler)
    (files : List Str) (out : Str) (stA : BSt) (L : Str)
    (hfiles : ∀ a ∈ files, FileReady compilers stA.fs out a)
    (hclkA : ClkInv stA) (hLne : ∀ a ∈ files, L ≠ a) :
    ∀ a ∈ files,
      FileReady compilers (fsSet stA.fs L stA.clk) out a := by
  intro a ha
  obtain ⟨hfind, ts, tob, hsrc, hobj, hle⟩ := hfiles a ha
  by_cases he : L = fmkGetOutName out a
  · refine ⟨hfind, ts, stA.clk, ?_, ?_, Nat.le_of_lt (hclkA a ts hsrc)⟩
    · rw [fsGet_set_ne _ _ _ _ (hLne a ha)]
      exact hsrc
    · rw [← he, fsGet_set_self]
  · refine ⟨hfind, ts, tob, ?_, ?_, hle⟩
    · rw [fsGet_set_ne _ _ _ _ (hLne a ha)]
      exact hsrc
    · rw [fsGet_set_ne _ _ _ _ he]
      exact hobj

/-- The extension `FmkCompileFolder` reports is the first file's. -/
theorem fmkCompileFolder_ext (opts : FlyMakeOpts) (exec : Cmd → Int)
    (compilers : List FlyMakeCompiler) (incs : Str) (folder : FmkFolder) (st : BSt) :
    (fmkCompileFolder opts exec compilers incs folder st).ext =
      (match folder.files with | [] => [] | f :: _ => flyStrPathExt f) := by
  simp only [fmkCompileFolder]
  rcases folder.files with _ | ⟨f, rest⟩ <;> rfl

/-- A zero child exit writes the output at the clock. -/
theorem flyMakeSystem_ret_ok {v : Nat} {opts : FlyMakeOpts} {exec : Cmd → Int}
    {c : Cmd} {st : BSt} (hnb : opts.fNoBuild = false)
    (h : ((flyMakeSystem v opts exec c st).ret == 0) = true) :
    (flyMakeSystem v opts exec c st).st =
      { st with fs := fsSet st.fs c.outPath st.clk, clk := st.clk + 1 } := by
  simp only [flyMakeSystem, hnb, Bool.false_eq_true, if_false] at h ⊢
  by_cases hex : exec c ≠ 0
  · rw [if_pos hex] at h
    simp at h
  · rw [if_neg hex]

theorem folderReady_mk_lib {compilers : List FlyMakeCompiler} {pn : Str}
    {fs1 : Fs} {folder : FmkFolder} (hr : folder.rule = FmkRule.lib)
    (h1 : ∀ s ∈ folder.files, FileReady compilers fs1 (folder.path ++ cs "out/") s)
    (h2 : (fsGet fs1 (flyMakeFolderAllocLibName pn folder.path)).isSome = true) :
    FolderReady compilers pn fs1 folder := by
  refine ⟨h1, ?_⟩
  rw [hr]
  exact h2

theorem folderReady_mk_src {compilers : List FlyMakeCompiler} {pn : Str}
    {fs1 : Fs} {folder : FmkFolder} (hr : folder.rule = FmkRule.src)
    (h1 : ∀ s ∈ folder.files, FileReady compilers fs1 (folder.path ++ cs "out/") s)
    (h2 : ∀ g ∈ folder.files.head?.toList, flyStrPathExt g ≠ [] →
      (fsGet fs1 (flyMakeFolderAllocSrcName pn folder.path)).isSome = true) :
    FolderReady compilers pn fs1 folder := by
  refine ⟨h1, ?_⟩
  rw [hr]
  exact h2

theorem folderReady_mk_tool {compilers : List FlyMakeCompiler} {pn : Str}
    {fs1 : Fs} {folder : FmkFolder} (hr : folder.rule = FmkRule.tool)
    (h1 : ∀ s ∈ folder.files, FileReady compilers fs1 (folder.path ++ cs "out/") s)
    (h2 : ∀ t ∈ flyMakeToolListNew (folder.files.map (fun s => (s, false))),
      (fsGet fs1 (fmkToolOutName t)).isSome = true) :
    FolderReady compilers pn fs1 folder := by
  refine ⟨h1, ?_⟩
  rw [hr]
  exact h2

/-- A successful `FlyMakeBuildLib` leaves the folder ready. -/
theorem flyMakeBuildLib_post (opts : FlyMakeOpts) (exec : Cmd → Int)
    (compilers : List FlyMakeCompiler) (szProjName incs : Str)
    (folder : FmkFolder) (st : BSt)
    (hnb : opts.fNoBuild = false) (hclk : ClkInv st)
    (hr : folder.rule = FmkRule.lib)
    (hfd : ∀ w ∈ folderWritePaths szProjName folder, ∀ a ∈ folder.files, w ≠ a)
    (hok : (flyMakeBuildLib opts exec compilers szProjName incs folder st).ok = true) :
    FolderReady compilers szProjName
      (flyMakeBuildLib opts exec compilers szProjName incs folder st).st.fs folder := by
  have hd : ∀ a ∈ folder.files, ∀ b ∈ folder.files,
      fmkGetOutName (folder.path ++ cs "out/") b ≠ a :=
    fun a ha b hb => hfd _ (List.mem_append_left _ (List.mem_map.mpr ⟨b, hb, rfl⟩)) a ha
  have hlibne : ∀ a ∈ folder.files,
      flyMakeFolderAllocLibName szProjName folder.path ≠ a :=
    fun a ha => hfd _ (List.mem_append_right _ (by rw [hr]; simp)) a ha
  rcases hres : flyMakeBuildLib opts exec compilers szProjName incs folder st
    with ⟨rok, rst, rcmds⟩
  rw [hres] at hok
  simp only [flyMakeBuildLib] at hres
  split at hres
  · rename_i hfail
    cases hres
    exact absurd hok (by simp)
  · rename_i hrokn
    have hrok : (fmkCompileFolder opts exec compilers incs folder st).ok = true := by
      by_cases h : (fmkCompileFolder opts exec compilers incs folder st).ok = true
      · exact h
      · exact absurd h (fun hh => hrokn hh)
    have hfiles := fmkCompileFolder_post opts exec compilers incs folder st hnb hclk hd hrok
    have hclkr : ClkInv (fmkCompileFolder opts exec compilers incs folder st).st :=
      ((fmkCompileFolder_evW opts exec compilers incs folder st).2.2 hclk).1
    have harch : ∀ st1 : BSt,
        st1.fs = (fmkCompileFolder opts exec compilers incs folder st).st.fs →
        st1.clk = (fmkCompileFolder opts exec compilers incs folder st).st.clk →
        ∀ c : Cmd, c.outPath = flyMakeFolderAllocLibName szProjName folder.path →
        ((flyMakeSystem 1 opts exec c st1).ret == 0) = true →
        FolderReady compilers szProjName (flyMakeSystem 1 opts exec c st1).st.fs folder := by
      intro st1 h1 h2 c hcout hsys
      rw [flyMakeSystem_ret_ok hnb hsys]
      have hfl : ∀ a ∈ folder.files, FileReady compilers st1.fs (folder.path ++ cs "out/") a := by
        rw [h1]
        exact hfiles
      have hc1 : ClkInv st1 := clkInv_of_eq h1 h2 hclkr
      refine folderReady_mk_lib hr ?_ ?_
      · show ∀ s ∈ folder.files,
          FileReady compilers (fsSet st1.fs c.outPath st1.clk) (folder.path ++ cs "out/") s
        rw [hcout]
        exact filesReady_after_write compilers folder.files (folder.path ++ cs "out/")
          st1 _ hfl hc1 hlibne
      · show (fsGet (fsSet st1.fs c.outPath st1.clk)
            (flyMakeFolderAllocLibName szProjName folder.path)).isSome = true
        rw [hcout, fsGet_set_self]
        rfl
    split at hres
    · split at hres
      · cases hres
        exact harch { (fmkCompileFolder opts exec compilers incs folder st).st with
          fLibCompiled := true } rfl rfl _ rfl hok
      · rename_i hnz
        exact absurd (by omega : (fmkCompileFolder opts exec compilers incs folder st).n + 1 ≠ 0) hnz
    · split at hres
      · cases hres
        exact harch { (fmkCompileFolder opts exec compilers incs folder st).st with
          fLibCompiled := true } rfl rfl _ rfl hok
      · rename_i hnone hnz
        cases hres
        have hlsome : (fsGet (fmkCompileFolder opts exec compilers incs folder st).st.fs
            (flyMakeFolderAllocLibName szProjName folder.path)).isSome = true := by
          rcases hv : fsGet (fmkCompileFolder opts exec compilers incs folder st).st.fs
              (flyMakeFolderAllocLibName szProjName folder.path) with _ | t
          · exact absurd (by rw [hv]; rfl) hnone
          · rfl
        exact folderReady_mk_lib hr hfiles hlsome

theorem head_toList {α : Type} {l : List α} {g : α} (hg : g ∈ l.head?.toList) :
    ∃ rest, l = g :: rest := by
  rcases l with _ | ⟨f, rest⟩
  · simp at hg
  · simp at hg
    exact ⟨rest, by rw [hg]⟩

/-- A successful `FlyMakeBuildSrc` leaves the folder ready. -/
theorem flyMakeBuildSrc_post (opts : FlyMakeOpts) (exec : Cmd → Int)
    (compilers : List FlyMakeCompiler) (szProjName incs libs : Str)
    (folder : FmkFolder) (st : BSt)
    (hnb : opts.fNoBuild = false) (hclk : ClkInv st)
    (hr : folder.rule = FmkRule.src)
    (hfd : ∀ w ∈ folderWritePaths szProjName folder, ∀ a ∈ folder.files, w ≠ a)
    (hok : (flyMakeBuildSrc opts exec compilers szProjName incs libs folder st).ok = true) :
    FolderReady compilers szProjName
      (flyMakeBuildSrc opts exec compilers szProjName incs libs folder st).st.fs folder := by
  have hd : ∀ a ∈ folder.files, ∀ b ∈ folder.files,
      fmkGetOutName (folder.path ++ cs "out/") b ≠ a :=
    fun a ha b hb => hfd _ (List.mem_append_left _ (List.mem_map.mpr ⟨b, hb, rfl⟩)) a ha
  have htgtne : ∀ a ∈ folder.files,
      flyMakeFolderAllocSrcName szProjName folder.path ≠ a :=
    fun a ha => hfd _ (List.mem_append_right _ (by rw [hr]; simp)) a ha
  rcases hres : flyMakeBuildSrc opts exec compilers szProjName incs libs folder st
    with ⟨rok, rst, rcmds⟩
  rw [hres] at hok
  simp only [flyMakeBuildSrc] at hres
  split at hres
  · cases hres
    exact absurd hok (by simp)
  · rename_i hrokn
    have hrok : (fmkCompileFolder opts exec compilers incs folder st).ok = true := by
      by_cases h : (fmkCompileFolder opts exec compilers incs folder st).ok = true
      · exact h
      · exact absurd h (fun hh => hrokn hh)
    have hfiles := fmkCompileFolder_post opts exec compilers incs folder st hnb hclk hd hrok
    have hclkr : ClkInv (fmkCompileFolder opts exec compilers incs folder st).st :=
      ((fmkCompileFolder_evW opts exec compilers incs folder st).2.2 hclk).1
    split at hres
    · -- no sources with an extension: the link clause is vacuous
      rename_i hext
      cases hres
      refine folderReady_mk_src hr hfiles ?_
      intro g hg hgext
      obtain ⟨rest, hfl⟩ := head_toList hg
      exact absurd (by
        rw [fmkCompileFolder_ext, hfl] at hext
        exact hext) hgext
    · have hlink : ∀ st1 : BSt,
          st1.fs = (fmkCompileFolder opts exec compilers incs folder st).st.fs →
          st1.clk = (fmkCompileFolder opts exec compilers incs folder st).st.clk →
          ∀ c : Cmd, c.outPath = flyMakeFolderAllocSrcName szProjName folder.path →
          ((flyMakeSystem 1 opts exec c st1).ret == 0) = true →
          FolderReady compilers szProjName (flyMakeSystem 1 opts exec c st1).st.fs folder := by
        intro st1 h1 h2 c hcout hsys
        rw [flyMakeSystem_ret_ok hnb hsys]
        have hfl : ∀ a ∈ folder.files,
            FileReady compilers st1.fs (folder.path ++ cs "out/") a := by
          rw [h1]
          exact hfiles
        have hc1 : ClkInv st1 := clkInv_of_eq h1 h2 hclkr
        refine folderReady_mk_src hr ?_ ?_
        · show ∀ s ∈ folder.files,
            FileReady compilers (fsSet st1.fs c.outPath st1.clk) (folder.path ++ cs "out/") s
          rw [hcout]
          exact filesReady_after_write compilers folder.files (folder.path ++ cs "out/")
            st1 _ hfl hc1 htgtne
        · intro g hg hgext
          show (fsGet (fsSet st1.fs c.outPath st1.clk)
              (flyMakeFolderAllocSrcName szProjName folder.path)).isSome = true
          rw [hcout, fsGet_set_self]
          rfl
      repeat' split at hres
      all_goals cases hres
      all_goals try (solve | (exfalso; revert hok; simp))
      all_goals
        first
          | exact hlink { (fmkCompileFolder opts exec compilers incs folder st).st with
              nCompiled := (fmkCompileFolder opts exec compilers incs folder st).st.nCompiled + 1 }
              rfl rfl _ rfl hok
          | exact hlink (fmkCompileFolder opts exec compilers incs folder st).st
              rfl rfl _ rfl hok
          | (rename_i hcond
             exact absurd (Or.inl (by omega)) hcond)
          | (refine folderReady_mk_src hr hfiles (fun _ _ _ => ?_)
             rcases hv : fsGet (fmkCompileFolder opts exec compilers incs folder st).st.fs
                 (flyMakeFolderAllocSrcName szProjName folder.path) with _ | t
             · exact absurd (show (fsGet (fmkCompileFolder opts exec compilers incs
                   folder st).st.fs (flyMakeFolderAllocSrcName szProjName
                   folder.path)).isNone = true from by rw [hv]; rfl) (by assumption)
             · rfl)

/-- Every file of a successful tool-file loop is ready afterwards. -/
theorem fmkToolFilesLoop_post (opts : FlyMakeOpts) (exec : Cmd → Int)
    (compilers : List FlyMakeCompiler) (incs provFolder szOutFolder : Str)
    (files : List Str) (st : BSt)
    (hnb : opts.fNoBuild = false) (hclk : ClkInv st)
    (hd : ∀ a ∈ files, ∀ b ∈ files, fmkGetOutName szOutFolder b ≠ a)
    (hok : (fmkToolFilesLoop opts exec compilers incs provFolder szOutFolder files st).1 = true) :
    ∀ a ∈ files, FileReady compilers
      (fmkToolFilesLoop opts exec compilers incs provFolder szOutFolder files st).2.1.fs
      szOutFolder a := by
  induction files generalizing st with
  | nil => intro a ha; cases ha
  | cons f rest ih =>
    by_cases hneg : (fmkCompileFile opts exec compilers incs provFolder szOutFolder f st).ret < 0
    · exfalso
      simp only [fmkToolFilesLoop, if_pos hneg] at hok
      exact absurd hok (by simp)
    · have hret : 0 ≤ (fmkCompileFile opts exec compilers incs provFolder szOutFolder f st).ret :=
        Int.not_lt.mp hneg
      have hok' : (fmkToolFilesLoop opts exec compilers incs provFolder szOutFolder rest
          (fmkCompileFile opts exec compilers incs provFolder szOutFolder f st).st).1 = true := by
        simpa [fmkToolFilesLoop, if_neg hneg] using hok
      have hclk1 : ClkInv (fmkCompileFile opts exec compilers incs provFolder szOutFolder f st).st :=
        ((fmkCompileFile_evW opts exec compilers incs provFolder szOutFolder f st).2.2 hclk).1
      intro a ha
      simp only [fmkToolFilesLoop, if_neg hneg]
      rcases List.mem_cons.mp ha with rfl | hmem
      · refine fileReady_mono
          (fmkToolFilesLoop_evW opts exec compilers incs provFolder szOutFolder rest _)
          hclk1
          (fmkCompileFile_post opts exec compilers incs provFolder szOutFolder a st
            hnb hclk (hd a (List.mem_cons_self a rest) a (List.mem_cons_self a rest)) hret) ?_
        intro hmem'
        obtain ⟨b, hb, hbeq⟩ := List.mem_map.mp hmem'
        exact absurd hbeq (hd a (List.mem_cons_self a rest) b (List.mem_cons_of_mem a hb))
      · exact ih _ hclk1
          (fun x hx y hy => hd x (List.mem_cons_of_mem f hx) y (List.mem_cons_of_mem f hy))
          hok' a hmem

/-- A tool `FmkToolCompile` reports success on has every file ready and its
executable present afterwards. -/
theorem fmkToolCompile_post (opts : FlyMakeOpts) (exec : Cmd → Int)
    (compilers : List FlyMakeCompiler) (incs libs provFolder szOutFolder : Str)
    (pTool : FmkTool) (st : BSt)
    (hnb : opts.fNoBuild = false) (hclk : ClkInv st)
    (hd : ∀ a ∈ pTool.aszSrcFiles, ∀ b ∈ pTool.aszSrcFiles, fmkGetOutName szOutFolder b ≠ a)
    (houtne : ∀ a ∈ pTool.aszSrcFiles, fmkToolOutName pTool ≠ a)
    (hret : 0 ≤ (fmkToolCompile opts exec compilers incs libs provFolder szOutFolder pTool st).ret) :
    (∀ a ∈ pTool.aszSrcFiles, FileReady compilers
      (fmkToolCompile opts exec compilers incs libs provFolder szOutFolder pTool st).st.fs
      szOutFolder a) ∧
    (fsGet (fmkToolCompile opts exec compilers incs libs provFolder szOutFolder pTool st).st.fs
      (fmkToolOutName pTool)).isSome = true := by
  rcases hres : fmkToolCompile opts exec compilers incs libs provFolder szOutFolder pTool st
    with ⟨rret, rst, rcmds⟩
  rw [hres] at hret
  simp only [fmkToolCompile] at hres
  split at hres
  · cases hres
    exact absurd hret (by simp)
  · rename_i hlokn
    have hlok : (fmkToolFilesLoop opts exec compilers incs provFolder szOutFolder
        pTool.aszSrcFiles st).1 = true := by
      by_cases h : (fmkToolFilesLoop opts exec compilers incs provFolder szOutFolder
          pTool.aszSrcFiles st).1 = true
      · exact h
      · exact absurd h (fun hh => hlokn hh)
    have hfiles := fmkToolFilesLoop_post opts exec compilers incs provFolder szOutFolder
      pTool.aszSrcFiles st hnb hclk hd hlok
    have hclkr : ClkInv (fmkToolFilesLoop opts exec compilers incs provFolder szOutFolder
        pTool.aszSrcFiles st).2.1 :=
      ((fmkToolFilesLoop_evW opts exec compilers incs provFolder szOutFolder
        pTool.aszSrcFiles st).2.2 hclk).1
    have hlink : ∀ st1 : BSt,
        st1.fs = (fmkToolFilesLoop opts exec compilers incs provFolder szOutFolder
          pTool.aszSrcFiles st).2.1.fs →
        st1.clk = (fmkToolFilesLoop opts exec compilers incs provFolder szOutFolder
          pTool.aszSrcFiles st).2.1.clk →
        ∀ c : Cmd, c.outPath = fmkToolOutName pTool →
        ((flyMakeSystem 1 opts exec c st1).ret == 0) = true →
        (∀ a ∈ pTool.aszSrcFiles, FileReady compilers
          (flyMakeSystem 1 opts exec c st1).st.fs szOutFolder a) ∧
        (fsGet (flyMakeSystem 1 opts exec c st1).st.fs (fmkToolOutName pTool)).isSome = true := by
      intro st1 h1 h2 c hcout hsys
      rw [flyMakeSystem_ret_ok hnb hsys]
      have hfl : ∀ a ∈ pTool.aszSrcFiles, FileReady compilers st1.fs szOutFolder a := by
        rw [h1]
        exact hfiles
      have hc1 : ClkInv st1 := clkInv_of_eq h1 h2 hclkr
      constructor
      · show ∀ a ∈ pTool.aszSrcFiles,
          FileReady compilers (fsSet st1.fs c.outPath st1.clk) szOutFolder a
        rw [hcout]
        exact filesReady_after_write compilers pTool.aszSrcFiles szOutFolder st1 _ hfl hc1 houtne
      · show (fsGet (fsSet st1.fs c.outPath st1.clk) (fmkToolOutName pTool)).isSome = true
        rw [hcout, fsGet_set_self]
        rfl
    repeat' split at hres
    all_goals cases hres
    all_goals try (solve | (exfalso; revert hret; simp))
    all_goals
      first
        | (rename_i hns
           exact hlink { (fmkToolFilesLoop opts exec compilers incs provFolder szOutFolder
               pTool.aszSrcFiles st).2.1 with
               nCompiled := (fmkToolFilesLoop opts exec compilers incs provFolder szOutFolder
                 pTool.aszSrcFiles st).2.1.nCompiled + 1 }
             rfl rfl _ rfl (by simp [not_ne_iff.mp hns]))
        | (rename_i hns
           exact hlink (fmkToolFilesLoop opts exec compilers incs provFolder szOutFolder
               pTool.aszSrcFiles st).2.1
             rfl rfl _ rfl (by simp [not_ne_iff.mp hns]))
        | (rename_i hcond
           exact absurd (Or.inl (by omega)) hcond)
        | (constructor
           · exact hfiles
           · rcases hv : fsGet (fmkToolFilesLoop opts exec compilers incs provFolder
                 szOutFolder pTool.aszSrcFiles st).2.1.fs (fmkToolOutName pTool) with _ | t
             · exact absurd (show (fsGet (fmkToolFilesLoop opts exec compilers incs
                   provFolder szOutFolder pTool.aszSrcFiles st).2.1.fs
                   (fmkToolOutName pTool)).isNone = true from by rw [hv]; rfl)
                 (by assumption)
             · rfl)

/-- Every tool of a successful tool loop has ready files and a present
executable afterwards. -/
theorem fmkToolsLoop_post (opts : FlyMakeOpts) (exec : Cmd → Int)
    (compilers : List FlyMakeCompiler) (incs libs provFolder szOutFolder : Str)
    (tools : List FmkTool) (st : BSt) (W : List Str)
    (hnb : opts.fNoBuild = false) (hclk : ClkInv st)
    (hW : ∀ t ∈ tools, ∀ p ∈ t.aszSrcFiles.map (fmkGetOutName szOutFolder) ++
      [fmkToolOutName t], p ∈ W)
    (hsrcne : ∀ w ∈ W, ∀ t ∈ tools, ∀ a ∈ t.aszSrcFiles, w ≠ a)
    (hok : (fmkToolsLoop opts exec compilers incs libs provFolder szOutFolder tools st).ok = true) :
    ∀ t ∈ tools,
      (∀ a ∈ t.aszSrcFiles, FileReady compilers
        (fmkToolsLoop opts exec compilers incs libs provFolder szOutFolder tools st).st.fs
        szOutFolder a) ∧
      (fsGet (fmkToolsLoop opts exec compilers incs libs provFolder szOutFolder tools st).st.fs
        (fmkToolOutName t)).isSome = true := by
  induction tools generalizing st with
  | nil => intro t ht; cases ht
  | cons t0 rest ih =>
    by_cases hneg : (fmkToolCompile opts exec compilers incs libs provFolder szOutFolder t0 st).ret < 0
    · exfalso
      simp only [fmkToolsLoop, if_pos hneg] at hok
      exact absurd hok (by simp)
    · have hret := Int.not_lt.mp hneg
      have hd0 : ∀ a ∈ t0.aszSrcFiles, ∀ b ∈ t0.aszSrcFiles,
          fmkGetOutName szOutFolder b ≠ a := by
        intro a ha b hb
        exact hsrcne _ (hW t0 (List.mem_cons_self t0 rest) _
          (List.mem_append_left _ (List.mem_map.mpr ⟨b, hb, rfl⟩))) t0
          (List.mem_cons_self t0 rest) a ha
      have hout0 : ∀ a ∈ t0.aszSrcFiles, fmkToolOutName t0 ≠ a := by
        intro a ha
        exact hsrcne _ (hW t0 (List.mem_cons_self t0 rest) _
          (List.mem_append_right _ (by simp))) t0 (List.mem_cons_self t0 rest) a ha
      have hpost := fmkToolCompile_post opts exec compilers incs libs provFolder szOutFolder
        t0 st hnb hclk hd0 hout0 hret
      have hclk1 : ClkInv (fmkToolCompile opts exec compilers incs libs provFolder
          szOutFolder t0 st).st :=
        ((fmkToolCompile_evW opts exec compilers incs libs provFolder szOutFolder t0 st).2.2
          hclk).1
      have hok' : (fmkToolsLoop opts exec compilers incs libs provFolder szOutFolder rest
          (fmkToolCompile opts exec compilers incs libs provFolder szOutFolder t0 st).st).ok
          = true := by
        simpa [fmkToolsLoop, if_neg hneg] using hok
      intro t ht
      simp only [fmkToolsLoop, if_neg hneg]
      rcases List.mem_cons.mp ht with rfl | hmem
      · have hEv := fmkToolsLoop_evW opts exec compilers incs libs provFolder szOutFolder rest
          (fmkToolCompile opts exec compilers incs libs provFolder szOutFolder t st).st W
          (fun u hu => hW u (List.mem_cons_of_mem t hu))
        constructor
        · intro a ha
          refine fileReady_mono hEv hclk1 (hpost.1 a ha) ?_
          intro hmem'
          exact absurd rfl (hsrcne a hmem' t (List.mem_cons_self t rest) a ha)
        · exact isSome_keep hEv hclk1 hpost.2
      · exact ih _ hclk1 (fun u hu => hW u (List.mem_cons_of_mem t0 hu))
          (fun w hw u hu => hsrcne w hw u (List.mem_cons_of_mem t0 hu)) hok' t hmem

/-- A successful `FlyMakeBuildTools` leaves the folder ready. -/
theorem flyMakeBuildTools_post (opts : FlyMakeOpts) (exec : Cmd → Int)
    (compilers : List FlyMakeCompiler) (szProjName incs libs : Str)
    (folder : FmkFolder) (st : BSt)
    (hnb : opts.fNoBuild = false) (hclk : ClkInv st)
    (hr : folder.rule = FmkRule.tool)
    (hfd : ∀ w ∈ folderWritePaths szProjName folder, ∀ a ∈ folder.files, w ≠ a)
    (hok : (flyMakeBuildTools opts exec compilers incs libs folder st).ok = true) :
    FolderReady compilers szProjName
      (flyMakeBuildTools opts exec compilers incs libs folder st).st.fs folder := by
  have hperm := flyMakeToolListNew_flatten_perm (folder.files.map (fun s => (s, false)))
  rw [unusedOf_fresh] at hperm
  simp only [flyMakeBuildTools] at hok ⊢
  revert hok
  rcases htl : flyMakeToolListNew (folder.files.map (fun s => (s, false))) with _ | ⟨t0, ts⟩
  · intro hok
    rw [htl] at hperm
    simp only [List.map_nil, List.flatten_nil] at hperm
    have hnil : folder.files = [] := hperm.symm.eq_nil
    refine ⟨?_, ?_⟩
    · intro s hs
      rw [hnil] at hs
      cases hs
    · rw [hr]
      intro t ht
      rw [htl] at ht
      cases ht
  · intro hok
    have hcr := flyMakeFolderCreate_frame opts (folder.path ++ cs "out/") st
    have hclk0 : ClkInv (flyMakeFolderCreate opts (folder.path ++ cs "out/") st).2 :=
      clkInv_of_eq hcr.1 hcr.2.1 hclk
    have hW : ∀ t ∈ t0 :: ts, ∀ p ∈ t.aszSrcFiles.map
        (fmkGetOutName (folder.path ++ cs "out/")) ++ [fmkToolOutName t],
        p ∈ folderWritePaths szProjName folder := by
      rw [← htl]
      intro u hu p hp
      rcases List.mem_append.mp hp with hobj | hout
      · obtain ⟨s, hs, rfl⟩ := List.mem_map.mp hobj
        exact List.mem_append_left _
          (List.mem_map.mpr ⟨s, toolFiles_sub folder.files u hu s hs, rfl⟩)
      · apply List.mem_append_right
        rw [hr]
        simp only [List.mem_singleton] at hout
        rw [hout]
        exact List.mem_map.mpr ⟨u, hu, rfl⟩
    have hsrcne : ∀ w ∈ folderWritePaths szProjName folder, ∀ t ∈ t0 :: ts,
        ∀ a ∈ t.aszSrcFiles, w ≠ a := by
      rw [← htl]
      intro w hw t ht a ha
      exact hfd w hw a (toolFiles_sub folder.files t ht a ha)
    have hpost := fmkToolsLoop_post opts exec compilers incs libs folder.path
      (folder.path ++ cs "out/") (t0 :: ts) _ (folderWritePaths szProjName folder)
      hnb hclk0 hW hsrcne hok
    refine folderReady_mk_tool hr ?_ ?_
    · intro s hs
      have hsin : s ∈ ((flyMakeToolListNew (folder.files.map (fun s => (s, false)))).map
          FmkTool.aszSrcFiles).flatten := hperm.mem_iff.mpr hs
      obtain ⟨fl, hfl, hsf⟩ := List.mem_flatten.mp hsin
      obtain ⟨t, htm, rfl⟩ := List.mem_map.mp hfl
      rw [htl] at htm
      exact (hpost t htm).1 s hsf
    · intro t ht
      rw [htl] at ht
      exact (hpost t ht).2

/-- Every library folder of a successful `FlyMakeBuildLibs` run is ready
afterwards. -/
theorem flyMakeBuildLibs_post (opts : FlyMakeOpts) (exec : Cmd → Int)
    (compilers : List FlyMakeCompiler) (szProjName incs : Str)
    (folders : List FmkFolder) (st : BSt) (W srcS : List Str)
    (hnb : opts.fNoBuild = false) (hclk : ClkInv st)
    (hWf : ∀ f ∈ folders, f.rule = FmkRule.lib →
      ∀ p ∈ folderWritePaths szProjName f, p ∈ W)
    (hsrcS : ∀ f ∈ folders, ∀ a ∈ f.files, a ∈ srcS)
    (hdis : ∀ w ∈ W, ∀ a ∈ srcS, w ≠ a)
    (hok : (flyMakeBuildLibs opts exec compilers szProjName incs folders st).ok = true) :
    ∀ f ∈ folders, f.rule = FmkRule.lib →
      FolderReady compilers szProjName
        (flyMakeBuildLibs opts exec compilers szProjName incs folders st).st.fs f := by
  induction folders generalizing st with
  | nil => intro f hf; cases hf
  | cons f0 rest ih =>
    by_cases hrule : f0.rule = FmkRule.lib
    case neg =>
      have hok' : (flyMakeBuildLibs opts exec compilers szProjName incs rest st).ok = true := by
        simpa [flyMakeBuildLibs, hrule] using hok
      intro f hf hfr
      simp only [flyMakeBuildLibs, if_neg hrule]
      rcases List.mem_cons.mp hf with rfl | hmem
      · exact absurd hfr hrule
      · exact ih st hclk (fun g hg hgr => hWf g (List.mem_cons_of_mem f0 hg) hgr)
          (fun g hg a ha => hsrcS g (List.mem_cons_of_mem f0 hg) a ha) hok' f hmem hfr
    case pos =>
      by_cases hbok : (flyMakeBuildLib opts exec compilers szProjName incs f0 st).ok = true
      case neg =>
        exfalso
        revert hok
        simp [flyMakeBuildLibs, hrule, hbok]
      case pos =>
        have hfd0 : ∀ w ∈ folderWritePaths szProjName f0, ∀ a ∈ f0.files, w ≠ a :=
          fun w hw a ha => hdis w (hWf f0 (List.mem_cons_self f0 rest) hrule w hw) a
            (hsrcS f0 (List.mem_cons_self f0 rest) a ha)
        have hpost := flyMakeBuildLib_post opts exec compilers szProjName incs f0 st
          hnb hclk hrule hfd0 hbok
        have hclk1 : ClkInv (flyMakeBuildLib opts exec compilers szProjName incs f0 st).st :=
          ((flyMakeBuildLib_evW opts exec compilers szProjName incs f0 st hrule).2.2 hclk).1
        have hok' : (flyMakeBuildLibs opts exec compilers szProjName incs rest
            (flyMakeBuildLib opts exec compilers szProjName incs f0 st).st).ok = true := by
          by_cases h : (flyMakeBuildLibs opts exec compilers szProjName incs rest
              (flyMakeBuildLib opts exec compilers szProjName incs f0 st).st).ok = true
          · exact h
          · exfalso
            revert hok
            simp [flyMakeBuildLibs, hrule, hbok, h]
        have hstep : (flyMakeBuildLibs opts exec compilers szProjName incs (f0 :: rest) st).st =
            (flyMakeBuildLibs opts exec compilers szProjName incs rest
              (flyMakeBuildLib opts exec compilers szProjName incs f0 st).st).st := by
          simp [flyMakeBuildLibs, hrule, hbok]
        intro f hf hfr
        rw [hstep]
        rcases List.mem_cons.mp hf with rfl | hmem
        · refine folderReady_mono (evW_mono (fun q hq => hq)
            (flyMakeBuildLibs_evW opts exec compilers szProjName incs rest _ W
              (fun g hg hgr => hWf g (List.mem_cons_of_mem f hg) hgr))) hclk1 hpost ?_
          intro s hsf hsW
          exact absurd rfl (hdis s hsW s (hsrcS f (List.mem_cons_self f rest) s hsf))
        · exact ih _ hclk1 (fun g hg hgr => hWf g (List.mem_cons_of_mem f0 hg) hgr)
            (fun g hg a ha => hsrcS g (List.mem_cons_of_mem f0 hg) a ha) hok' f hmem hfr

/-- Every src/tool folder of a successful program/tool loop run is ready
afterwards. -/
theorem fmkDepProgsLoop_post (opts : FlyMakeOpts) (exec : Cmd → Int)
    (compilers : List FlyMakeCompiler) (szProjName incs libs : Str)
    (folders : List FmkFolder) (st : BSt) (W srcS : List Str)
    (hnb : opts.fNoBuild = false) (hclk : ClkInv st)
    (hWf : ∀ f ∈ folders, (f.rule = FmkRule.src ∨ f.rule = FmkRule.tool) →
      ∀ p ∈ folderWritePaths szProjName f, p ∈ W)
    (hsrcS : ∀ f ∈ folders, ∀ a ∈ f.files, a ∈ srcS)
    (hdis : ∀ w ∈ W, ∀ a ∈ srcS, w ≠ a)
    (hok : (fmkDepProgsLoop opts exec compilers szProjName incs libs folders st).ok = true) :
    ∀ f ∈ folders, (f.rule = FmkRule.src ∨ f.rule = FmkRule.tool) →
      FolderReady compilers szProjName
        (fmkDepProgsLoop opts exec compilers szProjName incs libs folders st).st.fs f := by
  induction folders generalizing st with
  | nil => intro f hf; cases hf
  | cons f0 rest ih =>
    rcases hr0 : f0.rule with _ | _ | _ | _
    case src =>
      by_cases hbok : (flyMakeBuildSrc opts exec compilers szProjName incs libs f0 st).ok = true
      case neg =>
        exfalso
        revert hok
        simp [fmkDepProgsLoop, hr0, hbok]
      case pos =>
        have hfd0 : ∀ w ∈ folderWritePaths szProjName f0, ∀ a ∈ f0.files, w ≠ a :=
          fun w hw a ha => hdis w (hWf f0 (List.mem_cons_self f0 rest) (Or.inl hr0) w hw) a
            (hsrcS f0 (List.mem_cons_self f0 rest) a ha)
        have hpost := flyMakeBuildSrc_post opts exec compilers szProjName incs libs f0 st
          hnb hclk hr0 hfd0 hbok
        have hclk1 : ClkInv (flyMakeBuildSrc opts exec compilers szProjName incs libs f0 st).st :=
          ((flyMakeBuildSrc_evW opts exec compilers szProjName incs libs f0 st hr0).2.2 hclk).1
        have hok' : (fmkDepProgsLoop opts exec compilers szProjName incs libs rest
            (flyMakeBuildSrc opts exec compilers szProjName incs libs f0 st).st).ok = true := by
          by_cases h : (fmkDepProgsLoop opts exec compilers szProjName incs libs rest
              (flyMakeBuildSrc opts exec compilers szProjName incs libs f0 st).st).ok = true
          · exact h
          · exfalso
            revert hok
            simp [fmkDepProgsLoop, hr0, hbok, h]
        have hstep : (fmkDepProgsLoop opts exec compilers szProjName incs libs (f0 :: rest) st).st =
            (fmkDepProgsLoop opts exec compilers szProjName incs libs rest
              (flyMakeBuildSrc opts exec compilers szProjName incs libs f0 st).st).st := by
          simp [fmkDepProgsLoop, hr0, hbok]
        intro f hf hfr
        rw [hstep]
        rcases List.mem_cons.mp hf with rfl | hmem
        · refine folderReady_mono (fmkDepProgsLoop_evW opts exec compilers szProjName incs
            libs rest _ W (fun g hg hgr => hWf g (List.mem_cons_of_mem f hg) hgr)) hclk1
            hpost ?_
          intro s hsf hsW
          exact absurd rfl (hdis s hsW s (hsrcS f (List.mem_cons_self f rest) s hsf))
        · exact ih _ hclk1 (fun g hg hgr => hWf g (List.mem_cons_of_mem f0 hg) hgr)
            (fun g hg a ha => hsrcS g (List.mem_cons_of_mem f0 hg) a ha) hok' f hmem hfr
    case tool =>
      by_cases hbok : (flyMakeBuildTools opts exec compilers incs libs f0 st).ok = true
      case neg =>
        exfalso
        revert hok
        simp [fmkDepProgsLoop, hr0, hbok]
      case pos =>
        have hfd0 : ∀ w ∈ folderWritePaths szProjName f0, ∀ a ∈ f0.files, w ≠ a :=
          fun w hw a ha => hdis w (hWf f0 (List.mem_cons_self f0 rest) (Or.inr hr0) w hw) a
            (hsrcS f0 (List.mem_cons_self f0 rest) a ha)
        have hpost := flyMakeBuildTools_post opts exec compilers szProjName incs libs f0 st
          hnb hclk hr0 hfd0 hbok
        have hclk1 : ClkInv (flyMakeBuildTools opts exec compilers incs libs f0 st).st :=
          ((flyMakeBuildTools_evW opts exec compilers szProjName incs libs f0 st hr0).2.2 hclk).1
        have hok' : (fmkDepProgsLoop opts exec compilers szProjName incs libs rest
            (flyMakeBuildTools opts exec compilers incs libs f0 st).st).ok = true := by
          by_cases h : (fmkDepProgsLoop opts exec compilers szProjName incs libs rest
              (flyMakeBuildTools opts exec compilers incs libs f0 st).st).ok = true
          · exact h
          · exfalso
            revert hok
            simp [fmkDepProgsLoop, hr0, hbok, h]
        have hstep : (fmkDepProgsLoop opts exec compilers szProjName incs libs (f0 :: rest) st).st =
            (fmkDepProgsLoop opts exec compilers szProjName incs libs rest
              (flyMakeBuildTools opts exec compilers incs libs f0 st).st).st := by
          simp [fmkDepProgsLoop, hr0, hbok]
        intro f hf hfr
        rw [hstep]
        rcases List.mem_cons.mp hf with rfl | hmem
        · refine folderReady_mono (fmkDepProgsLoop_evW opts exec compilers szProjName incs
            libs rest _ W (fun g hg hgr => hWf g (List.mem_cons_of_mem f hg) hgr)) hclk1
            hpost ?_
          intro s hsf hsW
          exact absurd rfl (hdis s hsW s (hsrcS f (List.mem_cons_self f rest) s hsf))
        · exact ih _ hclk1 (fun g hg hgr => hWf g (List.mem_cons_of_mem f0 hg) hgr)
            (fun g hg a ha => hsrcS g (List.mem_cons_of_mem f0 hg) a ha) hok' f hmem hfr
    case lib =>
      have hok' : (fmkDepProgsLoop opts exec compilers szProjName incs libs rest st).ok = true := by
        simpa [fmkDepProgsLoop, hr0] using hok
      intro f hf hfr
      have hstep : (fmkDepProgsLoop opts exec compilers szProjName incs libs (f0 :: rest) st).st =
          (fmkDepProgsLoop opts exec compilers szProjName incs libs rest st).st := by
        simp [fmkDepProgsLoop, hr0]
      rw [hstep]
      rcases List.mem_cons.mp hf with rfl | hmem
      · rcases hfr with h | h <;> rw [hr0] at h <;> cases h
      · exact ih st hclk (fun g hg hgr => hWf g (List.mem_cons_of_mem f0 hg) hgr)
          (fun g hg a ha => hsrcS g (List.mem_cons_of_mem f0 hg) a ha) hok' f hmem hfr
    case proj =>
      have hok' : (fmkDepProgsLoop opts exec compilers szProjName incs libs rest st).ok = true := by
        simpa [fmkDepProgsLoop, hr0] using hok
      intro f hf hfr
      have hstep : (fmkDepProgsLoop opts exec compilers szProjName incs libs (f0 :: rest) st).st =
          (fmkDepProgsLoop opts exec compilers szProjName incs libs rest st).st := by
        simp [fmkDepProgsLoop, hr0]
      rw [hstep]
      rcases List.mem_cons.mp hf with rfl | hmem
      · rcases hfr with h | h <;> rw [hr0] at h <;> cases h
      · exact ih st hclk (fun g hg hgr => hWf g (List.mem_cons_of_mem f0 hg) hgr)
          (fun g hg a ha => hsrcS g (List.mem_cons_of_mem f0 hg) a ha) hok' f hmem hfr

/-- Every non-proj folder of a successfully built project is ready
afterwards. -/
theorem fmkDepBuildProject_post (opts : FlyMakeOpts) (exec : Cmd → Int)
    (compilers : List FlyMakeCompiler) (p : FmkProject) (st : BSt)
    (W srcS : List Str)
    (hnb : opts.fNoBuild = false) (hclk : ClkInv st)
    (hWf : ∀ f ∈ p.folders, ¬ f.rule = FmkRule.proj →
      ∀ q ∈ folderWritePaths p.szProjName f, q ∈ W)
    (hsrcS : ∀ f ∈ p.folders, ∀ a ∈ f.files, a ∈ srcS)
    (hdis : ∀ w ∈ W, ∀ a ∈ srcS, w ≠ a)
    (hok : (fmkDepBuildProject opts exec compilers p st).ok = true) :
    ∀ f ∈ p.folders, ¬ f.rule = FmkRule.proj →
      FolderReady compilers p.szProjName
        (fmkDepBuildProject opts exec compilers p st).st.fs f := by
  have hWlib : ∀ f ∈ p.folders, f.rule = FmkRule.lib →
      ∀ q ∈ folderWritePaths p.szProjName f, q ∈ W :=
    fun f hf hfr => hWf f hf (by rw [hfr]; exact fun h => FmkRule.noConfusion h)
  have hWst : ∀ f ∈ p.folders, (f.rule = FmkRule.src ∨ f.rule = FmkRule.tool) →
      ∀ q ∈ folderWritePaths p.szProjName f, q ∈ W := by
    intro f hf hfr
    refine hWf f hf ?_
    rcases hfr with h | h <;> rw [h] <;> exact fun hh => FmkRule.noConfusion hh
  by_cases hlok : (flyMakeBuildLibs opts exec compilers p.szProjName p.incs p.folders st).ok = true
  case neg =>
    exfalso
    revert hok
    simp [fmkDepBuildProject, hlok]
  case pos =>
    have hlibs := flyMakeBuildLibs_post opts exec compilers p.szProjName p.incs p.folders
      st W srcS hnb hclk hWlib hsrcS hdis hlok
    have hclk1 : ClkInv (flyMakeBuildLibs opts exec compilers p.szProjName p.incs
        p.folders st).st :=
      ((flyMakeBuildLibs_evW opts exec compilers p.szProjName p.incs p.folders st W
        hWlib).2.2 hclk).1
    have hprogsok : (fmkDepProgsLoop opts exec compilers p.szProjName p.incs p.libs p.folders
        (flyMakeBuildLibs opts exec compilers p.szProjName p.incs p.folders st).st).ok
        = true := by
      by_cases h : (fmkDepProgsLoop opts exec compilers p.szProjName p.incs p.libs p.folders
          (flyMakeBuildLibs opts exec compilers p.szProjName p.incs p.folders st).st).ok = true
      · exact h
      · exfalso
        revert hok
        simp [fmkDepBuildProject, hlok, h]
    have hprogs := fmkDepProgsLoop_post opts exec compilers p.szProjName p.incs p.libs
      p.folders (flyMakeBuildLibs opts exec compilers p.szProjName p.incs p.folders st).st
      W srcS hnb hclk1 hWst hsrcS hdis hprogsok
    have hstep : (fmkDepBuildProject opts exec compilers p st).st =
        (fmkDepProgsLoop opts exec compilers p.szProjName p.incs p.libs p.folders
          (flyMakeBuildLibs opts exec compilers p.szProjName p.incs p.folders st).st).st := by
      simp [fmkDepBuildProject, hlok]
    intro f hf hfr
    rw [hstep]
    rcases hr : f.rule with _ | _ | _ | _
    case lib =>
      refine folderReady_mono (fmkDepProgsLoop_evW opts exec compilers p.szProjName p.incs
        p.libs p.folders _ W hWst) hclk1 (hlibs f hf hr) ?_
      intro s hsf hsW
      exact absurd rfl (hdis s hsW s (hsrcS f hf s hsf))
    case src => exact hprogs f hf (Or.inl hr)
    case tool => exact hprogs f hf (Or.inr hr)
    case proj => exact absurd hr hfr

/-- Every library folder of every dependency built by a successful dependency
loop is ready afterwards. -/
theorem flyMakeDepListBuildRun_post (opts : FlyMakeOpts) (exec : Cmd → Int)
    (compilers : List FlyMakeCompiler) (deps : List FmkDepProj) (st : BSt)
    (W srcS : List Str)
    (hnb : opts.fNoBuild = false) (hclk : ClkInv st)
    (hWd : ∀ d ∈ deps, ∀ p', d.sub = some p' → ∀ f ∈ p'.folders,
      f.rule = FmkRule.lib → ∀ q ∈ folderWritePaths p'.szProjName f, q ∈ W)
    (hsrcS : ∀ d ∈ deps, ∀ p', d.sub = some p' → ∀ f ∈ p'.folders,
      ∀ a ∈ f.files, a ∈ srcS)
    (hdis : ∀ w ∈ W, ∀ a ∈ srcS, w ≠ a)
    (hok : (flyMakeDepListBuildRun opts exec compilers deps st).ok = true) :
    ∀ d ∈ deps, ∀ p', d.sub = some p' → ∀ f ∈ p'.folders, f.rule = FmkRule.lib →
      FolderReady compilers p'.szProjName
        (flyMakeDepListBuildRun opts exec compilers deps st).st.fs f := by
  induction deps generalizing st with
  | nil => intro d hd; cases hd
  | cons d0 rest ih =>
    rcases hsub : d0.sub with _ | p0
    · have hok' : (flyMakeDepListBuildRun opts exec compilers rest st).ok = true := by
        simpa [flyMakeDepListBuildRun, hsub] using hok
      have hstep : (flyMakeDepListBuildRun opts exec compilers (d0 :: rest) st).st =
          (flyMakeDepListBuildRun opts exec compilers rest st).st := by
        simp [flyMakeDepListBuildRun, hsub]
      intro d hd p' hp' f hf hfr
      rw [hstep]
      rcases List.mem_cons.mp hd with rfl | hmem
      · rw [hsub] at hp'
        cases hp'
      · exact ih st hclk (fun e he => hWd e (List.mem_cons_of_mem d0 he))
          (fun e he => hsrcS e (List.mem_cons_of_mem d0 he)) hok' d hmem p' hp' f hf hfr
    · by_cases hbok : (flyMakeBuildLibs { opts with fRebuild := opts.fAll } exec compilers
          p0.szProjName p0.incs p0.folders ⟨st.fs, st.clk, st.dirs, 0, 0, false⟩).ok = true
      case neg =>
        exfalso
        revert hok
        simp [flyMakeDepListBuildRun, hsub, hbok]
      case pos =>
        have hdepnb : ({ opts with fRebuild := opts.fAll } : FlyMakeOpts).fNoBuild = false := hnb
        have hclkd : ClkInv (⟨st.fs, st.clk, st.dirs, 0, 0, false⟩ : BSt) :=
          clkInv_of_eq rfl rfl hclk
        have hlibs := flyMakeBuildLibs_post { opts with fRebuild := opts.fAll } exec compilers
          p0.szProjName p0.incs p0.folders ⟨st.fs, st.clk, st.dirs, 0, 0, false⟩ W srcS
          hdepnb hclkd (hWd d0 (List.mem_cons_self d0 rest) p0 hsub)
          (hsrcS d0 (List.mem_cons_self d0 rest) p0 hsub) hdis hbok
        have hclkr : ClkInv (flyMakeBuildLibs { opts with fRebuild := opts.fAll } exec
            compilers p0.szProjName p0.incs p0.folders
            ⟨st.fs, st.clk, st.dirs, 0, 0, false⟩).st :=
          ((flyMakeBuildLibs_evW { opts with fRebuild := opts.fAll } exec compilers
            p0.szProjName p0.incs p0.folders ⟨st.fs, st.clk, st.dirs, 0, 0, false⟩ W
            (hWd d0 (List.mem_cons_self d0 rest) p0 hsub)).2.2 hclkd).1
        have key : ∀ st1 : BSt,
            (flyMakeDepListBuildRun opts exec compilers rest st1).ok = true →
            st1.fs = (flyMakeBuildLibs { opts with fRebuild := opts.fAll } exec compilers
              p0.szProjName p0.incs p0.folders ⟨st.fs, st.clk, st.dirs, 0, 0, false⟩).st.fs →
            st1.clk = (flyMakeBuildLibs { opts with fRebuild := opts.fAll } exec compilers
              p0.szProjName p0.incs p0.folders ⟨st.fs, st.clk, st.dirs, 0, 0, false⟩).st.clk →
            ∀ d ∈ d0 :: rest, ∀ p', d.sub = some p' → ∀ f ∈ p'.folders,
              f.rule = FmkRule.lib →
              FolderReady compilers p'.szProjName
                (flyMakeDepListBuildRun opts exec compilers rest st1).st.fs f := by
          intro st1 hok1 h1 h2 d hd p' hp' f hf hfr
          have hc1 : ClkInv st1 := clkInv_of_eq h1 h2 hclkr
          rcases List.mem_cons.mp hd with rfl | hmem
          · rw [hsub] at hp'
            cases hp'
            refine folderReady_mono (flyMakeDepListBuildRun_evW opts exec compilers rest
              st1 W (fun e he => hWd e (List.mem_cons_of_mem d he))) hc1 ?_ ?_
            · have hld := hlibs f hf hfr
              rw [← h1] at hld
              exact hld
            · intro s hsf hsW
              exact absurd rfl (hdis s hsW s
                (hsrcS d (List.mem_cons_self d rest) p0 hsub f hf s hsf))
          · exact ih st1 hc1 (fun e he => hWd e (List.mem_cons_of_mem d0 he))
              (fun e he => hsrcS e (List.mem_cons_of_mem d0 he)) hok1 d hmem p' hp' f hf hfr
        intro d hd p' hp' f hf hfr
        revert hok
        simp only [flyMakeDepListBuildRun, hsub]
        rw [if_neg (fun hh => hh hbok)]
        intro hok
        exact key _ hok rfl rfl d hd p' hp' f hf hfr

/-- A build that reports no error leaves every buildable folder of the root
project and every dependency library folder ready, and the final state's
clock stays above every recorded time. -/
theorem flyMakeCmdBuild_post (opts : FlyMakeOpts) (exec : Cmd → Int)
    (compilers : List FlyMakeCompiler) (root : FmkProject)
    (deps : List FmkDepProj) (fs : Fs) (dirs : List Str)
    (hAll : opts.fAll = false) (hnb : opts.fNoBuild = false)
    (hdisj : SrcOutDisjoint root deps)
    (herr : (flyMakeCmdBuild opts exec compilers root deps fs dirs).err = false) :
    (∀ f ∈ root.folders, ¬ f.rule = FmkRule.proj →
      FolderReady compilers root.szProjName
        (flyMakeCmdBuild opts exec compilers root deps fs dirs).st.fs f) ∧
    (∀ d ∈ deps, ∀ p', d.sub = some p' → ∀ f ∈ p'.folders, f.rule = FmkRule.lib →
      FolderReady compilers p'.szProjName
        (flyMakeCmdBuild opts exec compilers root deps fs dirs).st.fs f) ∧
    ClkInv (flyMakeCmdBuild opts exec compilers root deps fs dirs).st := by
  have hWroot : ∀ f ∈ root.folders, ¬ f.rule = FmkRule.proj →
      ∀ q ∈ folderWritePaths root.szProjName f, q ∈ allWritePaths root deps :=
    fun f hf _ q hq => List.mem_append_left _ (List.mem_flatMap.mpr ⟨f, hf, hq⟩)
  have hWdep : ∀ d ∈ deps, ∀ p', d.sub = some p' → ∀ f ∈ p'.folders,
      f.rule = FmkRule.lib → ∀ q ∈ folderWritePaths p'.szProjName f,
      q ∈ allWritePaths root deps := by
    intro d hd p' hp' f hf _ q hq
    refine List.mem_append_right _ (List.mem_flatMap.mpr ⟨d, hd, ?_⟩)
    rw [hp']
    exact List.mem_flatMap.mpr ⟨f, hf, hq⟩
  have hSroot : ∀ f ∈ root.folders, ∀ a ∈ f.files, a ∈ allSrcPaths root deps :=
    fun f hf a ha => List.mem_append_left _ (List.mem_flatMap.mpr ⟨f, hf, ha⟩)
  have hSdep : ∀ d ∈ deps, ∀ p', d.sub = some p' → ∀ f ∈ p'.folders,
      ∀ a ∈ f.files, a ∈ allSrcPaths root deps := by
    intro d hd p' hp' f hf a ha
    refine List.mem_append_right _ (List.mem_flatMap.mpr ⟨d, hd, ?_⟩)
    rw [hp']
    exact List.mem_flatMap.mpr ⟨f, hf, ha⟩
  have hdis : ∀ w ∈ allWritePaths root deps, ∀ a ∈ allSrcPaths root deps, w ≠ a := hdisj
  have hrdok : (flyMakeDepListBuildRun opts exec compilers deps
      ⟨fs, fsMax fs + 1, dirs, 0, 0, false⟩).ok = true := by
    by_cases h : (flyMakeDepListBuildRun opts exec compilers deps
        ⟨fs, fsMax fs + 1, dirs, 0, 0, false⟩).ok = true
    · exact h
    · exfalso
      revert herr
      simp [flyMakeCmdBuild, hAll, h]
  have hrpok : (fmkDepBuildProject opts exec compilers root
      (flyMakeDepListBuildRun opts exec compilers deps
        ⟨fs, fsMax fs + 1, dirs, 0, 0, false⟩).st).ok = true := by
    by_cases h : (fmkDepBuildProject opts exec compilers root
        (flyMakeDepListBuildRun opts exec compilers deps
          ⟨fs, fsMax fs + 1, dirs, 0, 0, false⟩).st).ok = true
    · exact h
    · exfalso
      revert herr
      simp [flyMakeCmdBuild, hAll, hrdok, h]
  have hstep : (flyMakeCmdBuild opts exec compilers root deps fs dirs).st =
      (fmkDepBuildProject opts exec compilers root
        (flyMakeDepListBuildRun opts exec compilers deps
          ⟨fs, fsMax fs + 1, dirs, 0, 0, false⟩).st).st := by
    simp [flyMakeCmdBuild, hAll, hrdok]
  have hclk0 : ClkInv (⟨fs, fsMax fs + 1, dirs, 0, 0, false⟩ : BSt) :=
    clkInv_init fs dirs 0 0 false
  have hclkrd : ClkInv (flyMakeDepListBuildRun opts exec compilers deps
      ⟨fs, fsMax fs + 1, dirs, 0, 0, false⟩).st :=
    ((flyMakeDepListBuildRun_evW opts exec compilers deps
      ⟨fs, fsMax fs + 1, dirs, 0, 0, false⟩ (allWritePaths root deps)
      (fun d hd p hp f hf hfr => hWdep d hd p hp f hf hfr)).2.2 hclk0).1
  have hdeps := flyMakeDepListBuildRun_post opts exec compilers deps
    ⟨fs, fsMax fs + 1, dirs, 0, 0, false⟩ (allWritePaths root deps)
    (allSrcPaths root deps) hnb hclk0 hWdep hSdep hdis hrdok
  have hroot := fmkDepBuildProject_post opts exec compilers root
    (flyMakeDepListBuildRun opts exec compilers deps
      ⟨fs, fsMax fs + 1, dirs, 0, 0, false⟩).st (allWritePaths root deps)
    (allSrcPaths root deps) hnb hclkrd hWroot hSroot hdis hrpok
  have hEvp : EvW (allWritePaths root deps)
      (flyMakeDepListBuildRun opts exec compilers deps
        ⟨fs, fsMax fs + 1, dirs, 0, 0, false⟩).st
      (fmkDepBuildProject opts exec compilers root
        (flyMakeDepListBuildRun opts exec compilers deps
          ⟨fs, fsMax fs + 1, dirs, 0, 0, false⟩).st).st :=
    evW_mono (fun q hq => List.mem_append_left _ hq)
      (fmkDepBuildProject_evW opts exec compilers root _)
  refine ⟨?_, ?_, ?_⟩
  · rw [hstep]
    intro f hf hfr
    exact hroot f hf hfr
  · rw [hstep]
    intro d hd p' hp' f hf hfr
    refine folderReady_mono hEvp hclkrd (hdeps d hd p' hp' f hf hfr) ?_
    intro s hsf hsW
    exact absurd rfl (hdis s hsW s (hSdep d hd p' hp' f hf s hsf))
  · rw [hstep]
    exact (hEvp.2.2 hclkrd).1

/-- A quiet run: filesystem, clock, compile counter and library flag are
unchanged; only the source counter advances (the directory set is free). -/
abbrev QuietSt (st st' : BSt) (n : Nat) : Prop :=
  st'.fs = st.fs ∧ st'.clk = st.clk ∧ st'.nCompiled = st.nCompiled ∧
  st'.fLibCompiled = st.fLibCompiled ∧ st'.nSrcFiles = st.nSrcFiles + n

/-- A ready file is skipped: no command, only the source counter moves. -/
theorem fmkCompileFile_quiet (opts : FlyMakeOpts) (exec : Cmd → Int)
    (compilers : List FlyMakeCompiler) (incs provFolder szOutFolder f : Str)
    (st : BSt) (hrb : opts.fRebuild = false)
    (hready : FileReady compilers st.fs szOutFolder f) :
    fmkCompileFile opts exec compilers incs provFolder szOutFolder f st =
      ⟨1, { st with nSrcFiles := st.nSrcFiles + 1 }, []⟩ := by
  obtain ⟨hfind, ts, tob, hsrc, hobj, hle⟩ := hready
  rcases hfs : flyMakeCompilerFind compilers (flyStrPathExt f) with _ | pc
  · rw [hfs] at hfind
    exact absurd hfind (by simp)
  · simp [fmkCompileFile, hfs, hsrc, hobj, hrb, Nat.not_lt.mpr hle]

/-- A loop over ready files is quiet. -/
theorem fmkCompileFilesLoop_quiet (opts : FlyMakeOpts) (exec : Cmd → Int)
    (compilers : List FlyMakeCompiler) (incs provFolder szOutFolder : Str)
    (files : List Str) (st : BSt) (hrb : opts.fRebuild = false)
    (hready : ∀ a ∈ files, FileReady compilers st.fs szOutFolder a) :
    fmkCompileFilesLoop opts exec compilers incs provFolder szOutFolder files st =
      (true, { st with nSrcFiles := st.nSrcFiles + files.length }, [], 0) := by
  induction files generalizing st with
  | nil => simp [fmkCompileFilesLoop]
  | cons g rest ih =>
    rw [fmkCompileFilesLoop,
      fmkCompileFile_quiet opts exec compilers incs provFolder szOutFolder g st hrb
        (hready g (List.mem_cons_self g rest)),
      ih { st with nSrcFiles := st.nSrcFiles + 1 }
        (fun a ha => hready a (List.mem_cons_of_mem g ha))]
    simp [Nat.add_comm, Nat.add_assoc, Nat.add_left_comm]

/-- The tool-file loop over ready files is quiet. -/
theorem fmkToolFilesLoop_quiet (opts : FlyMakeOpts) (exec : Cmd → Int)
    (compilers : List FlyMakeCompiler) (incs provFolder szOutFolder : Str)
    (files : List Str) (st : BSt) (hrb : opts.fRebuild = false)
    (hready : ∀ a ∈ files, FileReady compilers st.fs szOutFolder a) :
    fmkToolFilesLoop opts exec compilers incs provFolder szOutFolder files st =
      (true, { st with nSrcFiles := st.nSrcFiles + files.length }, [], 0) := by
  induction files generalizing st with
  | nil => simp [fmkToolFilesLoop]
  | cons g rest ih =>
    rw [fmkToolFilesLoop,
      fmkCompileFile_quiet opts exec compilers incs provFolder szOutFolder g st hrb
        (hready g (List.mem_cons_self g rest))]
    simp only [ih { st with nSrcFiles := st.nSrcFiles + 1 }
      (fun a ha => hready a (List.mem_cons_of_mem g ha))]
    simp [Nat.add_comm, Nat.add_assoc, Nat.add_left_comm]

/-- Compiling a folder of ready files is quiet. -/
theorem fmkCompileFolder_quiet (opts : FlyMakeOpts) (exec : Cmd → Int)
    (compilers : List FlyMakeCompiler) (incs : Str) (folder : FmkFolder)
    (st : BSt) (hrb : opts.fRebuild = false)
    (hready : ∀ a ∈ folder.files, FileReady compilers st.fs (folder.path ++ cs "out/") a) :
    (fmkCompileFolder opts exec compilers incs folder st).ok = true ∧
    (fmkCompileFolder opts exec compilers incs folder st).cmds = [] ∧
    (fmkCompileFolder opts exec compilers incs folder st).n = 0 ∧
    QuietSt st (fmkCompileFolder opts exec compilers incs folder st).st
      folder.files.length := by
  revert hready
  rcases hfl : folder.files with _ | ⟨g, rest⟩
  · intro _
    simp [fmkCompileFolder, hfl]
    exact ⟨rfl, rfl, rfl, rfl, rfl⟩
  · intro hready
    have hcr := flyMakeFolderCreate_frame opts (folder.path ++ cs "out/") st
    simp only [fmkCompileFolder, hfl]
    rw [fmkCompileFilesLoop_quiet opts exec compilers incs folder.path
      (folder.path ++ cs "out/") (g :: rest)
      (flyMakeFolderCreate opts (folder.path ++ cs "out/") st).2 hrb
      (fun a ha => by rw [hcr.1]; exact hready a ha)]
    refine ⟨rfl, rfl, rfl, hcr.1, hcr.2.1, hcr.2.2.1, hcr.2.2.2.2, ?_⟩
    rw [hcr.2.2.2.1]

/-- Building a ready library folder is quiet: nothing to archive. -/
theorem flyMakeBuildLib_quiet (opts : FlyMakeOpts) (exec : Cmd → Int)
    (compilers : List FlyMakeCompiler) (szProjName incs : Str)
    (folder : FmkFolder) (st : BSt) (hrb : opts.fRebuild = false)
    (hready : FolderReady compilers szProjName st.fs folder)
    (hr : folder.rule = FmkRule.lib) :
    (flyMakeBuildLib opts exec compilers szProjName incs folder st).ok = true ∧
    (flyMakeBuildLib opts exec compilers szProjName incs folder st).cmds = [] ∧
    QuietSt st (flyMakeBuildLib opts exec compilers szProjName incs folder st).st
      folder.files.length := by
  obtain ⟨hok, hcmds, hn, hq⟩ :=
    fmkCompileFolder_quiet opts exec compilers incs folder st hrb hready.1
  have hart : (fsGet st.fs (flyMakeFolderAllocLibName szProjName folder.path)).isSome
      = true := by
    have h2 := hready.2
    rw [hr] at h2
    exact h2
  obtain ⟨t, ht⟩ := Option.isSome_iff_exists.mp hart
  have hiso : fsGet (fmkCompileFolder opts exec compilers incs folder st).st.fs
      (flyMakeFolderAllocLibName szProjName folder.path) = some t := by
    rw [hq.1]
    exact ht
  simp [flyMakeBuildLib, hok, hcmds, hiso, hn]
  exact ⟨hq.1, hq.2.1, hq.2.2.1, hq.2.2.2.1, hq.2.2.2.2⟩

/-- Building a ready src folder is quiet: nothing forces the link. -/
theorem flyMakeBuildSrc_quiet (opts : FlyMakeOpts) (exec : Cmd → Int)
    (compilers : List FlyMakeCompiler) (szProjName incs libs : Str)
    (folder : FmkFolder) (st : BSt)
    (hrb : opts.fRebuild = false) (hlib : st.fLibCompiled = false)
    (hready : FolderReady compilers szProjName st.fs folder)
    (hr : folder.rule = FmkRule.src) :
    (flyMakeBuildSrc opts exec compilers szProjName incs libs folder st).ok = true ∧
    (flyMakeBuildSrc opts exec compilers szProjName incs libs folder st).cmds = [] ∧
    QuietSt st (flyMakeBuildSrc opts exec compilers szProjName incs libs folder st).st
      folder.files.length := by
  obtain ⟨hok, hcmds, hn, hq⟩ :=
    fmkCompileFolder_quiet opts exec compilers incs folder st hrb hready.1
  have hflc : (fmkCompileFolder opts exec compilers incs folder st).st.fLibCompiled
      = false := by
    rw [hq.2.2.2.1, hlib]
  by_cases hext : (fmkCompileFolder opts exec compilers incs folder st).ext = []
  · simp [flyMakeBuildSrc, hok, hcmds, hext, hflc, hn]
    exact ⟨hq.1, hq.2.1, hq.2.2.1, hq.2.2.2.1, hq.2.2.2.2⟩
  · obtain ⟨g, rest, hfl⟩ : ∃ g rest, folder.files = g :: rest := by
      rcases hfle : folder.files with _ | ⟨g, rest⟩
      · rw [fmkCompileFolder_ext, hfle] at hext
        simp at hext
      · exact ⟨g, rest, rfl⟩
    have hextg : (fmkCompileFolder opts exec compilers incs folder st).ext
        = flyStrPathExt g := by
      rw [fmkCompileFolder_ext, hfl]
    have hgext : flyStrPathExt g ≠ [] := by
      rw [← hextg]
      exact hext
    have hart : (fsGet st.fs (flyMakeFolderAllocSrcName szProjName folder.path)).isSome
        = true := by
      have h2 := hready.2
      rw [hr] at h2
      exact h2 g (by rw [hfl]; simp) hgext
    obtain ⟨t, ht⟩ := Option.isSome_iff_exists.mp hart
    have hiso : fsGet (fmkCompileFolder opts exec compilers incs folder st).st.fs
        (flyMakeFolderAllocSrcName szProjName folder.path) = some t := by
      rw [hq.1]
      exact ht
    simp [flyMakeBuildSrc, hok, hcmds, hext, hflc, hn, hiso, hrb]
    exact ⟨hq.1, hq.2.1, hq.2.2.1, hq.2.2.2.1, hq.2.2.2.2⟩

/-- Building a ready tool is quiet: the executable is present and no object
was rebuilt, so the link is skipped. -/
theorem fmkToolCompile_quiet (opts : FlyMakeOpts) (exec : Cmd → Int)
    (compilers : List FlyMakeCompiler) (incs libs provFolder szOutFolder : Str)
    (pTool : FmkTool) (st : BSt) (hrb : opts.fRebuild = false)
    (hready : ∀ a ∈ pTool.aszSrcFiles, FileReady compilers st.fs szOutFolder a)
    (hne : pTool.aszSrcFiles ≠ [])
    (hout : (fsGet st.fs (fmkToolOutName pTool)).isSome = true) :
    fmkToolCompile opts exec compilers incs libs provFolder szOutFolder pTool st =
      ⟨1, { st with nSrcFiles := st.nSrcFiles + pTool.aszSrcFiles.length }, []⟩ := by
  obtain ⟨g, rest, hfl⟩ : ∃ g rest, pTool.aszSrcFiles = g :: rest := by
    rcases hfle : pTool.aszSrcFiles with _ | ⟨g, rest⟩
    · exact absurd hfle hne
    · exact ⟨g, rest, rfl⟩
  have hloop := fmkToolFilesLoop_quiet opts exec compilers incs provFolder szOutFolder
    pTool.aszSrcFiles st hrb hready
  have hfind : (flyMakeCompilerFind compilers (flyStrPathExt g)).isSome = true :=
    (hready g (by rw [hfl]; simp)).1
  obtain ⟨pc, hpc⟩ := Option.isSome_iff_exists.mp hfind
  obtain ⟨t, ht⟩ := Option.isSome_iff_exists.mp hout
  simp only [fmkToolCompile, hloop]
  rw [hfl]
  simp [hpc, ht, hrb]

theorem flyMakeToolListNew_ne_nil_aux (n : Nat) : ∀ l : List (Str × Bool),
    (unusedOf l).length ≤ n →
    ∀ t ∈ flyMakeToolListNew l, t.aszSrcFiles ≠ [] := by
  induction n with
  | zero =>
    intro l hl t ht
    have hempty : unusedOf l = [] := List.eq_nil_of_length_eq_zero (Nat.le_zero.mp hl)
    have hnone : List.find? (fun p => !p.2) l = none := by
      apply List.find?_eq_none.mpr
      intro p hp
      have := List.filterMap_eq_nil_iff.mp hempty p hp
      cases hpb : p.2 with
      | true => simp [hpb]
      | false => rw [hpb] at this; simp at this
    rw [flyMakeToolListNew_of_find_none hnone] at ht
    cases ht
  | succ n ih =>
    intro l hl t ht
    cases hfind : List.find? (fun p => !p.2) l with
    | none =>
      rw [flyMakeToolListNew_of_find_none hfind] at ht
      cases ht
    | some p =>
      rw [flyMakeToolListNew_of_find_some hfind] at ht
      rcases List.mem_cons.mp ht with rfl | htail
      · have hmem : p.1 ∈
            (fmkToolClaim (p.1.take (fmkStemLen p.1)) (fmkStemLen p.1) l).1 := by
          rw [fmkToolClaim_claimed]
          refine List.mem_filter.mpr ⟨?_, by simp⟩
          exact List.mem_filterMap.mpr ⟨p, List.mem_of_find?_eq_some hfind,
            by simp [show p.2 = false from by simpa using List.find?_some hfind]⟩
        exact List.ne_nil_of_mem hmem
      · have hlt := fmkToolClaim_shrinks l p (List.mem_of_find?_eq_some hfind)
          (by simpa using List.find?_some hfind)
        exact ih (fmkToolClaim (p.1.take (fmkStemLen p.1)) (fmkStemLen p.1) l).2
          (by omega) t htail

/-- Every allocated tool claims at least its founding file. -/
theorem flyMakeToolListNew_files_ne_nil (l : List (Str × Bool)) :
    ∀ t ∈ flyMakeToolListNew l, t.aszSrcFiles ≠ [] :=
  flyMakeToolListNew_ne_nil_aux (unusedOf l).length l (Nat.le_refl _)

/-- A loop over ready tools is quiet. -/
theorem fmkToolsLoop_quiet (opts : FlyMakeOpts) (exec : Cmd → Int)
    (compilers : List FlyMakeCompiler) (incs libs provFolder szOutFolder : Str)
    (tools : List FmkTool) (st : BSt) (hrb : opts.fRebuild = false)
    (hready : ∀ t ∈ tools,
      (∀ a ∈ t.aszSrcFiles, FileReady compilers st.fs szOutFolder a) ∧
      t.aszSrcFiles ≠ [] ∧ (fsGet st.fs (fmkToolOutName t)).isSome = true) :
    fmkToolsLoop opts exec compilers incs libs provFolder szOutFolder tools st =
      ⟨true, { st with nSrcFiles := st.nSrcFiles +
        (tools.map (fun t => t.aszSrcFiles.length)).sum }, []⟩ := by
  induction tools generalizing st with
  | nil => simp [fmkToolsLoop]
  | cons t rest ih =>
    obtain ⟨h1, h2, h3⟩ := hready t (List.mem_cons_self t rest)
    rw [fmkToolsLoop, fmkToolCompile_quiet opts exec compilers incs libs provFolder
      szOutFolder t st hrb h1 h2 h3]
    simp only [ih { st with nSrcFiles := st.nSrcFiles + t.aszSrcFiles.length }
      (fun u hu => hready u (List.mem_cons_of_mem t hu))]
    simp [Nat.add_comm, Nat.add_assoc, Nat.add_left_comm]

/-- Building a ready tool folder is quiet. -/
theorem flyMakeBuildTools_quiet (opts : FlyMakeOpts) (exec : Cmd → Int)
    (compilers : List FlyMakeCompiler) (incs libs : Str) (folder : FmkFolder)
    (st : BSt) (hrb : opts.fRebuild = false)
    (hfiles : ∀ a ∈ folder.files, FileReady compilers st.fs (folder.path ++ cs "out/") a)
    (htool : ∀ t ∈ flyMakeToolListNew (folder.files.map (fun s => (s, false))),
      (fsGet st.fs (fmkToolOutName t)).isSome = true) :
    (flyMakeBuildTools opts exec compilers incs libs folder st).ok = true ∧
    (flyMakeBuildTools opts exec compilers incs libs folder st).cmds = [] ∧
    QuietSt st (flyMakeBuildTools opts exec compilers incs libs folder st).st
      folder.files.length := by
  have hperm := flyMakeToolListNew_flatten_perm (folder.files.map (fun s => (s, false)))
  rw [unusedOf_fresh] at hperm
  have hsum : ((flyMakeToolListNew (folder.files.map (fun s => (s, false)))).map
      (fun t => t.aszSrcFiles.length)).sum = folder.files.length := by
    have hlen := hperm.length_eq
    rw [List.length_flatten, List.map_map] at hlen
    simpa [Function.comp] using hlen
  have hsubf := toolFiles_sub folder.files
  have hnil := flyMakeToolListNew_files_ne_nil (folder.files.map (fun s => (s, false)))
  revert htool
  rcases htl : flyMakeToolListNew (folder.files.map (fun s => (s, false)))
    with _ | ⟨t, ts⟩
  · intro _
    simp only [flyMakeBuildTools, htl]
    rw [htl] at hsum
    simp only [List.map_nil, List.sum_nil] at hsum
    refine ⟨?_, ?_, ?_, ?_, ?_, ?_, ?_⟩ <;> first | trivial | omega
  · intro htool
    rw [htl] at hsubf hnil
    have hcr := flyMakeFolderCreate_frame opts (folder.path ++ cs "out/") st
    simp only [flyMakeBuildTools, htl]
    rw [fmkToolsLoop_quiet opts exec compilers incs libs folder.path
      (folder.path ++ cs "out/") (t :: ts)
      (flyMakeFolderCreate opts (folder.path ++ cs "out/") st).2 hrb
      (fun u hu => ⟨fun a ha => by
          rw [hcr.1]; exact hfiles a (hsubf u hu a ha),
        hnil u hu, by rw [hcr.1]; exact htool u hu⟩)]
    rw [htl] at hsum
    refine ⟨rfl, rfl, hcr.1, hcr.2.1, hcr.2.2.1, hcr.2.2.2.2, ?_⟩
    rw [hcr.2.2.2.1, hsum]

theorem quietSt_trans {st st' st'' : BSt} {n m : Nat} (h1 : QuietSt st st' n)
    (h2 : QuietSt st' st'' m) : QuietSt st st'' (n + m) :=
  ⟨h2.1.trans h1.1, h2.2.1.trans h1.2.1, h2.2.2.1.trans h1.2.2.1,
   h2.2.2.2.1.trans h1.2.2.2.1,
   by rw [h2.2.2.2.2, h1.2.2.2.2, Nat.add_assoc]⟩

/-- Sources a folder contributes to the library pass. -/
def libFolderCount (f : FmkFolder) : Nat :=
  if f.rule = FmkRule.lib then f.files.length else 0

/-- Sources a folder contributes to the program/tool pass. -/
def progFolderCount (f : FmkFolder) : Nat :=
  match f.rule with
  | FmkRule.src => f.files.length
  | FmkRule.tool => f.files.length
  | _ => 0

/-- Sources a folder contributes to a whole project build. -/
def folderSrcCount (f : FmkFolder) : Nat :=
  match f.rule with
  | FmkRule.proj => 0
  | _ => f.files.length

theorem count_split (folders : List FmkFolder) :
    (folders.map libFolderCount).sum + (folders.map progFolderCount).sum =
      (folders.map folderSrcCount).sum := by
  induction folders with
  | nil => rfl
  | cons f rest ih =>
    simp only [List.map_cons, List.sum_cons]
    cases hr : f.rule <;>
      simp [libFolderCount, progFolderCount, folderSrcCount, hr] <;> omega

/-- The library pass over ready folders is quiet. -/
theorem flyMakeBuildLibs_quiet (opts : FlyMakeOpts) (exec : Cmd → Int)
    (compilers : List FlyMakeCompiler) (szProjName incs : Str)
    (folders : List FmkFolder) (st : BSt) (hrb : opts.fRebuild = false)
    (hready : ∀ f ∈ folders, f.rule = FmkRule.lib →
      FolderReady compilers szProjName st.fs f) :
    (flyMakeBuildLibs opts exec compilers szProjName incs folders st).ok = true ∧
    (flyMakeBuildLibs opts exec compilers szProjName incs folders st).cmds = [] ∧
    QuietSt st (flyMakeBuildLibs opts exec compilers szProjName incs folders st).st
      (folders.map libFolderCount).sum := by
  induction folders generalizing st with
  | nil => exact ⟨rfl, rfl, rfl, rfl, rfl, rfl, rfl⟩
  | cons f rest ih =>
    by_cases hr : f.rule = FmkRule.lib
    · obtain ⟨hok, hcmds, hq⟩ := flyMakeBuildLib_quiet opts exec compilers szProjName
        incs f st hrb (hready f (List.mem_cons_self f rest) hr) hr
      obtain ⟨hok2, hcmds2, hq2⟩ := ih
        (flyMakeBuildLib opts exec compilers szProjName incs f st).st
        (fun g hg hgr => by
          rw [hq.1]
          exact hready g (List.mem_cons_of_mem f hg) hgr)
      have hstep : flyMakeBuildLibs opts exec compilers szProjName incs (f :: rest) st =
          ⟨(flyMakeBuildLibs opts exec compilers szProjName incs rest
              (flyMakeBuildLib opts exec compilers szProjName incs f st).st).ok,
           (flyMakeBuildLibs opts exec compilers szProjName incs rest
              (flyMakeBuildLib opts exec compilers szProjName incs f st).st).st,
           (flyMakeBuildLib opts exec compilers szProjName incs f st).cmds ++
           (flyMakeBuildLibs opts exec compilers szProjName incs rest
              (flyMakeBuildLib opts exec compilers szProjName incs f st).st).cmds⟩ := by
        simp [flyMakeBuildLibs, hr, hok]
      rw [hstep]
      refine ⟨hok2, by rw [hcmds, hcmds2]; rfl, ?_⟩
      simp only [List.map_cons, List.sum_cons, libFolderCount, if_pos hr]
      exact quietSt_trans hq hq2
    · obtain ⟨hok2, hcmds2, hq2⟩ := ih st
        (fun g hg hgr => hready g (List.mem_cons_of_mem f hg) hgr)
      have hstep : flyMakeBuildLibs opts exec compilers szProjName incs (f :: rest) st =
          flyMakeBuildLibs opts exec compilers szProjName incs rest st := by
        simp [flyMakeBuildLibs, hr]
      rw [hstep]
      refine ⟨hok2, hcmds2, ?_⟩
      simp only [List.map_cons, List.sum_cons, libFolderCount, if_neg hr, Nat.zero_add]
      exact hq2

/-- The program/tool pass over ready folders is quiet. -/
theorem fmkDepProgsLoop_quiet (opts : FlyMakeOpts) (exec : Cmd → Int)
    (compilers : List FlyMakeCompiler) (szProjName incs libs : Str)
    (folders : List FmkFolder) (st : BSt) (hrb : opts.fRebuild = false)
    (hlib : st.fLibCompiled = false)
    (hready : ∀ f ∈ folders, ¬ f.rule = FmkRule.proj →
      FolderReady compilers szProjName st.fs f) :
    (fmkDepProgsLoop opts exec compilers szProjName incs libs folders st).ok = true ∧
    (fmkDepProgsLoop opts exec compilers szProjName incs libs folders st).cmds = [] ∧
    QuietSt st (fmkDepProgsLoop opts exec compilers szProjName incs libs folders st).st
      (folders.map progFolderCount).sum := by
  induction folders generalizing st with
  | nil => exact ⟨rfl, rfl, rfl, rfl, rfl, rfl, rfl⟩
  | cons f rest ih =>
    cases hr : f.rule with
    | src =>
      obtain ⟨hok, hcmds, hq⟩ := flyMakeBuildSrc_quiet opts exec compilers szProjName
        incs libs f st hrb hlib
        (hready f (List.mem_cons_self f rest) (by rw [hr]; simp)) hr
      obtain ⟨hok2, hcmds2, hq2⟩ := ih
        (flyMakeBuildSrc opts exec compilers szProjName incs libs f st).st
        (by rw [hq.2.2.2.1]; exact hlib)
        (fun g hg hgr => by
          rw [hq.1]
          exact hready g (List.mem_cons_of_mem f hg) hgr)
      have hstep : fmkDepProgsLoop opts exec compilers szProjName incs libs
            (f :: rest) st =
          ⟨(fmkDepProgsLoop opts exec compilers szProjName incs libs rest
              (flyMakeBuildSrc opts exec compilers szProjName incs libs f st).st).ok,
           (fmkDepProgsLoop opts exec compilers szProjName incs libs rest
              (flyMakeBuildSrc opts exec compilers szProjName incs libs f st).st).st,
           (flyMakeBuildSrc opts exec compilers szProjName incs libs f st).cmds ++
           (fmkDepProgsLoop opts exec compilers szProjName incs libs rest
              (flyMakeBuildSrc opts exec compilers szProjName incs libs f st).st).cmds⟩ := by
        simp [fmkDepProgsLoop, hr, hok]
      rw [hstep]
      refine ⟨hok2, by rw [hcmds, hcmds2]; rfl, ?_⟩
      have hcnt : progFolderCount f = f.files.length := by
        simp [progFolderCount, hr]
      simp only [List.map_cons, List.sum_cons, hcnt]
      exact quietSt_trans hq hq2
    | tool =>
      have hfr := hready f (List.mem_cons_self f rest) (by rw [hr]; simp)
      have htl : ∀ t ∈ flyMakeToolListNew (f.files.map (fun s => (s, false))),
          (fsGet st.fs (fmkToolOutName t)).isSome = true := by
        have h2 := hfr.2
        rw [hr] at h2
        exact h2
      obtain ⟨hok, hcmds, hq⟩ := flyMakeBuildTools_quiet opts exec compilers
        incs libs f st hrb hfr.1 htl
      obtain ⟨hok2, hcmds2, hq2⟩ := ih
        (flyMakeBuildTools opts exec compilers incs libs f st).st
        (by rw [hq.2.2.2.1]; exact hlib)
        (fun g hg hgr => by
          rw [hq.1]
          exact hready g (List.mem_cons_of_mem f hg) hgr)
      have hstep : fmkDepProgsLoop opts exec compilers szProjName incs libs
            (f :: rest) st =
          ⟨(fmkDepProgsLoop opts exec compilers szProjName incs libs rest
              (flyMakeBuildTools opts exec compilers incs libs f st).st).ok,
           (fmkDepProgsLoop opts exec compilers szProjName incs libs rest
              (flyMakeBuildTools opts exec compilers incs libs f st).st).st,
           (flyMakeBuildTools opts exec compilers incs libs f st).cmds ++
           (fmkDepProgsLoop opts exec compilers szProjName incs libs rest
              (flyMakeBuildTools opts exec compilers incs libs f st).st).cmds⟩ := by
        simp [fmkDepProgsLoop, hr, hok]
      rw [hstep]
      refine ⟨hok2, by rw [hcmds, hcmds2]; rfl, ?_⟩
      have hcnt : progFolderCount f = f.files.length := by
        simp [progFolderCount, hr]
      simp only [List.map_cons, List.sum_cons, hcnt]
      exact quietSt_trans hq hq2
    | lib =>
      obtain ⟨hok2, hcmds2, hq2⟩ := ih st hlib
        (fun g hg hgr => hready g (List.mem_cons_of_mem f hg) hgr)
      have hstep : fmkDepProgsLoop opts exec compilers szProjName incs libs
            (f :: rest) st =
          fmkDepProgsLoop opts exec compilers szProjName incs libs rest st := by
        simp [fmkDepProgsLoop, hr]
      rw [hstep]
      refine ⟨hok2, hcmds2, ?_⟩
      have hcnt : progFolderCount f = 0 := by
        simp [progFolderCount, hr]
      simp only [List.map_cons, List.sum_cons, hcnt, Nat.zero_add]
      exact hq2
    | proj =>
      obtain ⟨hok2, hcmds2, hq2⟩ := ih st hlib
        (fun g hg hgr => hready g (List.mem_cons_of_mem f hg) hgr)
      have hstep : fmkDepProgsLoop opts exec compilers szProjName incs libs
            (f :: rest) st =
          fmkDepProgsLoop opts exec compilers szProjName incs libs rest st := by
        simp [fmkDepProgsLoop, hr]
      rw [hstep]
      refine ⟨hok2, hcmds2, ?_⟩
      have hcnt : progFolderCount f = 0 := by
        simp [progFolderCount, hr]
      simp only [List.map_cons, List.sum_cons, hcnt, Nat.zero_add]
      exact hq2

/-- Building a ready project is quiet. -/
theorem fmkDepBuildProject_quiet (opts : FlyMakeOpts) (exec : Cmd → Int)
    (compilers : List FlyMakeCompiler) (p : FmkProject) (st : BSt)
    (hrb : opts.fRebuild = false) (hlib : st.fLibCompiled = false)
    (hready : ∀ f ∈ p.folders, ¬ f.rule = FmkRule.proj →
      FolderReady compilers p.szProjName st.fs f) :
    (fmkDepBuildProject opts exec compilers p st).ok = true ∧
    (fmkDepBuildProject opts exec compilers p st).cmds = [] ∧
    QuietSt st (fmkDepBuildProject opts exec compilers p st).st
      (p.folders.map folderSrcCount).sum := by
  obtain ⟨hok1, hcmds1, hq1⟩ := flyMakeBuildLibs_quiet opts exec compilers p.szProjName
    p.incs p.folders st hrb
    (fun f hf hr => hready f hf (by rw [hr]; simp))
  obtain ⟨hok2, hcmds2, hq2⟩ := fmkDepProgsLoop_quiet opts exec compilers p.szProjName
    p.incs p.libs p.folders
    (flyMakeBuildLibs opts exec compilers p.szProjName p.incs p.folders st).st hrb
    (by rw [hq1.2.2.2.1]; exact hlib)
    (fun g hg hgr => by
      rw [hq1.1]
      exact hready g hg hgr)
  have hstep : fmkDepBuildProject opts exec compilers p st =
      ⟨(fmkDepProgsLoop opts exec compilers p.szProjName p.incs p.libs p.folders
          (flyMakeBuildLibs opts exec compilers p.szProjName p.incs p.folders st).st).ok,
       (fmkDepProgsLoop opts exec compilers p.szProjName p.incs p.libs p.folders
          (flyMakeBuildLibs opts exec compilers p.szProjName p.incs p.folders st).st).st,
       (flyMakeBuildLibs opts exec compilers p.szProjName p.incs p.folders st).cmds ++
       (fmkDepProgsLoop opts exec compilers p.szProjName p.incs p.libs p.folders
          (flyMakeBuildLibs opts exec compilers p.szProjName p.incs p.folders st).st).cmds⟩ := by
    simp [fmkDepBuildProject, hok1]
  rw [hstep]
  refine ⟨hok2, by rw [hcmds1, hcmds2]; rfl, ?_⟩
  rw [← count_split p.folders]
  exact quietSt_trans hq1 hq2

/-- The dependency pass over ready dependency libraries is quiet: no library
is archived, so no compile counter or library flag moves in the parent. -/
theorem flyMakeDepListBuildRun_quiet (opts : FlyMakeOpts) (exec : Cmd → Int)
    (compilers : List FlyMakeCompiler) (deps : List FmkDepProj) (st : BSt)
    (hAll : opts.fAll = false)
    (hready : ∀ d ∈ deps, ∀ p, d.sub = some p → ∀ f ∈ p.folders,
      f.rule = FmkRule.lib → FolderReady compilers p.szProjName st.fs f) :
    (flyMakeDepListBuildRun opts exec compilers deps st).ok = true ∧
    (flyMakeDepListBuildRun opts exec compilers deps st).cmds = [] ∧
    QuietSt st (flyMakeDepListBuildRun opts exec compilers deps st).st 0 := by
  induction deps generalizing st with
  | nil => exact ⟨rfl, rfl, rfl, rfl, rfl, rfl, rfl⟩
  | cons d rest ih =>
    cases hsub : d.sub with
    | none =>
      have hres := ih st
        (fun d' hd' p' hp' f hf hr => hready d' (List.mem_cons_of_mem d hd') p' hp' f hf hr)
      simp only [flyMakeDepListBuildRun, hsub]
      exact hres
    | some p =>
      obtain ⟨hok1, hcmds1, hfs1, hclk1, hnc1, hflb1, hns1⟩ :=
        flyMakeBuildLibs_quiet { opts with fRebuild := opts.fAll } exec compilers
          p.szProjName p.incs p.folders ⟨st.fs, st.clk, st.dirs, 0, 0, false⟩
          (by simp [hAll])
          (fun f hf hr => hready d (List.mem_cons_self d rest) p hsub f hf hr)
      have key : ∀ st1 : BSt, st1.fs = st.fs → st1.clk = st.clk →
          st1.nCompiled = st.nCompiled → st1.fLibCompiled = st.fLibCompiled →
          st1.nSrcFiles = st.nSrcFiles →
          (flyMakeDepListBuildRun opts exec compilers rest st1).ok = true ∧
          (flyMakeDepListBuildRun opts exec compilers rest st1).cmds = [] ∧
          QuietSt st (flyMakeDepListBuildRun opts exec compilers rest st1).st 0 := by
        intro st1 h1 h2 h3 h4 h5
        have hres := ih st1 (fun d' hd' p' hp' f hf hr => by
          rw [h1]
          exact hready d' (List.mem_cons_of_mem d hd') p' hp' f hf hr)
        obtain ⟨g1, g2, g3, g4, g5⟩ := hres.2.2
        exact ⟨hres.1, hres.2.1, g1.trans h1, g2.trans h2, g3.trans h3, g4.trans h4,
          by rw [g5, h5]⟩
      obtain ⟨k1, k2, k3⟩ := key
        ⟨(flyMakeBuildLibs { opts with fRebuild := opts.fAll } exec compilers
            p.szProjName p.incs p.folders ⟨st.fs, st.clk, st.dirs, 0, 0, false⟩).st.fs,
         (flyMakeBuildLibs { opts with fRebuild := opts.fAll } exec compilers
            p.szProjName p.incs p.folders ⟨st.fs, st.clk, st.dirs, 0, 0, false⟩).st.clk,
         (flyMakeBuildLibs { opts with fRebuild := opts.fAll } exec compilers
            p.szProjName p.incs p.folders ⟨st.fs, st.clk, st.dirs, 0, 0, false⟩).st.dirs,
         st.nCompiled + (if (flyMakeBuildLibs { opts with fRebuild := opts.fAll } exec
            compilers p.szProjName p.incs p.folders
            ⟨st.fs, st.clk, st.dirs, 0, 0, false⟩).st.fLibCompiled then 1 else 0),
         st.nSrcFiles,
         st.fLibCompiled || (flyMakeBuildLibs { opts with fRebuild := opts.fAll } exec
            compilers p.szProjName p.incs p.folders
            ⟨st.fs, st.clk, st.dirs, 0, 0, false⟩).st.fLibCompiled⟩
        hfs1 hclk1 (by simp [hflb1]) (by simp [hflb1]) rfl
      simp only [flyMakeDepListBuildRun, hsub]
      rw [if_neg (fun hh => hh hok1)]
      exact ⟨k1, by rw [hcmds1, k2]; rfl, k3⟩

/-- A whole build over a ready tree issues nothing and reports up to date. -/
theorem flyMakeCmdBuild_quiet (opts : FlyMakeOpts) (exec : Cmd → Int)
    (compilers : List FlyMakeCompiler) (root : FmkProject) (deps : List FmkDepProj)
    (fs1 : Fs) (dirs1 : List Str)
    (hAll : opts.fAll = false) (hRb : opts.fRebuild = false)
    (hreadyD : ∀ d ∈ deps, ∀ p, d.sub = some p → ∀ f ∈ p.folders,
      f.rule = FmkRule.lib → FolderReady compilers p.szProjName fs1 f)
    (hreadyR : ∀ f ∈ root.folders, ¬ f.rule = FmkRule.proj →
      FolderReady compilers root.szProjName fs1 f)
    (hsrc : ∃ f ∈ root.folders, ¬ f.rule = FmkRule.proj ∧ f.files ≠ []) :
    (flyMakeCmdBuild opts exec compilers root deps fs1 dirs1).cmds = [] ∧
    (flyMakeCmdBuild opts exec compilers root deps fs1 dirs1).err = false ∧
    (flyMakeCmdBuild opts exec compilers root deps fs1 dirs1).msg = BuildMsg.upToDate ∧
    (flyMakeCmdBuild opts exec compilers root deps fs1 dirs1).st.fs = fs1 := by
  obtain ⟨hdok, hdcmds, hdq⟩ := flyMakeDepListBuildRun_quiet opts exec compilers deps
    ⟨fs1, fsMax fs1 + 1, dirs1, 0, 0, false⟩ hAll
    (fun d hd p hp f hf hr => hreadyD d hd p hp f hf hr)
  obtain ⟨hpok, hpcmds, hpq⟩ := fmkDepBuildProject_quiet opts exec compilers root
    (flyMakeDepListBuildRun opts exec compilers deps
      ⟨fs1, fsMax fs1 + 1, dirs1, 0, 0, false⟩).st hRb
    (by rw [hdq.2.2.2.1])
    (fun f hf hr => by
      rw [hdq.1]
      exact hreadyR f hf hr)
  have hns : (fmkDepBuildProject opts exec compilers root
      (flyMakeDepListBuildRun opts exec compilers deps
        ⟨fs1, fsMax fs1 + 1, dirs1, 0, 0, false⟩).st).st.nSrcFiles =
      (root.folders.map folderSrcCount).sum := by
    rw [hpq.2.2.2.2, hdq.2.2.2.2]
    simp
  have hnc : (fmkDepBuildProject opts exec compilers root
      (flyMakeDepListBuildRun opts exec compilers deps
        ⟨fs1, fsMax fs1 + 1, dirs1, 0, 0, false⟩).st).st.nCompiled = 0 := by
    rw [hpq.2.2.1, hdq.2.2.1]
  have hfs : (fmkDepBuildProject opts exec compilers root
      (flyMakeDepListBuildRun opts exec compilers deps
        ⟨fs1, fsMax fs1 + 1, dirs1, 0, 0, false⟩).st).st.fs = fs1 := by
    rw [hpq.1, hdq.1]
  have hpos : (root.folders.map folderSrcCount).sum ≠ 0 := by
    obtain ⟨f, hf, hrp, hfne⟩ := hsrc
    have hmem : folderSrcCount f ∈ root.folders.map folderSrcCount :=
      List.mem_map_of_mem _ hf
    have hle := List.single_le_sum (fun x _ => Nat.zero_le x) _ hmem
    have hfpos : 0 < folderSrcCount f := by
      cases hr : f.rule
      all_goals first
        | exact absurd hr hrp
        | (simp [folderSrcCount, hr]
           exact List.length_pos.mpr hfne)
    omega
  refine ⟨?_, ?_, ?_, ?_⟩ <;>
    simp [flyMakeCmdBuild, hAll, hdok, hdcmds, hpok, hpcmds, hns, hnc, hfs, hpos]

/-- C7: running `build` twice in succession with no intervening source
changes and no force-rebuild option (neither `--all` nor `--rebuild`, not a
dry run, a first run that succeeded over a project whose output paths avoid
its source paths and that holds at least one buildable folder with sources),
the second run issues no compile, archive or link command, finishes without
error, reports that everything is up to date, and leaves the filesystem
unchanged. -/
theorem flyMakeCmdBuild_idempotent (opts : FlyMakeOpts) (exec : Cmd → Int)
    (compilers : List FlyMakeCompiler) (root : FmkProject) (deps : List FmkDepProj)
    (fs : Fs) (dirs : List Str)
    (hAll : opts.fAll = false) (hRb : opts.fRebuild = false)
    (hNb : opts.fNoBuild = false) (hdisj : SrcOutDisjoint root deps)
    (hsrc : ∃ f ∈ root.folders, ¬ f.rule = FmkRule.proj ∧ f.files ≠ [])
    (herr : (flyMakeCmdBuild opts exec compilers root deps fs dirs).err = false) :
    (flyMakeCmdBuild opts exec compilers root deps
       (flyMakeCmdBuild opts exec compilers root deps fs dirs).st.fs
       (flyMakeCmdBuild opts exec compilers root deps fs dirs).st.dirs).cmds = [] ∧
    (flyMakeCmdBuild opts exec compilers root deps
       (flyMakeCmdBuild opts exec compilers root deps fs dirs).st.fs
       (flyMakeCmdBuild opts exec compilers root deps fs dirs).st.dirs).err = false ∧
    (flyMakeCmdBuild opts exec compilers root deps
       (flyMakeCmdBuild opts exec compilers root deps fs dirs).st.fs
       (flyMakeCmdBuild opts exec compilers root deps fs dirs).st.dirs).msg =
      BuildMsg.upToDate ∧
    (flyMakeCmdBuild opts exec compilers root deps
       (flyMakeCmdBuild opts exec compilers root deps fs dirs).st.fs
       (flyMakeCmdBuild opts exec compilers root deps fs dirs).st.dirs).st.fs =
      (flyMakeCmdBuild opts exec compilers root deps fs dirs).st.fs := by
  have hpost := flyMakeCmdBuild_post opts exec compilers root deps fs dirs
    hAll hNb hdisj herr
  exact flyMakeCmdBuild_quiet opts exec compilers root deps
    (flyMakeCmdBuild opts exec compilers root deps fs dirs).st.fs
    (flyMakeCmdBuild opts exec compilers root deps fs dirs).st.dirs
    hAll hRb hpost.2.1 hpost.1 hsrc

/-- Witness for C7: one library folder with one C source, all child processes
succeeding; the first run succeeds, and the second run over the first run's
filesystem issues nothing and reports up to date. -/
theorem flyMakeCmdBuild_idempotent_witness :
    (flyMakeCmdBuild ({} : FlyMakeOpts) (fun _ => 0) flyMakeCompilerListDefault
        ⟨cs "hello", [⟨cs "lib/", FmkRule.lib, [cs "lib/a.c"]⟩], cs ". ", cs " "⟩
        [] [(cs "lib/a.c", 5)] []).err = false ∧
    (flyMakeCmdBuild ({} : FlyMakeOpts) (fun _ => 0) flyMakeCompilerListDefault
        ⟨cs "hello", [⟨cs "lib/", FmkRule.lib, [cs "lib/a.c"]⟩], cs ". ", cs " "⟩ []
        (flyMakeCmdBuild ({} : FlyMakeOpts) (fun _ => 0) flyMakeCompilerListDefault
          ⟨cs "hello", [⟨cs "lib/", FmkRule.lib, [cs "lib/a.c"]⟩], cs ". ", cs " "⟩
          [] [(cs "lib/a.c", 5)] []).st.fs
        (flyMakeCmdBuild ({} : FlyMakeOpts) (fun _ => 0) flyMakeCompilerListDefault
          ⟨cs "hello", [⟨cs "lib/", FmkRule.lib, [cs "lib/a.c"]⟩], cs ". ", cs " "⟩
          [] [(cs "lib/a.c", 5)] []).st.dirs).cmds = [] ∧
    (flyMakeCmdBuild ({} : FlyMakeOpts) (fun _ => 0) flyMakeCompilerListDefault
        ⟨cs "hello", [⟨cs "lib/", FmkRule.lib, [cs "lib/a.c"]⟩], cs ". ", cs " "⟩ []
        (flyMakeCmdBuild ({} : FlyMakeOpts) (fun _ => 0) flyMakeCompilerListDefault
          ⟨cs "hello", [⟨cs "lib/", FmkRule.lib, [cs "lib/a.c"]⟩], cs ". ", cs " "⟩
          [] [(cs "lib/a.c", 5)] []).st.fs
        (flyMakeCmdBuild ({} : FlyMakeOpts) (fun _ => 0) flyMakeCompilerListDefault
          ⟨cs "hello", [⟨cs "lib/", FmkRule.lib, [cs "lib/a.c"]⟩], cs ". ", cs " "⟩
          [] [(cs "lib/a.c", 5)] []).st.dirs).msg = BuildMsg.upToDate := by
  have h := flyMakeCmdBuild_idempotent ({} : FlyMakeOpts) (fun _ => 0)
    flyMakeCompilerListDefault
    ⟨cs "hello", [⟨cs "lib/", FmkRule.lib, [cs "lib/a.c"]⟩], cs ". ", cs " "⟩
    [] [(cs "lib/a.c", 5)] [] rfl rfl rfl (by decide) (by decide) (by decide)
  exact ⟨by decide, h.1, h.2.2.1⟩

end Flymake
